import Mathlib

/-!
# Disk-master: a shallow embedding of `disk_cleaner.cpp`

The definitions below follow `src/disk_cleaner.cpp` function by function.

* `std::string` is a list of characters (`Str`).
* `uint64_t` is a natural number reduced modulo `2^64` at every addition.
* `FileCategory` and category masks are natural numbers carrying the bit
  values of `disk_cleaner.h`.
* A directory tree is a value of type `Dir`: the entries of a directory in
  iteration order, each subdirectory carrying its own content. The functions
  that walk a directory (`scan_directory`, `calculate_directory_size`,
  `CleanupDirectory`, the cache and trash parts of `CleanupCategories`) take
  what their path names as an argument and return what it names afterwards.
* The functions that address files by the path strings of stored records
  (`clear_file_list`, `migrate_list`) work on a table of path entries
  (`Files`).
* The outcome of a system call that the code cannot predict (a size query
  that fails, a delete that fails, a directory that cannot be opened) is a
  field of the entry concerned.
* Paths are absolute and written without a trailing separator. Of the errors
  a directory iteration can raise, the denied permission that
  `skip_permission_denied` absorbs is modelled; the others are not.
* A scan is described in two ways, proved to agree when the scan thread runs
  alone (`run_thread_eq_scan_directory`). As one function (`scan_directory`),
  the scan runs from its first iteration to its last, and what another thread
  may change meanwhile (the stop flag, the rule tables) is read from a
  function of the iteration number. Step by step (`thread_step`, `Step`), the
  calls made by other threads are interleaved with the iterations of the scan
  thread; a call is taken to happen between two iterations.
* The guard `g_results_mutex` is described by the sequence of steps each
  function performs in program order (`Ev`).
-/

namespace DiskMaster

/-! ## Strings and paths -/

/-- A `std::string`. -/
abbrev Str := List Char

/-- The value `2^64`: `uint64_t` arithmetic wraps at this bound. -/
def U64 : Nat := 18446744073709551616

/-- The `std::transform(..., ::tolower)` idiom: lower-case every character. -/
def tolower (s : Str) : Str := s.map Char.toLower

/-- The `fs::path::filename()` member: the part after the last separator. -/
def filename (path : Str) : Str :=
  (path.reverse.takeWhile (fun c => c != '/')).reverse

/-- The `fs::path::extension()` member: the part of the filename from its last
period on; empty for the filenames `.` and `..`, for a filename without a
period, and when the only period is the first character. -/
def extension (path : Str) : Str :=
  let f := filename path
  if f = ['.'] ∨ f = ['.', '.'] then []
  else
    let upToDot := f.reverse.dropWhile (fun c => c != '.')
    if upToDot.length ≤ 1 then [] else f.drop (upToDot.length - 1)

/-- The `operator/` of `fs::path` for a relative right-hand side; the
left-hand side is taken to carry no trailing separator. -/
def pjoin (dir name : Str) : Str := dir ++ '/' :: name

/-- The test `s.rfind(x, 0) == 0` of the source: `s` starts with `x`. -/
def starts_with (s x : Str) : Bool := x.isPrefixOf s

/-- The hidden-entry test of `scan_directory`, `rfind('.', 0) == 0`: the name
starts with a period. -/
def is_hidden (name : Str) : Bool :=
  match name with
  | c :: _ => c == '.'
  | [] => false

/-! ## Categories (`disk_cleaner.h`) -/

/-- The enum `FileCategory`; masks are values of the same type. -/
abbrev FileCategory := Nat

def CATEGORY_UNKNOWN : FileCategory := 0
def CATEGORY_TRASH : FileCategory := 1
def CATEGORY_PACKAGES : FileCategory := 2
def CATEGORY_COMPRESSED : FileCategory := 4
def CATEGORY_VIDEO : FileCategory := 8
def CATEGORY_AUDIO : FileCategory := 16
def CATEGORY_IMAGE : FileCategory := 32
def CATEGORY_DOCUMENT : FileCategory := 64
def CATEGORY_THUMBNAIL_CACHE : FileCategory := 128
def CATEGORY_OTHER_APP_CACHE : FileCategory := 256

/-- The test `mask & bit` of the source, read as a boolean. -/
def has_bit (mask bit : Nat) : Bool := Nat.land mask bit != 0

/-! ## Category rules (`g_*_exts`, `g_compressed_endings`) -/

/-- The six global rule tables. An `unordered_set` is a list used only through
membership; `g_compressed_endings` is an ordered vector. -/
structure Rules where
  g_package_exts : List Str
  g_video_exts : List Str
  g_audio_exts : List Str
  g_image_exts : List Str
  g_document_exts : List Str
  g_compressed_endings : List Str

/-- The initial values of the rule tables. -/
def defaultRules : Rules where
  g_package_exts := [".deb", ".rpm", ".pkg", ".appimage"].map String.toList
  g_video_exts := [".mp4", ".mkv", ".avi", ".mov", ".wmv", ".flv", ".webm",
    ".3gp", ".m4v", ".mpg", ".rmvb", ".rm", ".vob", ".mpeg"].map String.toList
  g_audio_exts := [".mp3", ".wav", ".flac", ".aac", ".ogg", ".m4a", ".wma"].map String.toList
  g_image_exts := [".jpg", ".jpeg", ".png", ".gif", ".bmp", ".tiff", ".svg", ".webp"].map
    String.toList
  g_document_exts := [".pdf", ".doc", ".docx", ".xls", ".xlsx", ".ppt", ".pptx"].map
    String.toList
  g_compressed_endings := [".tar.gz", ".tar.bz2", ".tar.xz", ".tgz", ".zip", ".rar", ".7z",
    ".gz", ".bz2", ".xz", ".tar"].map String.toList

/-! ## `get_file_category` -/

/-- The hand-written `ends_with` of `get_file_category`:
`filename.length() >= ending.length() &&
 filename.compare(filename.length() - ending.length(), ending.length(), ending) == 0`. -/
def ends_with (fname ending : Str) : Bool :=
  decide (fname.length ≥ ending.length) &&
    (fname.drop (fname.length - ending.length)).take ending.length == ending

/-- The loop over `g_compressed_endings`: true when some iteration returns. -/
def compressed_loop (fname : Str) : List Str → Bool
  | [] => false
  | ending :: more => if ends_with fname ending then true else compressed_loop fname more

/-- The function `get_file_category` (its second argument is unused). -/
def get_file_category (r : Rules) (path : Str) : FileCategory :=
  let fname := tolower (filename path)
  if compressed_loop fname r.g_compressed_endings then CATEGORY_COMPRESSED
  else
    let ext := tolower (extension path)
    if r.g_package_exts.contains ext then CATEGORY_PACKAGES
    else if r.g_video_exts.contains ext then CATEGORY_VIDEO
    else if r.g_audio_exts.contains ext then CATEGORY_AUDIO
    else if r.g_image_exts.contains ext then CATEGORY_IMAGE
    else if r.g_document_exts.contains ext then CATEGORY_DOCUMENT
    else CATEGORY_UNKNOWN

/-- The classifier as the specification words it (section 4.1): Compressed
when the lower-cased filename ends with some configured ending; otherwise the
first category, in the order Packages, Video, Audio, Image, Document, whose
extension set contains the lower-cased last extension; otherwise Unknown. -/
def classify_reference (r : Rules) (path : Str) : FileCategory :=
  if r.g_compressed_endings.any (fun e => e.isSuffixOf (tolower (filename path))) then
    CATEGORY_COMPRESSED
  else
    match [(CATEGORY_PACKAGES, r.g_package_exts), (CATEGORY_VIDEO, r.g_video_exts),
        ( CATEGORY_AUDIO, r.g_audio_exts), (CATEGORY_IMAGE, r.g_image_exts),
        (CATEGORY_DOCUMENT, r.g_document_exts)].find?
        (fun entry => decide (tolower (extension path) ∈ entry.2)) with
    | some entry => entry.1
    | none => CATEGORY_UNKNOWN

/-- The categories a file can be classified into. -/
def scanned_or_unknown : List FileCategory :=
  [CATEGORY_UNKNOWN, CATEGORY_PACKAGES, CATEGORY_COMPRESSED, CATEGORY_VIDEO, CATEGORY_AUDIO,
    CATEGORY_IMAGE, CATEGORY_DOCUMENT]

/-! ## Directory trees -/

/-- The content of a directory, entry by entry in iteration order.
`file` is a regular file: `size` is what `fs::file_size` reports (`none` when
it reports an error) and `removable` says whether deleting it succeeds.
`sub` is a subdirectory: `readable` says whether it can be opened for
iteration (an unreadable one is passed over under `skip_permission_denied`),
`removable` whether removing it, once empty, succeeds. `other` is an entry
that is neither a regular file nor a directory. -/
inductive Dir where
  | nil : Dir
  | file (name : Str) (size : Option Nat) (removable : Bool) (rest : Dir) : Dir
  | sub (name : Str) (readable removable : Bool) (content : Dir) (rest : Dir) : Dir
  | other (name : Str) (removable : Bool) (rest : Dir) : Dir
  deriving DecidableEq

/-- What a path names, as `fs::status` sees it. For a directory, `readable`
says that its owner-read permission bit is set and that it can be opened for
iteration; the two are taken to go together. -/
inductive Ent where
  | file (size : Option Nat) (removable : Bool) : Ent
  | dir (readable removable : Bool) (content : Dir) : Ent
  | other (removable : Bool) : Ent
  deriving DecidableEq

/-- The entry a relative path (a list of names) leads to, below a directory
with the given content. -/
def entry_at : List Str → Dir → Option Ent
  | _, .nil => none
  | p, .file name size removable rest =>
      match p with
      | [] => none
      | c :: q =>
          if name = c then (if q = [] then some (.file size removable) else none)
          else entry_at (c :: q) rest
  | p, .sub name readable removable content rest =>
      match p with
      | [] => none
      | c :: q =>
          if name = c then
            (if q = [] then some (.dir readable removable content) else entry_at q content)
          else entry_at (c :: q) rest
  | p, .other name removable rest =>
      match p with
      | [] => none
      | c :: q =>
          if name = c then (if q = [] then some (.other removable) else none)
          else entry_at (c :: q) rest

/-- The content left once the entry at a relative path is taken away. -/
def erase_at : List Str → Dir → Dir
  | _, .nil => .nil
  | p, .file name size removable rest =>
      match p with
      | [] => .file name size removable rest
      | c :: q =>
          if name = c then (if q = [] then rest else .file name size removable rest)
          else .file name size removable (erase_at (c :: q) rest)
  | p, .sub name readable removable content rest =>
      match p with
      | [] => .sub name readable removable content rest
      | c :: q =>
          if name = c then
            (if q = [] then rest else .sub name readable removable (erase_at q content) rest)
          else .sub name readable removable content (erase_at (c :: q) rest)
  | p, .other name removable rest =>
      match p with
      | [] => .other name removable rest
      | c :: q =>
          if name = c then (if q = [] then rest else .other name removable rest)
          else .other name removable (erase_at (c :: q) rest)

/-- The string of the path reached from `dir_path` through the given names. -/
def path_string (dir_path : Str) (rel : List Str) : Str := rel.foldl pjoin dir_path

/-! ## `calculate_directory_size` -/

/-- The loop of `calculate_directory_size` over a recursive iteration:
`current_size += file_size` for every regular file whose size can be read. -/
def size_loop : Dir → Nat → Nat
  | .nil, acc => acc
  | .file _ size _ rest, acc =>
      match size with
      | some s => size_loop rest ((acc + s) % U64)
      | none => size_loop rest acc
  | .sub _ readable _ content rest, acc =>
      size_loop rest (if readable then size_loop content acc else acc)
  | .other _ _ rest, acc => size_loop rest acc

/-- The function `calculate_directory_size`: zero unless the path names a
directory; an unreadable directory yields an empty iteration. -/
def calculate_directory_size : Option Ent → Nat
  | some (.dir readable _ content) => if readable then size_loop content 0 else 0
  | _ => 0

/-! ## The result store -/

/-- The struct `FileInfo`. -/
structure FileInfo where
  path : Str
  size : Nat
  category : FileCategory
  deriving DecidableEq

/-- The global result containers and the running total. -/
structure Store where
  g_trash_files : List FileInfo
  g_package_files : List FileInfo
  g_compressed_files : List FileInfo
  g_video_files : List FileInfo
  g_audio_files : List FileInfo
  g_image_files : List FileInfo
  g_document_files : List FileInfo
  g_total_junk_size : Nat
  deriving DecidableEq

/-- The six scanned-category sequences, one after the other. -/
def Store.scanned (g : Store) : List FileInfo :=
  g.g_package_files ++ g.g_compressed_files ++ g.g_video_files ++ g.g_audio_files ++
    g.g_image_files ++ g.g_document_files

/-- The sum of the recorded sizes of a sequence of records. -/
def sum_sizes (l : List FileInfo) : Nat := (l.map FileInfo.size).sum

/-- The store as the head of `scan_directory` leaves it. -/
def cleared_store : Store where
  g_trash_files := []
  g_package_files := []
  g_compressed_files := []
  g_video_files := []
  g_audio_files := []
  g_image_files := []
  g_document_files := []
  g_total_junk_size := 0

/-! ## The scan -/

/-- One invocation of the progress callback: its four arguments, and the store
as it stands when the callback runs. -/
structure Call where
  file_path : Str
  file_size : Nat
  total_scanned_size : Nat
  category : FileCategory
  store_then : Store
  deriving DecidableEq

/-- What a scan reads from outside itself: the rule tables and the stop flag
as they stand at each iteration of the loop, the library function
`fs::weakly_canonical`, and whether a callback was supplied. -/
structure ScanEnv where
  rules_at : Nat → Rules
  stop_flag_at : Nat → Bool
  weakly_canonical : Str → Str
  callback : Bool

/-- The state of a running scan: the store, the callback invocations made so
far, the number of loop iterations completed, and whether the loop was left
through `break`. -/
structure ScanState where
  store : Store
  calls : List Call
  iter : Nat
  stopped : Bool
  deriving DecidableEq

/-- The block of `process_file_entry` under the lock: append the record to the
sequence of its category. -/
def push_record (g : Store) (info : FileInfo) : Store :=
  if info.category = CATEGORY_PACKAGES then
    { g with g_package_files := g.g_package_files ++ [info] }
  else if info.category = CATEGORY_COMPRESSED then
    { g with g_compressed_files := g.g_compressed_files ++ [info] }
  else if info.category = CATEGORY_VIDEO then
    { g with g_video_files := g.g_video_files ++ [info] }
  else if info.category = CATEGORY_AUDIO then
    { g with g_audio_files := g.g_audio_files ++ [info] }
  else if info.category = CATEGORY_IMAGE then
    { g with g_image_files := g.g_image_files ++ [info] }
  else if info.category = CATEGORY_DOCUMENT then
    { g with g_document_files := g.g_document_files ++ [info] }
  else g

/-- The function `process_file_entry`; `file_size` is the outcome of the size
query on `current_path`. -/
def process_file_entry (callback : Bool) (current_path : Str) (file_size : Option Nat)
    (category : FileCategory) (st : ScanState) : ScanState :=
  match file_size with
  | none => st
  | some sz =>
      let info : FileInfo := ⟨current_path, sz, category⟩
      let pushed := push_record st.store info
      let g : Store :=
        { pushed with g_total_junk_size := (pushed.g_total_junk_size + sz) % U64 }
      if callback then
        { st with
          store := g
          calls := st.calls ++ [⟨info.path, info.size, g.g_total_junk_size, info.category, g⟩] }
      else { st with store := g }

/-- The mask `CATEGORY_VIDEO | CATEGORY_AUDIO | CATEGORY_IMAGE | CATEGORY_DOCUMENT`. -/
def CATEGORY_ALL_MIGRATE : Nat :=
  Nat.lor (Nat.lor (Nat.lor CATEGORY_VIDEO CATEGORY_AUDIO) CATEGORY_IMAGE) CATEGORY_DOCUMENT

/-- The branch of the loop body of `scan_directory` taken for a regular file
that is not hidden. -/
def scan_regular_file (env : ScanEnv) (excluded_migrate_path current_path : Str)
    (file_size : Option Nat) (st : ScanState) : ScanState :=
  let category := get_file_category (env.rules_at st.iter) current_path
  let is_migrate_category := has_bit category CATEGORY_ALL_MIGRATE
  if is_migrate_category then
    if starts_with (env.weakly_canonical current_path) excluded_migrate_path then st
    else process_file_entry env.callback current_path file_size category st
  else if category != CATEGORY_UNKNOWN then
    process_file_entry env.callback current_path file_size category st
  else st

/-- The `while (it != end)` loop of `scan_directory` over the entries below
`dir`, in the order of a recursive directory iteration: an entry, then the
content of that entry when it is a directory the iterator descends into, then
the entries after it. Each entry is one iteration: the stop flag is read
first, and `break` ends every enclosing level. A hidden directory has its
recursion disabled; an unreadable one is not entered by the iterator. -/
def scan_loop (env : ScanEnv) (excluded_migrate_path : Str) :
    Str → Dir → ScanState → ScanState
  | _, .nil, st => st
  | dir, .file name size _ rest, st =>
      if st.stopped then st
      else if env.stop_flag_at st.iter then { st with stopped := true }
      else
        let current_path := pjoin dir name
        let st1 :=
          if is_hidden (filename current_path) then st
          else scan_regular_file env excluded_migrate_path current_path size st
        scan_loop env excluded_migrate_path dir rest { st1 with iter := st1.iter + 1 }
  | dir, .sub name readable _ content rest, st =>
      if st.stopped then st
      else if env.stop_flag_at st.iter then { st with stopped := true }
      else
        let current_path := pjoin dir name
        let st1 := { st with iter := st.iter + 1 }
        let st2 :=
          if is_hidden (filename current_path) then st1
          else if readable then scan_loop env excluded_migrate_path current_path content st1
          else st1
        scan_loop env excluded_migrate_path dir rest st2
  | dir, .other _ _ rest, st =>
      if st.stopped then st
      else if env.stop_flag_at st.iter then { st with stopped := true }
      else scan_loop env excluded_migrate_path dir rest { st with iter := st.iter + 1 }

/-- The function `scan_directory`: `root` is what `home_path_str` names. The
store is cleared first; a root that is not a directory makes the iterator
constructor throw, which ends the scan, and an unreadable one gives an empty
iteration. -/
def scan_directory (env : ScanEnv) (home_path_str : Str) (root : Option Ent) : ScanState :=
  let excluded_migrate_path := pjoin home_path_str "MoveFiles".toList
  let st0 : ScanState := ⟨cleared_store, [], 0, false⟩
  match root with
  | some (.dir readable _ content) =>
      if readable then scan_loop env excluded_migrate_path home_path_str content st0 else st0
  | _ => st0

/-! ## `CleanupDirectory` -/

/-- Phase one of `CleanupDirectory`: the recursive iteration that removes
every regular file whose size query and removal both succeed, adding its size
to `total_freed_space`. Returns what is left and the total. -/
def wipe_files : Dir → Nat → Dir × Nat
  | .nil, acc => (.nil, acc)
  | .file name size removable rest, acc =>
      match size with
      | some s =>
          if removable then wipe_files rest ((acc + s) % U64)
          else
            let r := wipe_files rest acc
            (.file name size removable r.1, r.2)
      | none =>
          let r := wipe_files rest acc
          (.file name size removable r.1, r.2)
  | .sub name readable removable content rest, acc =>
      if readable then
        let c := wipe_files content acc
        let r := wipe_files rest c.2
        (.sub name readable removable c.1 r.1, r.2)
      else
        let r := wipe_files rest acc
        (.sub name readable removable content r.1, r.2)
  | .other name removable rest, acc =>
      let r := wipe_files rest acc
      (.other name removable r.1, r.2)

/-- Phase two, step one: the paths of all subdirectories met by a recursive
iteration, as names relative to the root, `at_dir` being the directory whose
content is listed. -/
def collect_subdirs (at_dir : List Str) : Dir → List (List Str)
  | .nil => []
  | .file _ _ _ rest => collect_subdirs at_dir rest
  | .sub name readable _ content rest =>
      (at_dir ++ [name]) ::
        ((if readable then collect_subdirs (at_dir ++ [name]) content else []) ++
          collect_subdirs at_dir rest)
  | .other _ _ rest => collect_subdirs at_dir rest

/-- The order `std::sort` is asked to establish in phase two: a path comes
before every path whose string is shorter. Paths of equal length may come out
of `std::sort` in any order; `CleanupDirectory` below sorts by insertion, and
what is proved of phase two (`remove_empty_loop_clears`) holds for every list
sorted in this order. -/
def longer_first (dir_path : Str) (a b : List Str) : Prop :=
  (path_string dir_path a).length ≥ (path_string dir_path b).length

instance (dir_path : Str) : DecidableRel (longer_first dir_path) :=
  fun a b => inferInstanceAs
    (Decidable ((path_string dir_path a).length ≥ (path_string dir_path b).length))

/-- The library function `fs::is_empty`; `none` when it throws. -/
def fs_is_empty : Ent → Option Bool
  | .dir readable _ content => if readable then some (decide (content = .nil)) else none
  | .file size _ => size.map (fun s => s == 0)
  | .other _ => none

/-- Whether `fs::remove` succeeds on an entry: a directory must be empty. -/
def fs_remove_ok : Ent → Bool
  | .dir _ removable content => removable && decide (content = .nil)
  | .file _ removable => removable
  | .other removable => removable

/-- Phase two, step three: visit the sorted paths and remove each directory
that exists and is empty. An exception leaves the loop (it is caught after
it). The test `subdir_path != dir_path` is `p != []`. -/
def remove_empty_loop : List (List Str) → Dir → Dir
  | [], t => t
  | p :: more, t =>
      match entry_at p t with
      | none => remove_empty_loop more t
      | some e =>
          match fs_is_empty e with
          | none => t
          | some false => remove_empty_loop more t
          | some true =>
              if p != [] then
                if fs_remove_ok e then remove_empty_loop more (erase_at p t) else t
              else remove_empty_loop more t

/-- The function `CleanupDirectory`. `home` is `getenv("HOME")`,
`dir_path_str` the argument (`none` for a null pointer) and `target` what the
argument names (`none` when nothing exists there); the owner-read bit of a
directory is its `readable` field. Returns the byte count and what the
argument names afterwards. -/
def CleanupDirectory (home : Option Str) (weakly_canonical : Str → Str)
    (dir_path_str : Option Str) (target : Option Ent) : Nat × Option Ent :=
  match dir_path_str with
  | none => (0, target)
  | some s =>
      if s.length = 0 then (0, target)
      else
        match target with
        | none => (0, target)
        | some (.dir readable removable content) =>
            if !readable then (0, target)
            else
              match home with
              | none => (0, target)
              | some home_dir_str =>
                  if !starts_with (weakly_canonical s) home_dir_str then (0, target)
                  else
                    let phase1 := wipe_files content 0
                    let subdirs := collect_subdirs [] phase1.1
                    let sorted := subdirs.insertionSort (longer_first s)
                    (phase1.2, some (.dir readable removable (remove_empty_loop sorted phase1.1)))
        | some _ => (0, target)

/-! ## Files addressed by recorded paths -/

/-- An entry of the filesystem as the bulk operations address it, by the path
string of a record. `removable` says whether `fs::remove` succeeds on it,
`movable` whether `fs::rename` away from it succeeds. -/
structure PathEntry where
  path : Str
  is_dir : Bool
  removable : Bool
  movable : Bool
  deriving DecidableEq

/-- The entries that exist, and the paths at which `fs::create_directories`
fails. -/
structure Files where
  entries : List PathEntry
  uncreatable : List Str
  deriving DecidableEq

/-- The library function `fs::exists`. -/
def fs_exists (fs : Files) (p : Str) : Bool := fs.entries.any (fun e => e.path == p)

/-- The library function `fs::remove` (throwing form); `none` when it throws.
Removing a path that names nothing succeeds and changes nothing. -/
def fs_remove (fs : Files) (p : Str) : Option Files :=
  match fs.entries.find? (fun e => e.path == p) with
  | none => some fs
  | some e =>
      if e.removable then some { fs with entries := fs.entries.filter (fun x => x.path != p) }
      else none

/-- The `fs::path::parent_path()` member. -/
def parent_path (p : Str) : Str :=
  ((p.reverse.dropWhile (fun c => c != '/')).drop 1).reverse

/-- The library function `fs::rename`; `none` when it throws. The source must
exist and be movable, the parent of the target must be a directory, and the
target must not be a directory; a file at the target is replaced. -/
def fs_rename (fs : Files) (src dst : Str) : Option Files :=
  match fs.entries.find? (fun e => e.path == src) with
  | none => none
  | some e =>
      if e.movable && fs.entries.any (fun d => d.path == parent_path dst && d.is_dir) &&
          !fs.entries.any (fun d => d.path == dst && d.is_dir) then
        some { fs with
          entries :=
            fs.entries.filter (fun x => x.path != src && x.path != dst) ++ [{ e with path := dst }] }
      else none

/-- The library function `fs::create_directories`; `none` when it throws. -/
def create_directories (fs : Files) (p : Str) : Option Files :=
  if p ∈ fs.uncreatable then none
  else some { fs with entries := fs.entries ++ [⟨p, true, true, true⟩] }

/-! ## `MigrateCategories` -/

/-- The lambda `migrate_list`, without its final `files.clear()`: rename every
record whose source exists into `dest`; a failed rename is caught and the loop
goes on. -/
def migrate_list (dest : Str) : List FileInfo → Files → Files
  | [], fs => fs
  | info :: more, fs =>
      if fs_exists fs info.path then
        match fs_rename fs info.path (pjoin dest (filename info.path)) with
        | some fs1 => migrate_list dest more fs1
        | none => migrate_list dest more fs
      else migrate_list dest more fs

/-- The function `MigrateCategories`: returns the status, the store and the
files afterwards. -/
def MigrateCategories (category_mask : Nat) (destination_dir : Str) (g : Store) (fs : Files) :
    Int × Store × Files :=
  let prepared := if !fs_exists fs destination_dir then create_directories fs destination_dir
    else some fs
  match prepared with
  | none => (-1, g, fs)
  | some fs0 =>
      let s1 : Store × Files :=
        if has_bit category_mask CATEGORY_VIDEO then
          ({ g with g_video_files := [] }, migrate_list destination_dir g.g_video_files fs0)
        else (g, fs0)
      let s2 : Store × Files :=
        if has_bit category_mask CATEGORY_AUDIO then
          ({ s1.1 with g_audio_files := [] }, migrate_list destination_dir s1.1.g_audio_files s1.2)
        else s1
      let s3 : Store × Files :=
        if has_bit category_mask CATEGORY_IMAGE then
          ({ s2.1 with g_image_files := [] }, migrate_list destination_dir s2.1.g_image_files s2.2)
        else s2
      let s4 : Store × Files :=
        if has_bit category_mask CATEGORY_DOCUMENT then
          ({ s3.1 with g_document_files := [] },
            migrate_list destination_dir s3.1.g_document_files s3.2)
        else s3
      (0, s4.1, s4.2)

/-! ## Trash and caches -/

/-- The library function `fs::remove_all` applied to every entry of a
directory in turn: returns what is left and whether it ran to the end. It
stops at the first entry that cannot be removed. -/
def remove_all_content : Dir → Dir × Bool
  | .nil => (.nil, true)
  | .file name size removable rest =>
      if removable then remove_all_content rest else (.file name size removable rest, false)
  | .sub name readable removable content rest =>
      let c := if readable then remove_all_content content else (content, decide (content = .nil))
      if c.2 && removable then remove_all_content rest
      else (.sub name readable removable c.1 rest, false)
  | .other name removable rest =>
      if removable then remove_all_content rest else (.other name removable rest, false)

/-- The call `fs::remove_all(dir / name)`: returns the content of `dir`
afterwards and whether the call returned normally. A name that is absent is
not an error. -/
def remove_all_at (target : Str) : Dir → Dir × Bool
  | .nil => (.nil, true)
  | .file name size removable rest =>
      if name = target then
        (if removable then (rest, true) else (.file name size removable rest, false))
      else
        let r := remove_all_at target rest
        (.file name size removable r.1, r.2)
  | .sub name readable removable content rest =>
      if name = target then
        let c := if readable then remove_all_content content else (content, decide (content = .nil))
        if c.2 && removable then (rest, true) else (.sub name readable removable c.1 rest, false)
      else
        let r := remove_all_at target rest
        (.sub name readable removable content r.1, r.2)
  | .other name removable rest =>
      if name = target then
        (if removable then (rest, true) else (.other name removable rest, false))
      else
        let r := remove_all_at target rest
        (.other name removable r.1, r.2)

/-- A directory content with one more, empty, subdirectory. -/
def add_dir (name : Str) : Dir → Dir
  | .nil => .sub name true true .nil .nil
  | .file n size removable rest => .file n size removable (add_dir name rest)
  | .sub n readable removable content rest => .sub n readable removable content (add_dir name rest)
  | .other n removable rest => .other n removable (add_dir name rest)

/-- The call `fs::create_directories(dir / name)` inside an existing
directory: nothing to do when the name is a directory, an error when it is
something else. -/
def ensure_dir (name : Str) (content : Dir) : Option Dir :=
  match entry_at [name] content with
  | some (.dir _ _ _) => some content
  | some _ => none
  | none => some (add_dir name content)

/-- The environment of the bulk operations: `getenv("HOME")`, what
`HOME/.cache` and `HOME/.local/share/Trash` name, whether directories can be
created at the trash location, and the files addressed by recorded paths. -/
structure World where
  home : Option Str
  cache : Option Ent
  trash : Option Ent
  trash_creatable : Bool
  files : Files
  deriving DecidableEq

/-- The entry named `name` directly inside what `parent` names. -/
def child_of (parent : Option Ent) (name : Str) : Option Ent :=
  match parent with
  | some (.dir _ _ content) => entry_at [name] content
  | _ => none

/-- The function `internal_get_trash_size`. -/
def internal_get_trash_size (trash : Option Ent) : Nat :=
  (calculate_directory_size (child_of trash "files".toList) +
    calculate_directory_size (child_of trash "info".toList)) % U64

/-- The `try` block of `internal_empty_trash`: remove `files` and `info` when
they exist, then create both again. Returns what the trash location names
afterwards and whether the block ran to its end. -/
def empty_trash_block (creatable : Bool) (trash : Option Ent) : Option Ent × Bool :=
  match trash with
  | some (.dir readable removable content) =>
      let r1 := remove_all_at "files".toList content
      if !r1.2 then (some (.dir readable removable r1.1), false)
      else
        let r2 := remove_all_at "info".toList r1.1
        if !r2.2 then (some (.dir readable removable r2.1), false)
        else if !creatable then (some (.dir readable removable r2.1), false)
        else
          match ensure_dir "files".toList r2.1 with
          | none => (some (.dir readable removable r2.1), false)
          | some c1 =>
              match ensure_dir "info".toList c1 with
              | none => (some (.dir readable removable c1), false)
              | some c2 => (some (.dir readable removable c2), true)
  | none =>
      if creatable then
        (some (.dir true true (add_dir "info".toList (add_dir "files".toList .nil))), true)
      else (none, false)
  | some e => (some e, false)

/-- The function `internal_empty_trash`: returns its result and what the trash
location names afterwards. -/
def internal_empty_trash (creatable : Bool) (trash : Option Ent) : Nat × Option Ent :=
  let freed_space := internal_get_trash_size trash
  let r := empty_trash_block creatable trash
  (if r.2 then freed_space else 0, r.1)

/-- The function `GetSpecialCategorySize`. -/
def GetSpecialCategorySize (category : FileCategory) (w : World) : Nat :=
  match w.home with
  | none => 0
  | some _ =>
      if category = CATEGORY_TRASH then internal_get_trash_size w.trash
      else if category = CATEGORY_THUMBNAIL_CACHE then
        calculate_directory_size (child_of w.cache "thumbnails".toList)
      else if category = CATEGORY_OTHER_APP_CACHE then
        let total_cache_size := calculate_directory_size w.cache
        let thumb_cache_size := calculate_directory_size (child_of w.cache "thumbnails".toList)
        if total_cache_size > thumb_cache_size then total_cache_size - thumb_cache_size else 0
      else 0

/-! ## `CleanupCategories` -/

/-- The loop of the branch for `CATEGORY_OTHER_APP_CACHE` alone: every entry of
the cache directory but `thumbnails` is sized and removed. Returns what is
left and `freed_now`, or `none` for it when `fs::remove_all` threw. -/
def remove_others_loop (thumb : Str) : Dir → Nat → Dir × Option Nat
  | .nil, acc => (.nil, some acc)
  | .file name size removable rest, acc =>
      if name != thumb then
        if removable then remove_others_loop thumb rest ((acc + 0) % U64)
        else (.file name size removable rest, none)
      else
        let r := remove_others_loop thumb rest acc
        (.file name size removable r.1, r.2)
  | .sub name readable removable content rest, acc =>
      if name != thumb then
        let entry_size := calculate_directory_size (some (.dir readable removable content))
        let c := if readable then remove_all_content content else (content, decide (content = .nil))
        if c.2 && removable then remove_others_loop thumb rest ((acc + entry_size) % U64)
        else (.sub name readable removable c.1 rest, none)
      else
        let r := remove_others_loop thumb rest acc
        (.sub name readable removable content r.1, r.2)
  | .other name removable rest, acc =>
      if name != thumb then
        if removable then remove_others_loop thumb rest ((acc + 0) % U64)
        else (.other name removable rest, none)
      else
        let r := remove_others_loop thumb rest acc
        (.other name removable r.1, r.2)

/-- Part one of `CleanupCategories`, the cache directories: returns what
`HOME/.cache` names afterwards and `total_freed_space`. -/
def cleanup_caches (category_mask : Nat) (cache : Option Ent) : Option Ent × Nat :=
  if has_bit category_mask CATEGORY_OTHER_APP_CACHE &&
      has_bit category_mask CATEGORY_THUMBNAIL_CACHE then
    let size := calculate_directory_size cache
    match cache with
    | some (.dir readable removable content) =>
        if readable then
          let r := remove_all_content content
          (some (.dir readable removable r.1), if r.2 then size else 0)
        else (cache, 0)
    | _ => (cache, 0)
  else
    let s1 : Option Ent × Nat :=
      if has_bit category_mask CATEGORY_THUMBNAIL_CACHE then
        let size := calculate_directory_size (child_of cache "thumbnails".toList)
        match cache with
        | some (.dir readable removable content) =>
            let r := remove_all_at "thumbnails".toList content
            (some (.dir readable removable r.1), if r.2 then size else 0)
        | _ => (cache, size)
      else (cache, 0)
    if has_bit category_mask CATEGORY_OTHER_APP_CACHE then
      match s1.1 with
      | some (.dir readable removable content) =>
          if readable then
            let r := remove_others_loop "thumbnails".toList content 0
            (some (.dir readable removable r.1),
              match r.2 with
              | some freed_now => (s1.2 + freed_now) % U64
              | none => s1.2)
          else s1
      | _ => s1
    else s1

/-- The lambda `clear_file_list`, without its final `files.clear()`: delete
every record whose file exists, adding the recorded size of each one removed
to `total_freed_space`; a failed delete is caught and the loop goes on. -/
def clear_file_list : List FileInfo → Files → Nat → Files × Nat
  | [], fs, total => (fs, total)
  | info :: more, fs, total =>
      if fs_exists fs info.path then
        match fs_remove fs info.path with
        | some fs1 => clear_file_list more fs1 ((total + info.size) % U64)
        | none => clear_file_list more fs total
      else clear_file_list more fs total

/-- The function `CleanupCategories`: returns `total_freed_space`, the
environment and the store afterwards. -/
def CleanupCategories (category_mask : Nat) (w : World) (g : Store) : Nat × World × Store :=
  let c : Option Ent × Nat :=
    match w.home with
    | some _ => cleanup_caches category_mask w.cache
    | none => (w.cache, 0)
  let t : Option Ent × Nat × Store :=
    if has_bit category_mask CATEGORY_TRASH then
      match w.home with
      | some _ =>
          let trash_size_before := calculate_directory_size w.trash
          ((internal_empty_trash w.trash_creatable w.trash).2, (c.2 + trash_size_before) % U64,
            { g with g_trash_files := [] })
      | none => (w.trash, c.2, { g with g_trash_files := [] })
    else (w.trash, c.2, g)
  let p : Files × Nat × Store :=
    if has_bit category_mask CATEGORY_PACKAGES then
      let r := clear_file_list t.2.2.g_package_files w.files t.2.1
      (r.1, r.2, { t.2.2 with g_package_files := [] })
    else (w.files, t.2.1, t.2.2)
  let z : Files × Nat × Store :=
    if has_bit category_mask CATEGORY_COMPRESSED then
      let r := clear_file_list p.2.2.g_compressed_files p.1 p.2.1
      (r.1, r.2, { p.2.2 with g_compressed_files := [] })
    else p
  (z.2.1, { w with cache := c.1, trash := t.1, files := z.1 }, z.2.2)

/-! ## Notions used to state the properties -/

/-- No name in the tree contains the path separator. -/
def valid_names : Dir → Bool
  | .nil => true
  | .file name _ _ rest => decide ('/' ∉ name) && valid_names rest
  | .sub name _ _ content rest => decide ('/' ∉ name) && valid_names content && valid_names rest
  | .other name _ rest => decide ('/' ∉ name) && valid_names rest

/-- What the scan root names is well formed: when it is a directory, no name
below it contains the path separator. -/
def valid_root : Option Ent → Bool
  | some (.dir _ _ content) => valid_names content
  | _ => true

/-- The path `path` is `root` followed by components none of which begins
with a period. -/
def visible_below (root path : Str) : Prop :=
  ∃ comps : List Str, path = path_string root comps ∧
    ∀ c ∈ comps, is_hidden c = false ∧ '/' ∉ c

/-- All records of a store, the trash sequence included. -/
def Store.all_records (g : Store) : List FileInfo := g.scanned ++ g.g_trash_files

/-- The invariant of the running total. -/
def TotalInv (st : ScanState) : Prop :=
  st.store.g_total_junk_size = sum_sizes st.store.scanned % U64 ∧
  (∀ c ∈ st.calls, c.total_scanned_size = sum_sizes c.store_then.scanned % U64 ∧
    sum_sizes c.store_then.scanned ≤ sum_sizes st.store.scanned) ∧
  st.calls.Pairwise
    (fun a b => sum_sizes a.store_then.scanned ≤ sum_sizes b.store_then.scanned)

/-- Every name in the tree satisfies `N`. -/
def AllNames (N : Str → Prop) : Dir → Prop
  | .nil => True
  | .file name _ _ rest => N name ∧ AllNames N rest
  | .sub name _ _ content rest => N name ∧ AllNames N content ∧ AllNames N rest
  | .other name _ rest => N name ∧ AllNames N rest

/-- The records and callback paths of a scan state are all visible below
`root`. -/
def VisibleInv (root : Str) (st : ScanState) : Prop :=
  (∀ info ∈ st.store.all_records, visible_below root info.path) ∧
  (∀ c ∈ st.calls, visible_below root c.file_path)

/-- Some entry of the directory bears the name. -/
def has_name (name : Str) : Dir → Bool
  | .nil => false
  | .file n _ _ rest => decide (n = name) || has_name name rest
  | .sub n _ _ _ rest => decide (n = name) || has_name name rest
  | .other n _ rest => decide (n = name) || has_name name rest

/-- No two entries of one directory bear the same name, at every level. -/
def names_distinct : Dir → Bool
  | .nil => true
  | .file n _ _ rest => !has_name n rest && names_distinct rest
  | .sub n _ _ content rest => !has_name n rest && names_distinct content && names_distinct rest
  | .other n _ rest => !has_name n rest && names_distinct rest

/-- The tree is made of directories and regular files only, and every size
query and every delete in it succeeds. -/
def all_succeed : Dir → Bool
  | .nil => true
  | .file _ size removable rest => size.isSome && removable && all_succeed rest
  | .sub _ _ removable content rest => removable && all_succeed content && all_succeed rest
  | .other _ _ _ => false

/-- Every directory of the tree can be opened for iteration. -/
def all_readable : Dir → Bool
  | .nil => true
  | .file _ _ _ rest => all_readable rest
  | .sub _ readable _ content rest => readable && all_readable content && all_readable rest
  | .other _ _ rest => all_readable rest

/-- The sum of the sizes of the regular files of the tree. -/
def total_size : Dir → Nat
  | .nil => 0
  | .file _ size _ rest => size.getD 0 + total_size rest
  | .sub _ _ _ content rest => total_size content + total_size rest
  | .other _ _ rest => total_size rest

/-- The tree without its regular files. -/
def strip_files : Dir → Dir
  | .nil => .nil
  | .file _ _ _ rest => strip_files rest
  | .sub n readable removable content rest =>
      .sub n readable removable (strip_files content) (strip_files rest)
  | .other n removable rest => .other n removable (strip_files rest)

/-- The tree holds nothing but readable, removable directories. -/
def only_dirs : Dir → Bool
  | .nil => true
  | .sub _ readable removable content rest =>
      readable && removable && only_dirs content && only_dirs rest
  | _ => false

/-- The records of a sequence whose file still exists when its turn comes and
is then removed successfully, the sequence being worked through in order. -/
def removed_records : List FileInfo → Files → List FileInfo
  | [], _ => []
  | info :: more, fs =>
      if fs_exists fs info.path then
        match fs_remove fs info.path with
        | some fs1 => info :: removed_records more fs1
        | none => removed_records more fs
      else removed_records more fs

/-- The records a mask selects among the Packages and Compressed sequences,
in the order `CleanupCategories` works through them. -/
def selected_records (category_mask : Nat) (g : Store) : List FileInfo :=
  (if has_bit category_mask CATEGORY_PACKAGES then g.g_package_files else []) ++
    (if has_bit category_mask CATEGORY_COMPRESSED then g.g_compressed_files else [])

/-! ## `SetExtensions` -/

/-- The lambda `update_set` of `SetExtensions`: the set is emptied and every
non-null string is inserted as it is given. -/
def update_set (extensions : List (Option Str)) : List Str := extensions.filterMap id

/-- The order `SetExtensions` asks `std::sort` to establish among the
compressed endings: a longer ending comes first. -/
def longer_ending (a b : Str) : Prop := a.length ≥ b.length

instance : DecidableRel longer_ending :=
  fun a b => inferInstanceAs (Decidable (a.length ≥ b.length))

/-- The function `SetExtensions`; a null entry of the array is `none`. -/
def SetExtensions (category : FileCategory) (extensions : List (Option Str)) (r : Rules) :
    Rules :=
  if category = CATEGORY_PACKAGES then { r with g_package_exts := update_set extensions }
  else if category = CATEGORY_VIDEO then { r with g_video_exts := update_set extensions }
  else if category = CATEGORY_AUDIO then { r with g_audio_exts := update_set extensions }
  else if category = CATEGORY_IMAGE then { r with g_image_exts := update_set extensions }
  else if category = CATEGORY_DOCUMENT then { r with g_document_exts := update_set extensions }
  else if category = CATEGORY_COMPRESSED then
    { r with g_compressed_endings := (extensions.filterMap id).insertionSort longer_ending }
  else r

/-! ## `GetScanResults` -/

/-- The function `GetScanResults`: returns the array (`none` for a null
pointer) with the count written through `count`, and the store afterwards.
Each record is copied with a fresh copy of its path string. The count is an
`int` in the source; sequences are taken to be shorter than `2^31`. -/
def GetScanResults (category : FileCategory) (g : Store) :
    (Option (List FileInfo) × Nat) × Store :=
  let source_vec : Option (List FileInfo) :=
    if category = CATEGORY_TRASH then some g.g_trash_files
    else if category = CATEGORY_PACKAGES then some g.g_package_files
    else if category = CATEGORY_VIDEO then some g.g_video_files
    else if category = CATEGORY_AUDIO then some g.g_audio_files
    else if category = CATEGORY_IMAGE then some g.g_image_files
    else if category = CATEGORY_COMPRESSED then some g.g_compressed_files
    else if category = CATEGORY_DOCUMENT then some g.g_document_files
    else none
  match source_vec with
  | none => ((none, 0), g)
  | some v =>
      if v.length = 0 then ((none, 0), g)
      else ((some (v.map (fun info => { info with path := info.path })), v.length), g)

/-! ## The scan as a loop over the enumerated entries -/

/-- One entry as the recursive iterator hands it to the loop of
`scan_directory`: its path, whether it is a regular file, and the outcome of
the size query on it. -/
structure Visit where
  current_path : Str
  is_regular_file : Bool
  file_size : Option Nat
  deriving DecidableEq

/-- The entries the iterator of `scan_directory` enumerates below `dir`, in
order: a directory is followed by its content unless the loop disabled the
recursion (hidden name) or the directory cannot be opened. -/
def walk_entries : Str → Dir → List Visit
  | _, .nil => []
  | dir, .file name size _ rest => ⟨pjoin dir name, true, size⟩ :: walk_entries dir rest
  | dir, .sub name readable _ content rest =>
      ⟨pjoin dir name, false, none⟩ ::
        ((if is_hidden (filename (pjoin dir name)) then []
          else if readable then walk_entries (pjoin dir name) content else []) ++
          walk_entries dir rest)
  | dir, .other name _ rest => ⟨pjoin dir name, false, none⟩ :: walk_entries dir rest

/-- The entries a scan of `home_path_str` enumerates, `root` being what the
path names. -/
def entries_of (home_path_str : Str) (root : Option Ent) : List Visit :=
  match root with
  | some (.dir readable _ content) =>
      if readable then walk_entries home_path_str content else []
  | _ => []

/-- The body of the loop of `scan_directory` for one entry, from the hidden
test to the increment of the iterator. -/
def loop_body (env : ScanEnv) (excluded_migrate_path : Str) (v : Visit) (st : ScanState) :
    ScanState :=
  let st1 :=
    if is_hidden (filename v.current_path) then st
    else if v.is_regular_file then
      scan_regular_file env excluded_migrate_path v.current_path v.file_size st
    else st
  { st1 with iter := st1.iter + 1 }

/-- The loop of `scan_directory` over a list of enumerated entries. -/
def run_entries (env : ScanEnv) (excluded_migrate_path : Str) :
    List Visit → ScanState → ScanState
  | [], st => st
  | v :: more, st =>
      if st.stopped then st
      else if env.stop_flag_at st.iter then { st with stopped := true }
      else run_entries env excluded_migrate_path more (loop_body env excluded_migrate_path v st)

/-! ## The engine: `StartScan`, `StopScan`, `IsScanFinished` and the scan thread -/

/-- The scan thread `g_scan_thread` while it runs: the arguments it was
started with, what the root names, the entries its iterator has still to
enumerate (`none` until the thread has cleared the store and built the
iterator), the number of iterations done and the callback invocations made. -/
structure ScanThread where
  home_path_str : Str
  callback : Bool
  root : Option Ent
  pending : Option (List Visit)
  iter : Nat
  calls : List Call

/-- The global state of the library. -/
structure Engine where
  store : Store
  g_scan_finished : Bool
  g_stop_scan_flag : Bool
  rules : Rules
  thread : Option ScanThread

/-- The state at program start. -/
def initial_engine : Engine := ⟨cleared_store, true, false, defaultRules, none⟩

/-- The function `StartScan`; `root` is what `home_path` names. Joining the
previous thread changes nothing: it had returned when it set
`g_scan_finished`. -/
def StartScan (e : Engine) (home_path : Str) (root : Option Ent) (callback : Bool) : Engine :=
  if !e.g_scan_finished then e
  else
    { e with
      g_stop_scan_flag := false
      g_scan_finished := false
      thread := some ⟨home_path, callback, root, none, 0, []⟩ }

/-- The function `StopScan`. -/
def StopScan (e : Engine) : Engine := { e with g_stop_scan_flag := true }

/-- The function `IsScanFinished`. -/
def IsScanFinished (e : Engine) : Nat := if e.g_scan_finished then 1 else 0

/-- One step of the scan thread inside `scan_directory`: clearing the store
and building the iterator, or one iteration of the loop (the stop flag is read
first), or, when the loop is over, the final `g_scan_finished = true`. The
rule tables and the stop flag are read from the engine as they stand. -/
def thread_step (weakly_canonical : Str → Str) (e : Engine) : Engine :=
  match e.thread with
  | none => e
  | some t =>
      match t.pending with
      | none =>
          { e with
            store := cleared_store
            thread := some { t with pending := some (entries_of t.home_path_str t.root) } }
      | some [] => { e with g_scan_finished := true, thread := none }
      | some (v :: more) =>
          if e.g_stop_scan_flag then { e with g_scan_finished := true, thread := none }
          else
            let st := loop_body ⟨fun _ => e.rules, fun _ => false, weakly_canonical, t.callback⟩
              (pjoin t.home_path_str "MoveFiles".toList) v ⟨e.store, t.calls, t.iter, false⟩
            { e with
              store := st.store
              thread := some { t with pending := some more, iter := st.iter, calls := st.calls } }

/-- The states the library can reach: from the initial state through calls of
`StartScan` (on roots satisfying `P`), `StopScan`, `SetExtensions`,
`CleanupCategories` and `MigrateCategories`, interleaved in any way with the
steps of the scan thread. -/
inductive Reachable (weakly_canonical : Str → Str) (P : Str → Option Ent → Prop) :
    Engine → Prop
  | init : Reachable weakly_canonical P initial_engine
  | start (e : Engine) (home_path : Str) (root : Option Ent) (callback : Bool) :
      Reachable weakly_canonical P e → P home_path root →
      Reachable weakly_canonical P (StartScan e home_path root callback)
  | thread (e : Engine) :
      Reachable weakly_canonical P e → Reachable weakly_canonical P (thread_step weakly_canonical e)
  | stop (e : Engine) : Reachable weakly_canonical P e → Reachable weakly_canonical P (StopScan e)
  | set_rules (e : Engine) (category : FileCategory) (extensions : List (Option Str)) :
      Reachable weakly_canonical P e →
      Reachable weakly_canonical P { e with rules := SetExtensions category extensions e.rules }
  | cleanup (e : Engine) (category_mask : Nat) (w : World) :
      Reachable weakly_canonical P e →
      Reachable weakly_canonical P
        { e with store := (CleanupCategories category_mask w e.store).2.2 }
  | migrate (e : Engine) (category_mask : Nat) (destination_dir : Str) (fs : Files) :
      Reachable weakly_canonical P e →
      Reachable weakly_canonical P
        { e with store := (MigrateCategories category_mask destination_dir e.store fs).2.1 }

/-- The thread function as `StartScan` launches it, run from its first
statement to its last: `scan_directory`, whose final statement sets
`g_scan_finished`. What other threads do meanwhile is read from `env`. -/
def scan_directory_thread (env : ScanEnv) (home_path_str : Str) (root : Option Ent)
    (e : Engine) : Engine :=
  { e with
    store := (scan_directory env home_path_str root).store
    g_scan_finished := true
    thread := none }

/-- The sequence `query` is specified to return for a category argument: the
sequence of the category when the argument is one scanned category, and the
empty sequence for every other argument. -/
def sequence_of (category : FileCategory) (g : Store) : List FileInfo :=
  if category = CATEGORY_PACKAGES then g.g_package_files
  else if category = CATEGORY_COMPRESSED then g.g_compressed_files
  else if category = CATEGORY_VIDEO then g.g_video_files
  else if category = CATEGORY_AUDIO then g.g_audio_files
  else if category = CATEGORY_IMAGE then g.g_image_files
  else if category = CATEGORY_DOCUMENT then g.g_document_files
  else []

/-- The environment of a scan that is never asked to stop. -/
def without_stop (env : ScanEnv) : ScanEnv := { env with stop_flag_at := fun _ => false }

/-- The environment of a scan whose rule tables are `r` throughout. -/
def with_rules (env : ScanEnv) (r : Rules) : ScanEnv := { env with rules_at := fun _ => r }

/-- Every sequence of `g` is an initial part of the same sequence of `g'`. -/
def store_prefix (g g' : Store) : Prop :=
  g.g_trash_files <+: g'.g_trash_files ∧ g.g_package_files <+: g'.g_package_files ∧
  g.g_compressed_files <+: g'.g_compressed_files ∧ g.g_video_files <+: g'.g_video_files ∧
  g.g_audio_files <+: g'.g_audio_files ∧ g.g_image_files <+: g'.g_image_files ∧
  g.g_document_files <+: g'.g_document_files

/-- The iterator of a scan of `home_path_str` hands out no path twice. -/
def each_path_once (home_path_str : Str) (root : Option Ent) : Prop :=
  ((entries_of home_path_str root).map Visit.current_path).Nodup

/-- The paths the scan thread of an engine has still to enumerate. -/
def pending_paths (e : Engine) : List Str :=
  match e.thread with
  | some t => (t.pending.getD []).map Visit.current_path
  | none => []

/-- The invariant behind mutual exclusivity: every record sits in the
sequence of its own category, no path is recorded twice or both recorded and
still to come, and a thread that has not begun was started on a root whose
paths are enumerated once. -/
def ExclusiveInv (e : Engine) : Prop :=
  (∀ c, ∀ info ∈ sequence_of c e.store, info.category = c) ∧
  ((e.store.scanned.map FileInfo.path) ++ pending_paths e).Nodup ∧
  (∀ t, e.thread = some t → t.pending = none → each_path_once t.home_path_str t.root)

/-- Every scanned-category sequence of `g'` is what is left of the same
sequence of `g` after some records were dropped. -/
def store_sublist (g' g : Store) : Prop :=
  g'.g_package_files.Sublist g.g_package_files ∧
  g'.g_compressed_files.Sublist g.g_compressed_files ∧
  g'.g_video_files.Sublist g.g_video_files ∧ g'.g_audio_files.Sublist g.g_audio_files ∧
  g'.g_image_files.Sublist g.g_image_files ∧ g'.g_document_files.Sublist g.g_document_files

/-! ## The guard `g_results_mutex`: what each function does, in order -/

/-- The steps of a function that matter to the guard discipline, named after
the statement of the source that performs them: taking and releasing
`g_results_mutex`; reading and writing one of the seven sequences;
`g_total_junk_size = 0` (`total_reset`), `g_total_junk_size += file_size`
(`total_add`) and the load of `g_total_junk_size` (`total_read`);
`fs::file_size` on a scanned file; `calculate_directory_size` on a cache path
and `fs::remove_all` on a cache path; the size computations on the trash and
the `remove_all` and `create_directories` calls on it; `fs::remove` and
`fs::rename` on a recorded file; `fs::create_directories` on the destination
of a migration; the invocation of the progress callback. -/
inductive Ev where
  | lock : Ev
  | unlock : Ev
  | seq_read : Ev
  | seq_write : Ev
  | total_reset : Ev
  | total_add : Ev
  | total_read : Ev
  | file_size_query : Ev
  | cache_size_query : Ev
  | cache_removal : Ev
  | trash_size_query : Ev
  | trash_mutation : Ev
  | record_removal : Ev
  | record_rename : Ev
  | destination_creation : Ev
  | callback : Ev
  deriving DecidableEq

/-- The steps of `process_file_entry`: the size query; then, when it
succeeds, the `push_back` inside the block of the `lock_guard`, the update of
`g_total_junk_size` after that block, and the callback, one of whose arguments
is `g_total_junk_size`. -/
def process_file_entry_trace (callback : Bool) (file_size : Option Nat) : List Ev :=
  Ev.file_size_query ::
    (match file_size with
    | none => []
    | some _ =>
        [Ev.lock, Ev.seq_write, Ev.unlock, Ev.total_add] ++
          (if callback then [Ev.total_read, Ev.callback] else []))

/-- The steps of the loop body of `scan_directory` for a regular file that is
not hidden: those of `process_file_entry` when it is called. -/
def scan_regular_file_trace (env : ScanEnv) (excluded_migrate_path current_path : Str)
    (file_size : Option Nat) (st : ScanState) : List Ev :=
  let category := get_file_category (env.rules_at st.iter) current_path
  let is_migrate_category := has_bit category CATEGORY_ALL_MIGRATE
  if is_migrate_category then
    if starts_with (env.weakly_canonical current_path) excluded_migrate_path then []
    else process_file_entry_trace env.callback file_size
  else if category != CATEGORY_UNKNOWN then process_file_entry_trace env.callback file_size
  else []

/-- The steps of the loop of `scan_directory` over a list of entries. -/
def run_entries_trace (env : ScanEnv) (excluded_migrate_path : Str) :
    List Visit → ScanState → List Ev
  | [], _ => []
  | v :: more, st =>
      if st.stopped then []
      else if env.stop_flag_at st.iter then []
      else
        (if is_hidden (filename v.current_path) then []
          else if v.is_regular_file then
            scan_regular_file_trace env excluded_migrate_path v.current_path v.file_size st
          else []) ++
          run_entries_trace env excluded_migrate_path more
            (loop_body env excluded_migrate_path v st)

/-- The steps of `scan_directory`: the seven `clear()` calls and the reset of
the total inside the first block, then the loop. -/
def scan_directory_trace (env : ScanEnv) (home_path_str : Str) (root : Option Ent) : List Ev :=
  [Ev.lock] ++ List.replicate 7 Ev.seq_write ++ [Ev.total_reset, Ev.unlock] ++
    run_entries_trace env (pjoin home_path_str "MoveFiles".toList)
      (entries_of home_path_str root) ⟨cleared_store, [], 0, false⟩

/-- The steps of `GetScanResults`: the `lock_guard` is its first statement and
lives to the return; the size of the sequence is read, then each record. -/
def GetScanResults_trace (category : FileCategory) (g : Store) : List Ev :=
  let source_vec : Option (List FileInfo) :=
    if category = CATEGORY_TRASH then some g.g_trash_files
    else if category = CATEGORY_PACKAGES then some g.g_package_files
    else if category = CATEGORY_VIDEO then some g.g_video_files
    else if category = CATEGORY_AUDIO then some g.g_audio_files
    else if category = CATEGORY_IMAGE then some g.g_image_files
    else if category = CATEGORY_COMPRESSED then some g.g_compressed_files
    else if category = CATEGORY_DOCUMENT then some g.g_document_files
    else none
  match source_vec with
  | none => [Ev.lock, Ev.unlock]
  | some v => [Ev.lock, Ev.seq_read] ++ v.map (fun _ => Ev.seq_read) ++ [Ev.unlock]

/-- The `fs::remove_all` calls of a loop over the entries of a directory, up
to the first that throws. -/
def remove_each_trace : Dir → List Ev
  | .nil => []
  | .file _ _ removable rest => Ev.cache_removal :: (if removable then remove_each_trace rest else [])
  | .sub _ readable removable content rest =>
      Ev.cache_removal ::
        (if (if readable then remove_all_content content
            else (content, decide (content = .nil))).2 && removable
          then remove_each_trace rest else [])
  | .other _ removable rest =>
      Ev.cache_removal :: (if removable then remove_each_trace rest else [])

/-- The steps of the loop of the branch for `CATEGORY_OTHER_APP_CACHE` alone:
for every entry but `thumbnails`, `calculate_directory_size` and
`fs::remove_all`, up to the first that throws. -/
def remove_others_trace (thumb : Str) : Dir → List Ev
  | .nil => []
  | .file name _ removable rest =>
      if name != thumb then
        [Ev.cache_size_query, Ev.cache_removal] ++
          (if removable then remove_others_trace thumb rest else [])
      else remove_others_trace thumb rest
  | .sub name readable removable content rest =>
      if name != thumb then
        [Ev.cache_size_query, Ev.cache_removal] ++
          (if (if readable then remove_all_content content
              else (content, decide (content = .nil))).2 && removable
            then remove_others_trace thumb rest else [])
      else remove_others_trace thumb rest
  | .other name removable rest =>
      if name != thumb then
        [Ev.cache_size_query, Ev.cache_removal] ++
          (if removable then remove_others_trace thumb rest else [])
      else remove_others_trace thumb rest

/-- What `HOME/.cache` names once the branch for `CATEGORY_THUMBNAIL_CACHE`
alone has run, when the mask selects it. -/
def cache_after_thumbnails (category_mask : Nat) (cache : Option Ent) : Option Ent :=
  if has_bit category_mask CATEGORY_THUMBNAIL_CACHE then
    match cache with
    | some (.dir readable removable content) =>
        some (.dir readable removable (remove_all_at "thumbnails".toList content).1)
    | _ => cache
  else cache

/-- The steps of part one of `CleanupCategories`, the cache directories. -/
def cleanup_caches_trace (category_mask : Nat) (cache : Option Ent) : List Ev :=
  if has_bit category_mask CATEGORY_OTHER_APP_CACHE &&
      has_bit category_mask CATEGORY_THUMBNAIL_CACHE then
    Ev.cache_size_query ::
      (match cache with
      | some (.dir readable _ content) => if readable then remove_each_trace content else []
      | _ => [])
  else
    (if has_bit category_mask CATEGORY_THUMBNAIL_CACHE then
      [Ev.cache_size_query, Ev.cache_removal]
      else []) ++
    (if has_bit category_mask CATEGORY_OTHER_APP_CACHE then
      (match cache_after_thumbnails category_mask cache with
      | some (.dir readable _ content) =>
          if readable then remove_others_trace "thumbnails".toList content else []
      | _ => [])
    else [])

/-- The steps of `internal_empty_trash`: the two size computations, then the
calls of the `try` block up to the first that throws. -/
def internal_empty_trash_trace (creatable : Bool) (trash : Option Ent) : List Ev :=
  [Ev.trash_size_query, Ev.trash_size_query] ++
    (match trash with
    | some (.dir _ _ content) =>
        (if (entry_at ["files".toList] content).isSome then [Ev.trash_mutation] else []) ++
        (if (remove_all_at "files".toList content).2 then
          (if (entry_at ["info".toList] (remove_all_at "files".toList content).1).isSome then
            [Ev.trash_mutation] else []) ++
          (if (remove_all_at "info".toList (remove_all_at "files".toList content).1).2 then
            Ev.trash_mutation :: (if creatable then [Ev.trash_mutation] else [])
          else [])
        else [])
    | _ => Ev.trash_mutation :: (if creatable then [Ev.trash_mutation] else []))

/-- The steps of the lambda `clear_file_list`: every record is read from the
sequence, `fs::remove` is called when the file exists, and the sequence is
cleared at the end. -/
def clear_file_list_trace : List FileInfo → Files → List Ev
  | [], _ => [Ev.seq_write]
  | info :: more, fs =>
      if fs_exists fs info.path then
        [Ev.seq_read, Ev.record_removal] ++
          clear_file_list_trace more
            (match fs_remove fs info.path with
            | some fs1 => fs1
            | none => fs)
      else Ev.seq_read :: clear_file_list_trace more fs

/-- One call `clear_file_list(files)` of `CleanupCategories`, made when the
mask selects the sequence: the files afterwards and the steps so far. -/
def clear_step (selected : Bool) (files : List FileInfo) (s : Files × List Ev) :
    Files × List Ev :=
  if selected then ((clear_file_list files s.1 0).1, s.2 ++ clear_file_list_trace files s.1)
  else s

/-- The steps of `CleanupCategories`: the caches first; then the `lock_guard`,
which lives to the return; under it the trash (sized, emptied, its sequence
cleared), then the Packages and the Compressed sequences. -/
def CleanupCategories_trace (category_mask : Nat) (w : World) (g : Store) : List Ev :=
  let caches : List Ev :=
    match w.home with
    | some _ => cleanup_caches_trace category_mask w.cache
    | none => []
  let trash : List Ev :=
    if has_bit category_mask CATEGORY_TRASH then
      (match w.home with
        | some _ => Ev.trash_size_query :: internal_empty_trash_trace w.trash_creatable w.trash
        | none => []) ++ [Ev.seq_write]
    else []
  let s1 := clear_step (has_bit category_mask CATEGORY_PACKAGES) g.g_package_files
    (w.files, caches ++ [Ev.lock] ++ trash)
  let s2 := clear_step (has_bit category_mask CATEGORY_COMPRESSED) g.g_compressed_files s1
  s2.2 ++ [Ev.unlock]

/-- The steps of the lambda `migrate_list`: every record is read from the
sequence, `fs::rename` is called when the source exists, and the sequence is
cleared at the end. -/
def migrate_list_trace (dest : Str) : List FileInfo → Files → List Ev
  | [], _ => [Ev.seq_write]
  | info :: more, fs =>
      if fs_exists fs info.path then
        [Ev.seq_read, Ev.record_rename] ++
          migrate_list_trace dest more
            (match fs_rename fs info.path (pjoin dest (filename info.path)) with
            | some fs1 => fs1
            | none => fs)
      else Ev.seq_read :: migrate_list_trace dest more fs

/-- One call `migrate_list(files)` of `MigrateCategories`, made when the mask
selects the sequence: the files afterwards and the steps so far. -/
def migrate_step (dest : Str) (selected : Bool) (files : List FileInfo)
    (s : Files × List Ev) : Files × List Ev :=
  if selected then (migrate_list dest files s.1, s.2 ++ migrate_list_trace dest files s.1)
  else s

/-- The steps of `MigrateCategories`: the destination is created when it is
missing; the `lock_guard` follows and lives to the return; under it the four
sequences are migrated in turn. -/
def MigrateCategories_trace (category_mask : Nat) (destination_dir : Str) (g : Store)
    (fs : Files) : List Ev :=
  let create : List Ev :=
    if !fs_exists fs destination_dir then [Ev.destination_creation] else []
  match (if !fs_exists fs destination_dir then create_directories fs destination_dir
      else some fs) with
  | none => create
  | some fs0 =>
      let s1 := migrate_step destination_dir (has_bit category_mask CATEGORY_VIDEO)
        g.g_video_files (fs0, create ++ [Ev.lock])
      let s2 := migrate_step destination_dir (has_bit category_mask CATEGORY_AUDIO)
        g.g_audio_files s1
      let s3 := migrate_step destination_dir (has_bit category_mask CATEGORY_IMAGE)
        g.g_image_files s2
      let s4 := migrate_step destination_dir (has_bit category_mask CATEGORY_DOCUMENT)
        g.g_document_files s3
      s4.2 ++ [Ev.unlock]

/-- A discipline: for each kind of step, whether it must happen while the
guard is held (`some true`), while it is not held (`some false`), or either
(`none`). -/
abbrev Policy := Ev → Option Bool

/-- Whether a sequence of steps keeps a discipline, `held` telling whether the
guard is held at its start. A `lock` must find the guard free and an `unlock`
must find it held. -/
def obeys (policy : Policy) : Bool → List Ev → Bool
  | _, [] => true
  | held, Ev.lock :: more => !held && obeys policy true more
  | held, Ev.unlock :: more => held && obeys policy false more
  | held, ev :: more =>
      (match policy ev with
        | some required => required == held
        | none => true) && obeys policy held more

/-- Whether the guard is held after a sequence of steps. -/
def held_after : Bool → List Ev → Bool
  | held, [] => held
  | _, Ev.lock :: more => held_after true more
  | _, Ev.unlock :: more => held_after false more
  | held, _ :: more => held_after held more

/-- The discipline of section 5 of the specification: sequences and running
total under the guard; size computation, filesystem mutation and callback
outside it. -/
def stated_policy : Policy
  | Ev.lock => none
  | Ev.unlock => none
  | Ev.seq_read => some true
  | Ev.seq_write => some true
  | Ev.total_reset => some true
  | Ev.total_add => some true
  | Ev.total_read => some true
  | Ev.file_size_query => some false
  | Ev.cache_size_query => some false
  | Ev.cache_removal => some false
  | Ev.trash_size_query => some false
  | Ev.trash_mutation => some false
  | Ev.record_removal => some false
  | Ev.record_rename => some false
  | Ev.destination_creation => some false
  | Ev.callback => some false

/-- The part of the stated discipline that is about the running total. -/
def total_policy : Policy
  | Ev.total_reset => some true
  | Ev.total_add => some true
  | Ev.total_read => some true
  | _ => none

/-- The part of the stated discipline that is about size computation. -/
def size_policy : Policy
  | Ev.file_size_query => some false
  | Ev.cache_size_query => some false
  | Ev.trash_size_query => some false
  | _ => none

/-- The part of the stated discipline that is about filesystem mutation. -/
def mutation_policy : Policy
  | Ev.cache_removal => some false
  | Ev.trash_mutation => some false
  | Ev.record_removal => some false
  | Ev.record_rename => some false
  | Ev.destination_creation => some false
  | _ => none

/-- The discipline the code keeps; it fixes the side of the guard for every
kind of step. Under the guard: the sequences, the reset of the running total,
the sizing and emptying of the trash, the removal and the renaming of recorded
files. With the guard free: the addition to the running total and its load for
the callback, the size query on a scanned file, the sizing and removal of the
caches, the creation of the destination directory, the callback. -/
def kept_policy : Policy
  | Ev.lock => none
  | Ev.unlock => none
  | Ev.seq_read => some true
  | Ev.seq_write => some true
  | Ev.total_reset => some true
  | Ev.total_add => some false
  | Ev.total_read => some false
  | Ev.file_size_query => some false
  | Ev.cache_size_query => some false
  | Ev.cache_removal => some false
  | Ev.trash_size_query => some true
  | Ev.trash_mutation => some true
  | Ev.record_removal => some true
  | Ev.record_rename => some true
  | Ev.destination_creation => some false
  | Ev.callback => some false

/-- A sequence of steps keeps the discipline of `kept_policy` when started
with the guard in state `before`, and leaves the guard in state `after`. -/
def Seg (before after : Bool) (tr : List Ev) : Prop :=
  obeys kept_policy before tr = true ∧ held_after before tr = after

/-- The steps `kept_policy` places under the guard. -/
def inner_steps : List Ev :=
  [Ev.seq_read, Ev.seq_write, Ev.total_reset, Ev.trash_size_query, Ev.trash_mutation,
    Ev.record_removal, Ev.record_rename]

/-- The steps `kept_policy` places outside the guard. -/
def outer_steps : List Ev :=
  [Ev.total_add, Ev.total_read, Ev.file_size_query, Ev.cache_size_query, Ev.cache_removal,
    Ev.destination_creation, Ev.callback]

/-- The scan thread left to run `n` steps with nothing else happening. -/
def run_thread (weakly_canonical : Str → Str) : Nat → Engine → Engine
  | 0, e => e
  | n + 1, e => run_thread weakly_canonical n (thread_step weakly_canonical e)

/-! ## The engine, step by step -/

theorem ends_with_eq_isSuffixOf (fname ending : Str) :
    ends_with fname ending = ending.isSuffixOf fname := by
  rw [Bool.eq_iff_iff, List.isSuffixOf_iff_suffix]
  unfold ends_with
  simp only [Bool.and_eq_true, decide_eq_true_eq, beq_iff_eq, ge_iff_le]
  constructor
  · rintro ⟨hlen, h⟩
    rw [List.suffix_iff_eq_drop]
    have hfull : (fname.drop (fname.length - ending.length)).take ending.length =
        fname.drop (fname.length - ending.length) :=
      List.take_of_length_le (by rw [List.length_drop]; omega)
    rw [← h, hfull, List.length_drop]
    congr 1
    omega
  · intro h
    have hlen := h.length_le
    refine ⟨hlen, ?_⟩
    rw [List.suffix_iff_eq_drop] at h
    rw [← h]
    exact List.take_length ending

theorem compressed_loop_eq_any (fname : Str) (endings : List Str) :
    compressed_loop fname endings = endings.any (fun e => e.isSuffixOf fname) := by
  induction endings with
  | nil => rfl
  | cons e more ih =>
      simp only [compressed_loop, List.any_cons, ih, ends_with_eq_isSuffixOf]
      cases e.isSuffixOf fname <;> simp

theorem get_file_category_mem (r : Rules) (path : Str) :
    get_file_category r path ∈ scanned_or_unknown := by
  unfold get_file_category scanned_or_unknown
  simp only []
  split_ifs <;> simp

/-! ## C4 -/

/-- C4: `get_file_category` equals the reference classifier of the
specification for every path and every rule set, and its result is always one
of Unknown, Packages, Compressed, Video, Audio, Image, Document (so never
Trash, ThumbnailCache, OtherAppCache, nor a combination of bits). -/
theorem get_file_category_eq_reference (r : Rules) (path : Str) :
    get_file_category r path = classify_reference r path ∧
      get_file_category r path ∈ scanned_or_unknown := by
  refine ⟨?_, get_file_category_mem r path⟩
  unfold get_file_category classify_reference
  simp only [compressed_loop_eq_any]
  split_ifs with h1 h2 h3 h4 h5 h6
  · rfl
  all_goals
    simp_all [List.find?_cons]

/-! ## C1 -/

/-- What the guard of `CleanupDirectory` does ensure: when the canonical path
string does not start with the `HOME` string, the call returns 0 and changes
nothing. -/
theorem CleanupDirectory_refuses_unless_home_string (home : Option Str)
    (weakly_canonical : Str → Str) (s : Str) (target : Option Ent)
    (h : ∀ home_dir_str, home = some home_dir_str →
      starts_with (weakly_canonical s) home_dir_str = false) :
    CleanupDirectory home weakly_canonical (some s) target = (0, target) := by
  unfold CleanupDirectory
  simp only []
  split_ifs
  · rfl
  · split
    · rfl
    · split_ifs
      · rfl
      · cases home with
        | none => rfl
        | some home_dir_str => simp [h home_dir_str rfl]
    · rfl

/-- C1 (the code departs from it): with `HOME=/home/user`, `CleanupDirectory`
called on the existing readable directory `/home/user2`, which is neither the
home directory nor inside it, passes the home check because the string
`/home/user2` starts with the string `/home/user`; it deletes the file found
there and returns its size instead of refusing with 0. -/
theorem CleanupDirectory_outside_home_deletes :
    CleanupDirectory (some "/home/user".toList) id (some "/home/user2".toList)
        (some (.dir true true (.file "notes.txt".toList (some 5) true .nil))) =
      (5, some (.dir true true .nil)) ∧
    "/home/user2".toList ≠ "/home/user".toList ∧
    ¬ ("/home/user/".toList <+: "/home/user2".toList) := by
  decide

/-! ## C2 -/

/-- C2 (the code departs from it): in a scan of `/home/u` under the default
rules, the regular file `/home/u/MoveFiles2/a.mp4` is not hidden, is
classified Video, has a readable size and does not lie inside
`/home/u/MoveFiles`, yet it is left out of the results, because its path
string starts with the string `/home/u/MoveFiles`. -/
theorem scan_directory_skips_sibling_of_MoveFiles :
    (scan_directory ⟨fun _ => defaultRules, fun _ => false, id, true⟩ "/home/u".toList
        (some (.dir true true
          (.sub "MoveFiles2".toList true true
            (.file "a.mp4".toList (some 7) true .nil) .nil)))).store.scanned = [] ∧
    get_file_category defaultRules "/home/u/MoveFiles2/a.mp4".toList = CATEGORY_VIDEO ∧
    is_hidden "MoveFiles2".toList = false ∧ is_hidden "a.mp4".toList = false ∧
    ¬ ("/home/u/MoveFiles/".toList <+: "/home/u/MoveFiles2/a.mp4".toList) := by
  decide

/-! ## C6 -/

/-- C6: when the argument of `CleanupDirectory` is null or empty, or names
nothing, or names something that is not a directory, or names a directory
without owner read permission, the call returns 0 and what the argument names
is exactly as before. -/
theorem CleanupDirectory_precheck (home : Option Str) (weakly_canonical : Str → Str)
    (dir_path_str : Option Str) (target : Option Ent)
    (h : dir_path_str = none ∨ dir_path_str = some [] ∨ target = none ∨
      (∃ size removable, target = some (.file size removable)) ∨
      (∃ removable, target = some (.other removable)) ∨
      (∃ removable content, target = some (.dir false removable content))) :
    CleanupDirectory home weakly_canonical dir_path_str target = (0, target) := by
  unfold CleanupDirectory
  rcases h with h | h | h | ⟨size, removable, h⟩ | ⟨removable, h⟩ | ⟨removable, content, h⟩
  · subst h; rfl
  · subst h; rfl
  · subst h
    cases dir_path_str with
    | none => rfl
    | some s => simp only []; split_ifs <;> rfl
  · subst h
    cases dir_path_str with
    | none => rfl
    | some s => simp only []; split_ifs <;> rfl
  · subst h
    cases dir_path_str with
    | none => rfl
    | some s => simp only []; split_ifs <;> rfl
  · subst h
    cases dir_path_str with
    | none => rfl
    | some s => simp

/-- C6 at the path of test case 2 of the driver, which names nothing. -/
theorem CleanupDirectory_precheck_witness :
    CleanupDirectory (some "/home/u".toList) id (some "/path/to/nonexistent/dir".toList) none =
      (0, none) :=
  CleanupDirectory_precheck _ _ _ _ (Or.inr (Or.inr (Or.inl rfl)))

/-! ## C8 -/

/-- C8: `MigrateCategories` returns -1 exactly when the destination does not
exist and cannot be created, and then the store and the files are unchanged;
otherwise it returns 0, every selected sequence among Video, Audio, Image and
Document is empty, and every other sequence (Packages, Compressed and Trash
for any mask) and the running total are unchanged. -/
theorem MigrateCategories_status (category_mask : Nat) (destination_dir : Str) (g : Store)
    (fs : Files) :
    ((MigrateCategories category_mask destination_dir g fs).1 = -1 ↔
        (fs_exists fs destination_dir = false ∧ create_directories fs destination_dir = none)) ∧
    ((MigrateCategories category_mask destination_dir g fs).1 = -1 →
        (MigrateCategories category_mask destination_dir g fs).2 = (g, fs)) ∧
    ((MigrateCategories category_mask destination_dir g fs).1 ≠ -1 →
        (MigrateCategories category_mask destination_dir g fs).1 = 0 ∧
        (MigrateCategories category_mask destination_dir g fs).2.1 =
          { g with
            g_video_files := if has_bit category_mask CATEGORY_VIDEO then [] else g.g_video_files
            g_audio_files := if has_bit category_mask CATEGORY_AUDIO then [] else g.g_audio_files
            g_image_files := if has_bit category_mask CATEGORY_IMAGE then [] else g.g_image_files
            g_document_files :=
              if has_bit category_mask CATEGORY_DOCUMENT then [] else g.g_document_files }) := by
  unfold MigrateCategories
  cases hex : fs_exists fs destination_dir <;> cases hcr : create_directories fs destination_dir <;>
    simp <;>
    cases has_bit category_mask CATEGORY_VIDEO <;> cases has_bit category_mask CATEGORY_AUDIO <;>
    cases has_bit category_mask CATEGORY_IMAGE <;> cases has_bit category_mask CATEGORY_DOCUMENT <;>
    simp

/-! ## C9 -/

/-- C9 (the code departs from it): with a trash directory holding the file
`directorysizes` (10 bytes) beside `files` (one file of 3 bytes) and an empty
`info`, emptying the trash succeeds and removes 3 bytes, the value
`GetSpecialCategorySize(CATEGORY_TRASH)` had before the call, but
`CleanupCategories(CATEGORY_TRASH)` returns 13: it measures the whole trash
directory, and `directorysizes` is still there afterwards. -/
theorem CleanupCategories_trash_overcounts :
    (CleanupCategories CATEGORY_TRASH
        ⟨some "/home/u".toList, none,
          some (.dir true true
            (.file "directorysizes".toList (some 10) true
              (.sub "files".toList true true (.file "old.txt".toList (some 3) true .nil)
                (.sub "info".toList true true .nil .nil)))),
          true, ⟨[], []⟩⟩ cleared_store).1 = 13 ∧
    GetSpecialCategorySize CATEGORY_TRASH
        ⟨some "/home/u".toList, none,
          some (.dir true true
            (.file "directorysizes".toList (some 10) true
              (.sub "files".toList true true (.file "old.txt".toList (some 3) true .nil)
                (.sub "info".toList true true .nil .nil)))),
          true, ⟨[], []⟩⟩ = 3 ∧
    (CleanupCategories CATEGORY_TRASH
        ⟨some "/home/u".toList, none,
          some (.dir true true
            (.file "directorysizes".toList (some 10) true
              (.sub "files".toList true true (.file "old.txt".toList (some 3) true .nil)
                (.sub "info".toList true true .nil .nil)))),
          true, ⟨[], []⟩⟩ cleared_store).2.1.trash =
      some (.dir true true
        (.file "directorysizes".toList (some 10) true
          (.sub "files".toList true true .nil (.sub "info".toList true true .nil .nil)))) := by
  decide

/-! ## Lemmas on the scan -/

theorem filename_pjoin (dir name : Str) (h : '/' ∉ name) : filename (pjoin dir name) = name := by
  unfold filename pjoin
  rw [List.reverse_append, List.reverse_cons, List.append_assoc,
    List.takeWhile_append_of_pos]
  · simp
  · intro a ha
    have : a ≠ '/' := fun e => h (e ▸ List.mem_reverse.mp ha)
    simpa using this

theorem path_string_snoc (root : Str) (comps : List Str) (name : Str) :
    path_string root (comps ++ [name]) = pjoin (path_string root comps) name := by
  simp [path_string, List.foldl_append]

theorem mem_scanned_push_record (g : Store) (info x : FileInfo)
    (hx : x ∈ (push_record g info).all_records) : x ∈ g.all_records ∨ x = info := by
  unfold push_record at hx
  unfold Store.all_records Store.scanned at *
  split_ifs at hx <;> simp only [List.mem_append, List.mem_singleton] at hx ⊢ <;> tauto

theorem sum_sizes_push_record (g : Store) (info : FileInfo)
    (hc : info.category ∈ scanned_or_unknown) (h0 : info.category ≠ CATEGORY_UNKNOWN) :
    sum_sizes (push_record g info).scanned = sum_sizes g.scanned + info.size := by
  unfold scanned_or_unknown at hc
  simp only [List.mem_cons, List.mem_singleton, List.not_mem_nil, or_false] at hc
  unfold push_record Store.scanned sum_sizes
  rcases hc with h | h | h | h | h | h | h
  · exact absurd h h0
  all_goals
    rw [h]
    simp [CATEGORY_PACKAGES, CATEGORY_COMPRESSED, CATEGORY_VIDEO, CATEGORY_AUDIO,
      CATEGORY_IMAGE, CATEGORY_DOCUMENT]
    omega

theorem TotalInv_process (callback : Bool) (current_path : Str) (file_size : Option Nat)
    (category : FileCategory) (st : ScanState)
    (hc : category ∈ scanned_or_unknown) (h0 : category ≠ CATEGORY_UNKNOWN)
    (h : TotalInv st) :
    TotalInv (process_file_entry callback current_path file_size category st) := by
  unfold process_file_entry
  cases file_size with
  | none => exact h
  | some sz =>
    obtain ⟨ha, hb, hp⟩ := h
    have hsum := sum_sizes_push_record st.store ⟨current_path, sz, category⟩ hc h0
    have hscan : ∀ (g : Store) (n : Nat), ({ g with g_total_junk_size := n } : Store).scanned =
        g.scanned := fun g n => rfl
    have hpush_total : (push_record st.store ⟨current_path, sz, category⟩).g_total_junk_size =
        st.store.g_total_junk_size := by
      unfold push_record; split_ifs <;> rfl
    simp only at hsum
    cases callback with
    | false =>
      simp only [Bool.false_eq_true, if_false]
      refine ⟨?_, ?_, hp⟩
      · simp only [hscan, hsum, hpush_total, ha]
        exact Nat.mod_add_mod _ _ _
      · intro c hcm
        obtain ⟨h1, h2⟩ := hb c hcm
        refine ⟨h1, ?_⟩
        simp only [hscan, hsum]
        exact Nat.le_trans h2 (Nat.le_add_right _ _)
    | true =>
      simp only [if_true]
      refine ⟨?_, ?_, ?_⟩
      · simp only [hscan, hsum, hpush_total, ha]
        exact Nat.mod_add_mod _ _ _
      · intro c hcm
        simp only [List.mem_append, List.mem_singleton] at hcm
        rcases hcm with hcm | hcm
        · obtain ⟨h1, h2⟩ := hb c hcm
          refine ⟨h1, ?_⟩
          simp only [hscan, hsum]
          exact Nat.le_trans h2 (Nat.le_add_right _ _)
        · subst hcm
          simp only [hscan, hsum, hpush_total, ha]
          exact ⟨Nat.mod_add_mod _ _ _, le_refl _⟩
      · rw [List.pairwise_append]
        refine ⟨hp, List.pairwise_singleton _ _, ?_⟩
        intro a hamem b hbmem
        simp only [List.mem_singleton] at hbmem
        subst hbmem
        simp only [hscan, hsum]
        exact Nat.le_trans (hb a hamem).2 (Nat.le_add_right _ _)

theorem AllNames_of_valid_names (t : Dir) (h : valid_names t = true) :
    AllNames (fun n => '/' ∉ n) t := by
  induction t with
  | nil => trivial
  | file name size removable rest ih =>
    simp only [valid_names, Bool.and_eq_true, decide_eq_true_eq] at h
    exact ⟨h.1, ih h.2⟩
  | sub name readable removable content rest ihc ihr =>
    simp only [valid_names, Bool.and_eq_true, decide_eq_true_eq] at h
    exact ⟨h.1.1, ihc h.1.2, ihr h.2⟩
  | other name removable rest ih =>
    simp only [valid_names, Bool.and_eq_true, decide_eq_true_eq] at h
    exact ⟨h.1, ih h.2⟩

theorem AllNames_trivial (t : Dir) : AllNames (fun _ => True) t := by
  induction t with
  | nil => trivial
  | file name size removable rest ih => exact ⟨trivial, ih⟩
  | sub name readable removable content rest ihc ihr => exact ⟨trivial, ihc, ihr⟩
  | other name removable rest ih => exact ⟨trivial, ih⟩

theorem has_bit_zero (m : Nat) : has_bit CATEGORY_UNKNOWN m = false := by
  have h : Nat.land 0 m = 0 := Nat.zero_and m
  simp [has_bit, CATEGORY_UNKNOWN, h]

theorem scan_regular_file_cases (env : ScanEnv) (excluded current_path : Str)
    (file_size : Option Nat) (st : ScanState) :
    scan_regular_file env excluded current_path file_size st = st ∨
    ∃ category, category ∈ scanned_or_unknown ∧ category ≠ CATEGORY_UNKNOWN ∧
      scan_regular_file env excluded current_path file_size st =
        process_file_entry env.callback current_path file_size category st := by
  unfold scan_regular_file
  simp only []
  have hmem := get_file_category_mem (env.rules_at st.iter) current_path
  split_ifs with h1 h2 h3
  · exact Or.inl rfl
  · refine Or.inr ⟨_, hmem, ?_, rfl⟩
    intro h0
    rw [h0, has_bit_zero] at h1
    exact Bool.false_ne_true h1
  · refine Or.inr ⟨_, hmem, ?_, rfl⟩
    simpa using h3
  · exact Or.inl rfl

theorem scan_loop_preserves (env : ScanEnv) (excluded : Str) (I : ScanState → Prop)
    (D N : Str → Prop)
    (hflag : ∀ st st' : ScanState, st'.store = st.store → st'.calls = st.calls → I st → I st')
    (hdir : ∀ dir name, D dir → N name → is_hidden (filename (pjoin dir name)) = false →
      D (pjoin dir name))
    (hproc : ∀ dir name size category st, D dir → N name →
      is_hidden (filename (pjoin dir name)) = false → category ∈ scanned_or_unknown →
      category ≠ CATEGORY_UNKNOWN → I st →
      I (process_file_entry env.callback (pjoin dir name) size category st)) :
    ∀ (t : Dir) (dir : Str) (st : ScanState), AllNames N t → D dir → I st →
      I (scan_loop env excluded dir t st) := by
  intro t
  induction t with
  | nil => intro dir st _ _ h; exact h
  | file name size removable rest ih =>
    intro dir st hn hd h
    unfold scan_loop
    split_ifs with hs hf
    · exact h
    · exact hflag st _ rfl rfl h
    · have h1 : I (if is_hidden (filename (pjoin dir name)) = true then st
          else scan_regular_file env excluded (pjoin dir name) size st) := by
        split_ifs with hh
        · exact h
        · rcases scan_regular_file_cases env excluded (pjoin dir name) size st with
            e | ⟨c, hc, h0, e⟩
          · rw [e]; exact h
          · rw [e]; exact hproc dir name size c st hd hn.1 (by simpa using hh) hc h0 h
      exact ih dir _ hn.2 hd (hflag (if is_hidden (filename (pjoin dir name)) = true then st
          else scan_regular_file env excluded (pjoin dir name) size st) _ rfl rfl h1)
  | sub name readable removable content rest ihc ihr =>
    intro dir st hn hd h
    unfold scan_loop
    by_cases hs : st.stopped = true
    · rw [if_pos hs]; exact h
    rw [if_neg hs]
    by_cases hf : env.stop_flag_at st.iter = true
    · rw [if_pos hf]; exact hflag st _ rfl rfl h
    rw [if_neg hf]
    apply ihr dir _ hn.2.2 hd
    have h1 : I { st with iter := st.iter + 1 } := hflag st _ rfl rfl h
    split_ifs with hh hr
    · exact h1
    · exact ihc _ _ hn.2.1 (hdir dir name hd hn.1 (by simpa using hh)) h1
    · exact h1
  | other name removable rest ih =>
    intro dir st hn hd h
    unfold scan_loop
    split_ifs with hs hf
    · exact h
    · exact hflag st _ rfl rfl h
    · exact ih dir _ hn.2 hd (hflag st _ rfl rfl h)

theorem VisibleInv_process (root : Str) (callback : Bool) (current_path : Str)
    (file_size : Option Nat) (category : FileCategory) (st : ScanState)
    (hp : visible_below root current_path) (h : VisibleInv root st) :
    VisibleInv root (process_file_entry callback current_path file_size category st) := by
  unfold process_file_entry
  cases file_size with
  | none => exact h
  | some sz =>
    have hrec : ∀ (g : Store) (n : Nat), ({ g with g_total_junk_size := n } : Store).all_records =
        g.all_records := fun g n => rfl
    have hstore : ∀ info ∈ (push_record st.store ⟨current_path, sz, category⟩).all_records,
        visible_below root info.path := by
      intro info hi
      rcases mem_scanned_push_record _ _ _ hi with h1 | h1
      · exact h.1 info h1
      · rw [h1]; exact hp
    cases callback with
    | false =>
      simp only [Bool.false_eq_true, if_false]
      exact ⟨fun info hi => hstore info (by simpa only [hrec] using hi), h.2⟩
    | true =>
      simp only [if_true]
      refine ⟨fun info hi => hstore info (by simpa only [hrec] using hi), ?_⟩
      intro c hc
      simp only [List.mem_append, List.mem_singleton] at hc
      rcases hc with hc | hc
      · exact h.2 c hc
      · rw [hc]; exact hp

theorem visible_below_pjoin (root dir name : Str) (hd : visible_below root dir)
    (hn : '/' ∉ name) (hh : is_hidden (filename (pjoin dir name)) = false) :
    visible_below root (pjoin dir name) := by
  obtain ⟨comps, hc, hall⟩ := hd
  refine ⟨comps ++ [name], ?_, ?_⟩
  · rw [path_string_snoc, hc]
  · intro c hcm
    simp only [List.mem_append, List.mem_singleton] at hcm
    rcases hcm with hcm | hcm
    · exact hall c hcm
    · rw [filename_pjoin dir name hn] at hh
      rw [hcm]; exact ⟨hh, hn⟩

/-! ## C3 -/

/-- C3: for every directory tree (whose names contain no separator), every
rule set, every timing of the stop flag and every root, each path recorded by
a scan in any category sequence or passed to the callback is the root followed
by components none of which begins with a period: hidden files are skipped and
nothing beneath a hidden directory is recorded. -/
theorem scan_directory_records_visible (env : ScanEnv) (home_path_str : Str)
    (root : Option Ent) (hvalid : valid_root root = true) :
    (∀ info ∈ (scan_directory env home_path_str root).store.all_records,
      visible_below home_path_str info.path) ∧
    (∀ c ∈ (scan_directory env home_path_str root).calls,
      visible_below home_path_str c.file_path) := by
  have h0 : VisibleInv home_path_str ⟨cleared_store, [], 0, false⟩ := by
    constructor
    · intro info hi; simp [Store.all_records, Store.scanned, cleared_store] at hi
    · intro c hc; simp at hc
  unfold scan_directory
  simp only []
  split
  · split_ifs with hr
    · exact scan_loop_preserves env _ (VisibleInv home_path_str) (visible_below home_path_str)
        (fun n => '/' ∉ n)
        (fun st st' hs hc h => by
          unfold VisibleInv at *
          rw [hs, hc]; exact h)
        (fun dir name hd hn hh => visible_below_pjoin _ dir name hd hn hh)
        (fun dir name size category st hd hn hh _ _ h =>
          VisibleInv_process _ _ _ _ _ _ (visible_below_pjoin _ dir name hd hn hh) h)
        _ home_path_str _ (AllNames_of_valid_names _ hvalid)
        ⟨[], rfl, fun c hc => by simp at hc⟩ h0
    · exact h0
  · exact h0

/-- C3 on a tree with a hidden file, a hidden directory holding a video, and a
visible video. -/
theorem scan_directory_records_visible_witness :
    (∀ info ∈ (scan_directory ⟨fun _ => defaultRules, fun _ => false, id, true⟩ "/home/u".toList
        (some (.dir true true
          (.file ".secret.mp4".toList (some 1) true
            (.sub ".config".toList true true (.file "b.mp4".toList (some 2) true .nil)
              (.file "c.mp4".toList (some 4) true .nil)))))).store.all_records,
      visible_below "/home/u".toList info.path) ∧
    (∀ c ∈ (scan_directory ⟨fun _ => defaultRules, fun _ => false, id, true⟩ "/home/u".toList
        (some (.dir true true
          (.file ".secret.mp4".toList (some 1) true
            (.sub ".config".toList true true (.file "b.mp4".toList (some 2) true .nil)
              (.file "c.mp4".toList (some 4) true .nil)))))).calls,
      visible_below "/home/u".toList c.file_path) :=
  scan_directory_records_visible _ _ _ (by decide)

/-! ## The running total of a scan taken as one function -/

theorem scan_directory_TotalInv (env : ScanEnv) (home_path_str : Str) (root : Option Ent) :
    TotalInv (scan_directory env home_path_str root) := by
  have h0 : TotalInv ⟨cleared_store, [], 0, false⟩ := by
    refine ⟨by decide, ?_, List.Pairwise.nil⟩
    intro c hc; simp at hc
  unfold scan_directory
  simp only []
  split
  · split_ifs
    · exact scan_loop_preserves env _ TotalInv (fun _ => True) (fun _ => True)
        (fun st st' hs hc h => by
          unfold TotalInv at *
          rw [hs, hc]; exact h)
        (fun _ _ _ _ _ => trivial)
        (fun dir name size category st _ _ _ hc h0 h => TotalInv_process _ _ _ _ _ hc h0 h)
        _ home_path_str _ (AllNames_trivial _) trivial h0
    · exact h0
  · exact h0

/-- The running total of `scan_directory` taken as one function, its store
touched by nothing else: when the records have sizes that add up to less than
`2^64`, the running total passed to each callback invocation is the sum of the
sizes of the records stored at that moment, the totals passed to successive
invocations never decrease, and at the end of the scan (stopped or not) the
running total is the sum of the sizes of all records in the six
scanned-category sequences. -/
theorem scan_directory_running_total (env : ScanEnv) (home_path_str : Str) (root : Option Ent)
    (hsum : sum_sizes (scan_directory env home_path_str root).store.scanned < U64) :
    (∀ c ∈ (scan_directory env home_path_str root).calls,
      c.total_scanned_size = sum_sizes c.store_then.scanned) ∧
    (scan_directory env home_path_str root).calls.Pairwise
      (fun a b => a.total_scanned_size ≤ b.total_scanned_size) ∧
    (scan_directory env home_path_str root).store.g_total_junk_size =
      sum_sizes (scan_directory env home_path_str root).store.scanned := by
  obtain ⟨ha, hb, hp⟩ := scan_directory_TotalInv env home_path_str root
  have hcall : ∀ c ∈ (scan_directory env home_path_str root).calls,
      c.total_scanned_size = sum_sizes c.store_then.scanned := by
    intro c hc
    obtain ⟨h1, h2⟩ := hb c hc
    rw [h1]
    exact Nat.mod_eq_of_lt (Nat.lt_of_le_of_lt h2 hsum)
  refine ⟨hcall, ?_, ?_⟩
  · refine hp.imp_of_mem ?_
    intro a b hma hmb hab
    rw [hcall a hma, hcall b hmb]
    exact hab
  · rw [ha]
    exact Nat.mod_eq_of_lt hsum

/-- The same on a scan that records two files and stops before a third. -/
theorem scan_directory_running_total_witness :
    (∀ c ∈ (scan_directory ⟨fun _ => defaultRules, fun n => decide (2 ≤ n), id, true⟩
        "/home/u".toList
        (some (.dir true true
          (.file "a.zip".toList (some 10) true
            (.file "b.mp3".toList (some 20) true
              (.file "c.pdf".toList (some 30) true .nil)))))).calls,
      c.total_scanned_size = sum_sizes c.store_then.scanned) ∧
    (scan_directory ⟨fun _ => defaultRules, fun n => decide (2 ≤ n), id, true⟩
        "/home/u".toList
        (some (.dir true true
          (.file "a.zip".toList (some 10) true
            (.file "b.mp3".toList (some 20) true
              (.file "c.pdf".toList (some 30) true .nil)))))).calls.Pairwise
      (fun a b => a.total_scanned_size ≤ b.total_scanned_size) ∧
    (scan_directory ⟨fun _ => defaultRules, fun n => decide (2 ≤ n), id, true⟩
        "/home/u".toList
        (some (.dir true true
          (.file "a.zip".toList (some 10) true
            (.file "b.mp3".toList (some 20) true
              (.file "c.pdf".toList (some 30) true .nil)))))).store.g_total_junk_size =
      sum_sizes (scan_directory ⟨fun _ => defaultRules, fun n => decide (2 ≤ n), id, true⟩
        "/home/u".toList
        (some (.dir true true
          (.file "a.zip".toList (some 10) true
            (.file "b.mp3".toList (some 20) true
              (.file "c.pdf".toList (some 30) true .nil)))))).store.scanned :=
  scan_directory_running_total _ _ _ (by decide)

theorem wipe_files_eq (t : Dir) : ∀ acc, all_succeed t = true → all_readable t = true →
    acc < U64 → wipe_files t acc = (strip_files t, (acc + total_size t) % U64) := by
  induction t with
  | nil =>
    intro acc _ _ hacc
    simp [wipe_files, strip_files, total_size, Nat.mod_eq_of_lt hacc]
  | file name size removable rest ih =>
    intro acc hok hr hacc
    simp only [all_succeed, Bool.and_eq_true] at hok
    simp only [all_readable] at hr
    obtain ⟨⟨hsz, hrm⟩, hrest⟩ := hok
    cases size with
    | none => simp at hsz
    | some sz =>
      have hlt : (acc + sz) % U64 < U64 := Nat.mod_lt _ (by decide)
      simp only [wipe_files, hrm, if_true, strip_files, total_size, Option.getD_some]
      rw [ih _ hrest hr hlt, Nat.mod_add_mod, Nat.add_assoc]
  | sub name readable removable content rest ihc ihr =>
    intro acc hok hr hacc
    simp only [all_succeed, Bool.and_eq_true] at hok
    simp only [all_readable, Bool.and_eq_true] at hr
    obtain ⟨⟨hrm, hc⟩, hrest⟩ := hok
    obtain ⟨⟨hrd, hrc⟩, hrr⟩ := hr
    have hlt : (acc + total_size content) % U64 < U64 := Nat.mod_lt _ (by decide)
    simp only [wipe_files, hrd, if_true, strip_files, total_size]
    rw [ihc _ hc hrc hacc]
    simp only []
    rw [ihr _ hrest hrr hlt, Nat.mod_add_mod, Nat.add_assoc]
  | other name removable rest ih =>
    intro acc hok
    simp [all_succeed] at hok

theorem has_name_strip_files (m : Str) (t : Dir) (h : has_name m (strip_files t) = true) :
    has_name m t = true := by
  induction t with
  | nil => exact h
  | file name size removable rest ih =>
    simp only [strip_files] at h
    simp [has_name, ih h]
  | sub name readable removable content rest _ ihr =>
    simp only [strip_files, has_name, Bool.or_eq_true, decide_eq_true_eq] at h ⊢
    exact h.imp id ihr
  | other name removable rest ih =>
    simp only [strip_files, has_name, Bool.or_eq_true, decide_eq_true_eq] at h ⊢
    exact h.imp id ih

theorem not_has_name_strip_files (m : Str) (t : Dir) (h : has_name m t = false) :
    has_name m (strip_files t) = false := by
  cases hs : has_name m (strip_files t) with
  | false => rfl
  | true => rw [has_name_strip_files m t hs] at h; exact absurd h (by decide)

theorem names_distinct_strip_files (t : Dir) (h : names_distinct t = true) :
    names_distinct (strip_files t) = true := by
  induction t with
  | nil => rfl
  | file name size removable rest ih =>
    simp only [names_distinct, Bool.and_eq_true] at h
    exact ih h.2
  | sub name readable removable content rest ihc ihr =>
    simp only [names_distinct, Bool.and_eq_true, Bool.not_eq_true'] at h
    simp only [strip_files, names_distinct, Bool.and_eq_true, Bool.not_eq_true']
    exact ⟨⟨not_has_name_strip_files _ _ h.1.1, ihc h.1.2⟩, ihr h.2⟩
  | other name removable rest ih =>
    simp only [names_distinct, Bool.and_eq_true, Bool.not_eq_true'] at h
    simp only [strip_files, names_distinct, Bool.and_eq_true, Bool.not_eq_true']
    exact ⟨not_has_name_strip_files _ _ h.1, ih h.2⟩

theorem only_dirs_strip_files (t : Dir) (hok : all_succeed t = true)
    (hr : all_readable t = true) : only_dirs (strip_files t) = true := by
  induction t with
  | nil => rfl
  | file name size removable rest ih =>
    simp only [all_succeed, Bool.and_eq_true] at hok
    simp only [all_readable] at hr
    exact ih hok.2 hr
  | sub name readable removable content rest ihc ihr =>
    simp only [all_succeed, Bool.and_eq_true] at hok
    simp only [all_readable, Bool.and_eq_true] at hr
    simp only [strip_files, only_dirs, Bool.and_eq_true]
    exact ⟨⟨⟨hr.1.1, hok.1.1⟩, ihc hok.1.2 hr.1.2⟩, ihr hok.2 hr.2⟩
  | other name removable rest ih =>
    simp [all_succeed] at hok

theorem collect_subdirs_map (t : Dir) : ∀ at_dir : List Str,
    collect_subdirs at_dir t = (collect_subdirs [] t).map (fun q => at_dir ++ q) := by
  induction t with
  | nil => intro at_dir; rfl
  | file name size removable rest ih => intro at_dir; simpa [collect_subdirs] using ih at_dir
  | sub name readable removable content rest ihc ihr =>
    intro at_dir
    simp only [collect_subdirs, List.map_cons, List.map_append, List.nil_append,
      List.append_nil]
    rw [ihr at_dir]
    cases readable with
    | false => simp
    | true =>
      simp only [if_true]
      rw [ihc (at_dir ++ [name]), ihc [name], List.map_map]
      simp [Function.comp_def]
  | other name removable rest ih => intro at_dir; simpa [collect_subdirs] using ih at_dir

theorem mem_collect_subdirs_sub (p : List Str) (name : Str) (readable removable : Bool)
    (content rest : Dir) :
    p ∈ collect_subdirs [] (.sub name readable removable content rest) ↔
      p = [name] ∨ (readable = true ∧ ∃ q ∈ collect_subdirs [] content, p = name :: q) ∨
        p ∈ collect_subdirs [] rest := by
  simp only [collect_subdirs, List.nil_append, List.mem_cons, List.mem_append]
  cases readable with
  | false => simp
  | true =>
    simp only [if_true, true_and]
    rw [collect_subdirs_map content [name]]
    simp only [List.mem_map, List.singleton_append]
    constructor
    · rintro (h | ⟨q, hq, rfl⟩ | h)
      · exact Or.inl h
      · exact Or.inr (Or.inl ⟨q, hq, rfl⟩)
      · exact Or.inr (Or.inr h)
    · rintro (h | ⟨q, hq, rfl⟩ | h)
      · exact Or.inl h
      · exact Or.inr (Or.inl ⟨q, hq, rfl⟩)
      · exact Or.inr (Or.inr h)

theorem head_of_mem_collect_subdirs (t : Dir) (q : List Str) (h : q ∈ collect_subdirs [] t) :
    ∃ c q0, q = c :: q0 ∧ has_name c t = true := by
  induction t with
  | nil => simp [collect_subdirs] at h
  | file name size removable rest ih =>
    obtain ⟨c, q0, e, hn⟩ := ih (by simpa [collect_subdirs] using h)
    exact ⟨c, q0, e, by simp [has_name, hn]⟩
  | sub name readable removable content rest _ ihr =>
    rw [mem_collect_subdirs_sub] at h
    rcases h with h | ⟨_, q', _, h⟩ | h
    · exact ⟨name, [], h, by simp [has_name]⟩
    · exact ⟨name, q', h, by simp [has_name]⟩
    · obtain ⟨c, q0, e, hn⟩ := ihr h
      exact ⟨c, q0, e, by simp [has_name, hn]⟩
  | other name removable rest ih =>
    obtain ⟨c, q0, e, hn⟩ := ih (by simpa [collect_subdirs] using h)
    exact ⟨c, q0, e, by simp [has_name, hn]⟩

theorem entry_at_of_mem_collect_subdirs (t : Dir) : ∀ q : List Str, only_dirs t = true →
    names_distinct t = true → q ∈ collect_subdirs [] t → entry_at q t ≠ none := by
  induction t with
  | nil => intro q _ _ h; simp [collect_subdirs] at h
  | file name size removable rest ih => intro q ho; simp [only_dirs] at ho
  | other name removable rest ih => intro q ho; simp [only_dirs] at ho
  | sub name readable removable content rest ihc ihr =>
    intro q ho hd h
    simp only [only_dirs, Bool.and_eq_true] at ho
    simp only [names_distinct, Bool.and_eq_true, Bool.not_eq_true'] at hd
    rw [mem_collect_subdirs_sub] at h
    rcases h with h | ⟨_, q', hq', h⟩ | h
    · subst h; simp [entry_at]
    · subst h
      have hne : q' ≠ [] := by
        obtain ⟨c, q0, e, _⟩ := head_of_mem_collect_subdirs _ _ hq'
        rw [e]; exact List.cons_ne_nil _ _
      simp only [entry_at, if_true, if_neg hne]
      exact ihc q' ho.1.2 hd.1.2 hq'
    · obtain ⟨c, q0, e, hn⟩ := head_of_mem_collect_subdirs _ _ h
      subst e
      have hne : name ≠ c := by
        intro e; rw [e, hn] at hd; exact absurd hd.1.1 (by decide)
      simp only [entry_at, if_neg hne]
      exact ihr _ ho.2 hd.2 h

theorem entry_at_only_dirs (t : Dir) : ∀ (p : List Str) (e : Ent), only_dirs t = true →
    entry_at p t = some e →
    ∃ content, e = .dir true true content ∧ p ∈ collect_subdirs [] t ∧
      (content ≠ .nil → ∃ n, p ++ [n] ∈ collect_subdirs [] t) := by
  induction t with
  | nil => intro p e _ h; simp [entry_at] at h
  | file name size removable rest ih => intro p e ho; simp [only_dirs] at ho
  | other name removable rest ih => intro p e ho; simp [only_dirs] at ho
  | sub name readable removable content rest ihc ihr =>
    intro p e ho h
    simp only [only_dirs, Bool.and_eq_true] at ho
    obtain ⟨⟨⟨hrd, hrm⟩, hoc⟩, hor⟩ := ho
    subst hrd; subst hrm
    cases p with
    | nil => simp [entry_at] at h
    | cons c q =>
      simp only [entry_at] at h
      by_cases hn : name = c
      · subst hn
        rw [if_pos rfl] at h
        by_cases hq : q = []
        · subst hq
          rw [if_pos rfl] at h
          injection h with h
          refine ⟨content, h.symm, ?_, ?_⟩
          · rw [mem_collect_subdirs_sub]; exact Or.inl rfl
          · intro hc
            cases content with
            | nil => exact absurd rfl hc
            | file n2 s2 r2 rest2 => simp [only_dirs] at hoc
            | other n2 r2 rest2 => simp [only_dirs] at hoc
            | sub n2 rd2 rm2 c2 rest2 =>
              refine ⟨n2, ?_⟩
              rw [mem_collect_subdirs_sub]
              refine Or.inr (Or.inl ⟨rfl, [n2], ?_, rfl⟩)
              rw [mem_collect_subdirs_sub]; exact Or.inl rfl
        · rw [if_neg hq] at h
          obtain ⟨c2, he, hm, hch⟩ := ihc q e hoc h
          refine ⟨c2, he, ?_, ?_⟩
          · rw [mem_collect_subdirs_sub]; exact Or.inr (Or.inl ⟨rfl, q, hm, rfl⟩)
          · intro hc
            obtain ⟨n, hn⟩ := hch hc
            refine ⟨n, ?_⟩
            rw [mem_collect_subdirs_sub]
            exact Or.inr (Or.inl ⟨rfl, q ++ [n], hn, rfl⟩)
      · rw [if_neg hn] at h
        obtain ⟨c2, he, hm, hch⟩ := ihr (c :: q) e hor h
        refine ⟨c2, he, ?_, ?_⟩
        · rw [mem_collect_subdirs_sub]; exact Or.inr (Or.inr hm)
        · intro hc
          obtain ⟨n, hn⟩ := hch hc
          refine ⟨n, ?_⟩
          rw [mem_collect_subdirs_sub]
          exact Or.inr (Or.inr hn)

theorem has_name_erase_at (m : Str) (t : Dir) : ∀ p : List Str,
    has_name m (erase_at p t) = true → has_name m t = true := by
  induction t with
  | nil => intro p h; simpa [erase_at] using h
  | file name size removable rest ih =>
    intro p h
    cases p with
    | nil => simpa [erase_at] using h
    | cons c q =>
      simp only [erase_at] at h
      simp only [has_name, Bool.or_eq_true, decide_eq_true_eq]
      split_ifs at h
      · exact Or.inr h
      · simpa [has_name] using h
      · simp only [has_name, Bool.or_eq_true, decide_eq_true_eq] at h
        exact h.imp id (ih _)
  | other name removable rest ih =>
    intro p h
    cases p with
    | nil => simpa [erase_at] using h
    | cons c q =>
      simp only [erase_at] at h
      simp only [has_name, Bool.or_eq_true, decide_eq_true_eq]
      split_ifs at h
      · exact Or.inr h
      · simpa [has_name] using h
      · simp only [has_name, Bool.or_eq_true, decide_eq_true_eq] at h
        exact h.imp id (ih _)
  | sub name readable removable content rest _ ihr =>
    intro p h
    cases p with
    | nil => simpa [erase_at] using h
    | cons c q =>
      simp only [erase_at] at h
      simp only [has_name, Bool.or_eq_true, decide_eq_true_eq]
      split_ifs at h
      · exact Or.inr h
      · simpa [has_name] using h
      · simp only [has_name, Bool.or_eq_true, decide_eq_true_eq] at h
        exact h.imp id (ihr _)

theorem not_has_name_erase_at (m : Str) (t : Dir) (p : List Str) (h : has_name m t = false) :
    has_name m (erase_at p t) = false := by
  cases hs : has_name m (erase_at p t) with
  | false => rfl
  | true => rw [has_name_erase_at m t p hs] at h; exact absurd h (by decide)

theorem only_dirs_erase_at (t : Dir) : ∀ p : List Str, only_dirs t = true →
    only_dirs (erase_at p t) = true := by
  induction t with
  | nil => intro p h; simpa [erase_at] using h
  | file name size removable rest ih => intro p ho; simp [only_dirs] at ho
  | other name removable rest ih => intro p ho; simp [only_dirs] at ho
  | sub name readable removable content rest ihc ihr =>
    intro p ho
    cases p with
    | nil => simpa [erase_at] using ho
    | cons c q =>
      simp only [only_dirs, Bool.and_eq_true] at ho
      simp only [erase_at]
      split_ifs
      · exact ho.2
      · simp only [only_dirs, Bool.and_eq_true]
        exact ⟨⟨ho.1.1, ihc q ho.1.2⟩, ho.2⟩
      · simp only [only_dirs, Bool.and_eq_true]
        exact ⟨ho.1, ihr _ ho.2⟩

theorem names_distinct_erase_at (t : Dir) : ∀ p : List Str, names_distinct t = true →
    names_distinct (erase_at p t) = true := by
  induction t with
  | nil => intro p h; simpa [erase_at] using h
  | file name size removable rest ih =>
    intro p hd
    cases p with
    | nil => simpa [erase_at] using hd
    | cons c q =>
      simp only [names_distinct, Bool.and_eq_true, Bool.not_eq_true'] at hd
      simp only [erase_at]
      split_ifs
      · exact hd.2
      · simp only [names_distinct, Bool.and_eq_true, Bool.not_eq_true']; exact hd
      · simp only [names_distinct, Bool.and_eq_true, Bool.not_eq_true']
        exact ⟨not_has_name_erase_at _ _ _ hd.1, ih _ hd.2⟩
  | other name removable rest ih =>
    intro p hd
    cases p with
    | nil => simpa [erase_at] using hd
    | cons c q =>
      simp only [names_distinct, Bool.and_eq_true, Bool.not_eq_true'] at hd
      simp only [erase_at]
      split_ifs
      · exact hd.2
      · simp only [names_distinct, Bool.and_eq_true, Bool.not_eq_true']; exact hd
      · simp only [names_distinct, Bool.and_eq_true, Bool.not_eq_true']
        exact ⟨not_has_name_erase_at _ _ _ hd.1, ih _ hd.2⟩
  | sub name readable removable content rest ihc ihr =>
    intro p hd
    cases p with
    | nil => simpa [erase_at] using hd
    | cons c q =>
      simp only [names_distinct, Bool.and_eq_true, Bool.not_eq_true'] at hd
      simp only [erase_at]
      split_ifs
      · exact hd.2
      · simp only [names_distinct, Bool.and_eq_true, Bool.not_eq_true']
        exact ⟨⟨hd.1.1, ihc q hd.1.2⟩, hd.2⟩
      · simp only [names_distinct, Bool.and_eq_true, Bool.not_eq_true']
        exact ⟨⟨not_has_name_erase_at _ _ _ hd.1.1, hd.1.2⟩, ihr _ hd.2⟩

theorem mem_collect_subdirs_erase_at (t : Dir) : ∀ (p q : List Str), only_dirs t = true →
    names_distinct t = true → q ∈ collect_subdirs [] (erase_at p t) →
    q ∈ collect_subdirs [] t ∧ q ≠ p := by
  induction t with
  | nil => intro p q _ _ h; simp [erase_at, collect_subdirs] at h
  | file name size removable rest ih => intro p q ho; simp [only_dirs] at ho
  | other name removable rest ih => intro p q ho; simp [only_dirs] at ho
  | sub name readable removable content rest ihc ihr =>
    intro p q ho hd h
    simp only [only_dirs, Bool.and_eq_true] at ho
    simp only [names_distinct, Bool.and_eq_true, Bool.not_eq_true'] at hd
    have hrest : ∀ x, x ∈ collect_subdirs [] rest → ∀ y, x ≠ name :: y := by
      intro x hx y e
      obtain ⟨c, q0, e2, hn⟩ := head_of_mem_collect_subdirs _ _ hx
      rw [e] at e2
      injection e2 with e3 _
      rw [← e3, hd.1.1] at hn
      exact absurd hn (by decide)
    cases p with
    | nil =>
      obtain ⟨c, q0, e, _⟩ := head_of_mem_collect_subdirs _ _ h
      simp only [erase_at] at h
      exact ⟨h, by rw [e]; exact List.cons_ne_nil _ _⟩
    | cons c p0 =>
      simp only [erase_at] at h
      by_cases hn : name = c
      · subst hn
        rw [if_pos rfl] at h
        by_cases hp : p0 = []
        · subst hp
          rw [if_pos rfl] at h
          exact ⟨(mem_collect_subdirs_sub _ _ _ _ _ _).mpr (Or.inr (Or.inr h)), hrest q h []⟩
        · rw [if_neg hp, mem_collect_subdirs_sub] at h
          rw [mem_collect_subdirs_sub]
          rcases h with h | ⟨hr, q', hq', h⟩ | h
          · refine ⟨Or.inl h, ?_⟩
            rw [h]; intro e; injection e with _ e; exact hp e.symm
          · obtain ⟨h1, h2⟩ := ihc p0 q' ho.1.2 hd.1.2 hq'
            refine ⟨Or.inr (Or.inl ⟨hr, q', h1, h⟩), ?_⟩
            rw [h]; intro e; injection e with _ e; exact h2 e
          · exact ⟨Or.inr (Or.inr h), hrest q h p0⟩
      · rw [if_neg hn, mem_collect_subdirs_sub] at h
        rw [mem_collect_subdirs_sub]
        rcases h with h | ⟨hr, q', hq', h⟩ | h
        · refine ⟨Or.inl h, ?_⟩
          rw [h]; intro e; injection e with e _; exact hn e
        · refine ⟨Or.inr (Or.inl ⟨hr, q', hq', h⟩), ?_⟩
          rw [h]; intro e; injection e with e _; exact hn e
        · obtain ⟨h1, h2⟩ := ihr (c :: p0) q ho.2 hd.2 h
          exact ⟨Or.inr (Or.inr h1), h2⟩

theorem eq_nil_of_collect_subdirs_nil (t : Dir) (ho : only_dirs t = true)
    (h : collect_subdirs [] t = []) : t = .nil := by
  cases t with
  | nil => rfl
  | file name size removable rest => simp [only_dirs] at ho
  | other name removable rest => simp [only_dirs] at ho
  | sub name readable removable content rest => simp [collect_subdirs] at h

theorem path_string_length_snoc (s : Str) (p : List Str) (n : Str) :
    (path_string s (p ++ [n])).length = (path_string s p).length + 1 + n.length := by
  rw [path_string_snoc]
  simp [pjoin]
  omega

theorem remove_empty_loop_clears (s : Str) : ∀ (l : List (List Str)) (t : Dir),
    only_dirs t = true → names_distinct t = true → l.Pairwise (longer_first s) →
    (∀ q ∈ collect_subdirs [] t, q ∈ l) → remove_empty_loop l t = .nil := by
  intro l
  induction l with
  | nil =>
    intro t ho _ _ hall
    simp only [remove_empty_loop]
    apply eq_nil_of_collect_subdirs_nil t ho
    apply List.eq_nil_iff_forall_not_mem.mpr
    intro q hq
    exact absurd (hall q hq) (List.not_mem_nil q)
  | cons p more ih =>
    intro t ho hd hsorted hall
    rw [List.pairwise_cons] at hsorted
    unfold remove_empty_loop
    cases he : entry_at p t with
    | none =>
      simp only []
      apply ih t ho hd hsorted.2
      intro q hq
      rcases List.mem_cons.mp (hall q hq) with e | hm
      · subst e
        exact absurd he (entry_at_of_mem_collect_subdirs t q ho hd hq)
      · exact hm
    | some e =>
      obtain ⟨content, hce, hpm, hchild⟩ := entry_at_only_dirs t p e ho he
      subst hce
      have hnil : content = .nil := by
        by_contra hc
        obtain ⟨n, hn⟩ := hchild hc
        rcases List.mem_cons.mp (hall _ hn) with e | hm
        · have := congrArg List.length e
          simp at this
        · have hlen := hsorted.1 _ hm
          unfold longer_first at hlen
          rw [path_string_length_snoc] at hlen
          omega
      subst hnil
      have hpne : p ≠ [] := by
        obtain ⟨c, q0, e, _⟩ := head_of_mem_collect_subdirs _ _ hpm
        rw [e]; exact List.cons_ne_nil _ _
      simp only [fs_is_empty, fs_remove_ok, if_true, decide_True, Bool.and_self, bne_iff_ne, ne_eq,
        hpne, not_false_eq_true]
      apply ih _ (only_dirs_erase_at t p ho) (names_distinct_erase_at t p hd) hsorted.2
      intro q hq
      obtain ⟨h1, h2⟩ := mem_collect_subdirs_erase_at t p q ho hd hq
      rcases List.mem_cons.mp (hall q h1) with e | hm
      · exact absurd e h2
      · exact hm

theorem insertionSort_longer_first_sorted (s : Str) (l : List (List Str)) :
    (l.insertionSort (longer_first s)).Pairwise (longer_first s) := by
  haveI : IsTotal (List Str) (longer_first s) :=
    ⟨fun a b => Nat.le_total (path_string s b).length (path_string s a).length⟩
  haveI : IsTrans (List Str) (longer_first s) :=
    ⟨fun a b c hab hbc => Nat.le_trans hbc hab⟩
  exact List.sorted_insertionSort (longer_first s) l

/-! ## C5 -/

/-- C5 as stated fails in three ways. First, three removable files of sizes
`2^63 - 1`, `2^63 - 1` and `2` are all deleted but the call returns 0, not
their sum `2^64`: the byte count is a `uint64_t`. Second, a subdirectory that
cannot be opened for iteration is passed over, so the file in it and the
subdirectory itself remain although no size query and no delete failed.
Third, a root directory whose owner-read permission bit is not set is refused
by the test on its permissions: the file in it remains and 0 is returned,
although no size query and no delete failed. -/
theorem CleanupDirectory_claim_fails :
    (all_succeed (.file "a".toList (some 9223372036854775807) true
        (.file "b".toList (some 9223372036854775807) true
          (.file "c".toList (some 2) true .nil))) = true ∧
      (CleanupDirectory (some "/home/u".toList) id (some "/home/u/big".toList)
        (some (.dir true true
          (.file "a".toList (some 9223372036854775807) true
            (.file "b".toList (some 9223372036854775807) true
              (.file "c".toList (some 2) true .nil)))))) = (0, some (.dir true true .nil)) ∧
      total_size (.file "a".toList (some 9223372036854775807) true
        (.file "b".toList (some 9223372036854775807) true
          (.file "c".toList (some 2) true .nil))) = 18446744073709551616) ∧
    (all_succeed (.sub "locked".toList false true
        (.file "f".toList (some 5) true .nil) .nil) = true ∧
      CleanupDirectory (some "/home/u".toList) id (some "/home/u/x".toList)
        (some (.dir true true
          (.sub "locked".toList false true (.file "f".toList (some 5) true .nil) .nil))) =
        (0, some (.dir true true
          (.sub "locked".toList false true (.file "f".toList (some 5) true .nil) .nil)))) ∧
    (all_succeed (.file "f".toList (some 5) true .nil) = true ∧
      all_readable (.file "f".toList (some 5) true .nil) = true ∧
      CleanupDirectory (some "/home/u".toList) id (some "/home/u/x".toList)
        (some (.dir false true (.file "f".toList (some 5) true .nil))) =
        (0, some (.dir false true (.file "f".toList (some 5) true .nil)))) := by
  decide

/-- C5, amended: for a root directory whose canonical path starts with the
home path, whose owner-read permission bit is set and which can be opened for
iteration (the `true` in `.dir true removable content`), and a tree below it
(sibling names distinct) made of regular files and of directories that can all
be opened for iteration, in which every size query and every delete succeeds,
`CleanupDirectory` leaves the root directory in place with nothing beneath it,
and returns the sum of the sizes of the deleted files modulo `2^64`. -/
theorem CleanupDirectory_wipes_tree (home_dir_str : Str) (weakly_canonical : Str → Str)
    (s : Str) (removable : Bool) (content : Dir)
    (hs : s ≠ []) (hhome : starts_with (weakly_canonical s) home_dir_str = true)
    (hdistinct : names_distinct content = true) (hok : all_succeed content = true)
    (hreadable : all_readable content = true) :
    CleanupDirectory (some home_dir_str) weakly_canonical (some s)
        (some (.dir true removable content)) =
      (total_size content % U64, some (.dir true removable .nil)) := by
  have hlen : ¬ s.length = 0 := fun h => hs (List.length_eq_zero.mp h)
  unfold CleanupDirectory
  simp only [if_neg hlen, Bool.not_true, Bool.false_eq_true, if_false, hhome]
  rw [wipe_files_eq content 0 hok hreadable (by decide)]
  simp only [Nat.zero_add]
  congr 3
  apply remove_empty_loop_clears s _ _ (only_dirs_strip_files content hok hreadable)
    (names_distinct_strip_files content hdistinct) (insertionSort_longer_first_sorted s _)
  intro q hq
  exact (List.perm_insertionSort (longer_first s) _).mem_iff.mpr hq

/-- C5, amended, on the nested tree of the driver's test: a file in the root
and a file in a subdirectory. -/
theorem CleanupDirectory_wipes_tree_witness :
    CleanupDirectory (some "/home/u".toList) id (some "/home/u/TestCleanupDir".toList)
        (some (.dir true true
          (.file "dummy.zip".toList (some 3) true
            (.sub "sub".toList true true
              (.file "nested_dummy.tar.gz".toList (some 4) true .nil) .nil)))) =
      (total_size
          (.file "dummy.zip".toList (some 3) true
            (.sub "sub".toList true true
              (.file "nested_dummy.tar.gz".toList (some 4) true .nil) .nil)) % U64,
        some (.dir true true .nil)) :=
  CleanupDirectory_wipes_tree _ _ _ _ _ (by decide) (by decide) (by decide) (by decide)
    (by decide)

theorem removed_records_cons (info : FileInfo) (more : List FileInfo) (fs : Files) :
    removed_records (info :: more) fs =
      if fs_exists fs info.path then
        match fs_remove fs info.path with
        | some fs1 => info :: removed_records more fs1
        | none => removed_records more fs
      else removed_records more fs := rfl

theorem clear_file_list_cons (info : FileInfo) (more : List FileInfo) (fs : Files)
    (total : Nat) :
    clear_file_list (info :: more) fs total =
      if fs_exists fs info.path then
        match fs_remove fs info.path with
        | some fs1 => clear_file_list more fs1 ((total + info.size) % U64)
        | none => clear_file_list more fs total
      else clear_file_list more fs total := rfl

theorem clear_file_list_eq (l : List FileInfo) : ∀ (fs : Files) (total : Nat), total < U64 →
    clear_file_list l fs total =
      ((clear_file_list l fs 0).1, (total + sum_sizes (removed_records l fs)) % U64) := by
  induction l with
  | nil =>
    intro fs total ht
    simp [clear_file_list, removed_records, sum_sizes, Nat.mod_eq_of_lt ht]
  | cons info more ih =>
    intro fs total ht
    have h0 : (0 : Nat) < U64 := by decide
    simp only [removed_records_cons, clear_file_list_cons]
    by_cases hex : fs_exists fs info.path = true
    · simp only [hex, if_true]
      cases hrm : fs_remove fs info.path with
      | none =>
        simp only []
        rw [ih fs total ht, ih fs 0 h0]
      | some fs1 =>
        simp only []
        rw [ih fs1 _ (Nat.mod_lt _ h0), ih fs1 ((0 + info.size) % U64) (Nat.mod_lt _ h0)]
        simp only [sum_sizes, List.map_cons, List.sum_cons, Nat.mod_add_mod, Nat.add_assoc]
    · simp only [hex, Bool.false_eq_true, if_false]
      rw [ih fs total ht, ih fs 0 h0]

theorem removed_records_append (l1 l2 : List FileInfo) : ∀ fs : Files,
    removed_records (l1 ++ l2) fs =
      removed_records l1 fs ++ removed_records l2 (clear_file_list l1 fs 0).1 := by
  induction l1 with
  | nil => intro fs; simp [removed_records, clear_file_list]
  | cons info more ih =>
    intro fs
    have h0 : (0 : Nat) < U64 := by decide
    simp only [List.cons_append, removed_records_cons, clear_file_list_cons]
    by_cases hex : fs_exists fs info.path = true
    · simp only [hex, if_true]
      cases hrm : fs_remove fs info.path with
      | none => simp only []; exact ih fs
      | some fs1 =>
        simp only []
        rw [ih fs1, clear_file_list_eq more fs1 _ (Nat.mod_lt _ h0)]
        rfl
    · simp only [hex, Bool.false_eq_true, if_false]
      exact ih fs

theorem sum_sizes_append (l1 l2 : List FileInfo) :
    sum_sizes (l1 ++ l2) = sum_sizes l1 + sum_sizes l2 := by
  simp [sum_sizes]

/-! ## C7 -/

/-- C7 as stated fails when the sizes add up to `2^64` or more: with three
recorded packages of sizes `2^63 - 1`, `2^63 - 1` and `2`, all present and
removable, `CleanupCategories(CATEGORY_PACKAGES)` removes all three and
returns 0, not the sum `2^64` of their recorded sizes. -/
theorem CleanupCategories_claim_fails :
    (CleanupCategories CATEGORY_PACKAGES
        ⟨some "/home/u".toList, none, none, true,
          ⟨[⟨"/home/u/a.deb".toList, false, true, true⟩,
            ⟨"/home/u/b.deb".toList, false, true, true⟩,
            ⟨"/home/u/c.deb".toList, false, true, true⟩], []⟩⟩
        { cleared_store with
          g_package_files :=
            [⟨"/home/u/a.deb".toList, 9223372036854775807, CATEGORY_PACKAGES⟩,
             ⟨"/home/u/b.deb".toList, 9223372036854775807, CATEGORY_PACKAGES⟩,
             ⟨"/home/u/c.deb".toList, 2, CATEGORY_PACKAGES⟩] }).1 = 0 ∧
    sum_sizes (removed_records
        [⟨"/home/u/a.deb".toList, 9223372036854775807, CATEGORY_PACKAGES⟩,
         ⟨"/home/u/b.deb".toList, 9223372036854775807, CATEGORY_PACKAGES⟩,
         ⟨"/home/u/c.deb".toList, 2, CATEGORY_PACKAGES⟩]
        ⟨[⟨"/home/u/a.deb".toList, false, true, true⟩,
          ⟨"/home/u/b.deb".toList, false, true, true⟩,
          ⟨"/home/u/c.deb".toList, false, true, true⟩], []⟩) = 18446744073709551616 := by
  decide

/-- C7, amended: for every store, environment and mask without the Trash and
cache bits, `CleanupCategories` returns, modulo `2^64`, the sum of the
recorded sizes of exactly those records of the selected Packages and
Compressed sequences whose file still existed and was removed successfully;
afterwards every selected sequence is empty and every other sequence (Video,
Audio, Image, Document and Trash among them) and the running total are
unchanged. -/
theorem CleanupCategories_records (category_mask : Nat) (w : World) (g : Store)
    (htrash : has_bit category_mask CATEGORY_TRASH = false)
    (hthumb : has_bit category_mask CATEGORY_THUMBNAIL_CACHE = false)
    (hother : has_bit category_mask CATEGORY_OTHER_APP_CACHE = false) :
    (CleanupCategories category_mask w g).1 =
      sum_sizes (removed_records (selected_records category_mask g) w.files) % U64 ∧
    (CleanupCategories category_mask w g).2.2 =
      { g with
        g_package_files :=
          if has_bit category_mask CATEGORY_PACKAGES then [] else g.g_package_files
        g_compressed_files :=
          if has_bit category_mask CATEGORY_COMPRESSED then [] else g.g_compressed_files } := by
  have h0 : (0 : Nat) < U64 := by decide
  have hc : ∀ cache, cleanup_caches category_mask cache = (cache, 0) := by
    intro cache
    simp [cleanup_caches, hthumb, hother]
  have key : (CleanupCategories category_mask w g).1 =
        (clear_file_list (selected_records category_mask g) w.files 0).2 ∧
      (CleanupCategories category_mask w g).2.2 =
        { g with
          g_package_files :=
            if has_bit category_mask CATEGORY_PACKAGES then [] else g.g_package_files
          g_compressed_files :=
            if has_bit category_mask CATEGORY_COMPRESSED then [] else g.g_compressed_files } := by
    unfold CleanupCategories selected_records
    cases hw : w.home <;>
      cases has_bit category_mask CATEGORY_PACKAGES <;>
      cases has_bit category_mask CATEGORY_COMPRESSED <;>
      simp [hc, htrash, clear_file_list]
    all_goals
      rw [clear_file_list_eq g.g_package_files _ 0 h0]
      simp only []
      rw [clear_file_list_eq g.g_compressed_files _ _ (Nat.mod_lt _ h0),
        clear_file_list_eq (g.g_package_files ++ g.g_compressed_files) _ 0 h0,
        removed_records_append, sum_sizes_append]
      simp
  refine ⟨?_, key.2⟩
  rw [key.1, clear_file_list_eq _ _ 0 h0]
  simp

/-- C7, amended, with one package present, one missing and one whose delete
fails. -/
theorem CleanupCategories_records_witness :
    (CleanupCategories CATEGORY_PACKAGES
        ⟨some "/home/u".toList, none, none, true,
          ⟨[⟨"/home/u/a.deb".toList, false, true, true⟩,
            ⟨"/home/u/c.deb".toList, false, false, true⟩], []⟩⟩
        { cleared_store with
          g_package_files :=
            [⟨"/home/u/a.deb".toList, 10, CATEGORY_PACKAGES⟩,
             ⟨"/home/u/b.deb".toList, 20, CATEGORY_PACKAGES⟩,
             ⟨"/home/u/c.deb".toList, 40, CATEGORY_PACKAGES⟩]
          g_video_files := [⟨"/home/u/v.mp4".toList, 7, CATEGORY_VIDEO⟩] }).1 =
      sum_sizes (removed_records (selected_records CATEGORY_PACKAGES
        { cleared_store with
          g_package_files :=
            [⟨"/home/u/a.deb".toList, 10, CATEGORY_PACKAGES⟩,
             ⟨"/home/u/b.deb".toList, 20, CATEGORY_PACKAGES⟩,
             ⟨"/home/u/c.deb".toList, 40, CATEGORY_PACKAGES⟩]
          g_video_files := [⟨"/home/u/v.mp4".toList, 7, CATEGORY_VIDEO⟩] })
        ⟨[⟨"/home/u/a.deb".toList, false, true, true⟩,
          ⟨"/home/u/c.deb".toList, false, false, true⟩], []⟩) % U64 ∧
    (CleanupCategories CATEGORY_PACKAGES
        ⟨some "/home/u".toList, none, none, true,
          ⟨[⟨"/home/u/a.deb".toList, false, true, true⟩,
            ⟨"/home/u/c.deb".toList, false, false, true⟩], []⟩⟩
        { cleared_store with
          g_package_files :=
            [⟨"/home/u/a.deb".toList, 10, CATEGORY_PACKAGES⟩,
             ⟨"/home/u/b.deb".toList, 20, CATEGORY_PACKAGES⟩,
             ⟨"/home/u/c.deb".toList, 40, CATEGORY_PACKAGES⟩]
          g_video_files := [⟨"/home/u/v.mp4".toList, 7, CATEGORY_VIDEO⟩] }).2.2 =
      { cleared_store with g_video_files := [⟨"/home/u/v.mp4".toList, 7, CATEGORY_VIDEO⟩] } :=
  CleanupCategories_records _ _ _ (by decide) (by decide) (by decide)

theorem CleanupCategories_store (category_mask : Nat) (w : World) (g : Store) :
    (CleanupCategories category_mask w g).2.2 =
      { g with
        g_trash_files := if has_bit category_mask CATEGORY_TRASH then [] else g.g_trash_files
        g_package_files :=
          if has_bit category_mask CATEGORY_PACKAGES then [] else g.g_package_files
        g_compressed_files :=
          if has_bit category_mask CATEGORY_COMPRESSED then [] else g.g_compressed_files } := by
  unfold CleanupCategories
  cases w.home <;> cases has_bit category_mask CATEGORY_TRASH <;>
    cases has_bit category_mask CATEGORY_PACKAGES <;>
    cases has_bit category_mask CATEGORY_COMPRESSED <;> rfl

theorem MigrateCategories_store (category_mask : Nat) (destination_dir : Str) (g : Store)
    (fs : Files) :
    (MigrateCategories category_mask destination_dir g fs).2.1 = g ∨
    (MigrateCategories category_mask destination_dir g fs).2.1 =
      { g with
        g_video_files := if has_bit category_mask CATEGORY_VIDEO then [] else g.g_video_files
        g_audio_files := if has_bit category_mask CATEGORY_AUDIO then [] else g.g_audio_files
        g_image_files := if has_bit category_mask CATEGORY_IMAGE then [] else g.g_image_files
        g_document_files :=
          if has_bit category_mask CATEGORY_DOCUMENT then [] else g.g_document_files } := by
  unfold MigrateCategories
  cases (if (!fs_exists fs destination_dir) = true then create_directories fs destination_dir
    else some fs) with
  | none => exact Or.inl rfl
  | some fs0 =>
    right
    cases has_bit category_mask CATEGORY_VIDEO <;> cases has_bit category_mask CATEGORY_AUDIO <;>
      cases has_bit category_mask CATEGORY_IMAGE <;>
      cases has_bit category_mask CATEGORY_DOCUMENT <;> rfl

theorem process_file_entry_store (callback : Bool) (current_path : Str)
    (file_size : Option Nat) (category : FileCategory) (st : ScanState) :
    (process_file_entry callback current_path file_size category st).store = st.store ∨
    ∃ sz total, (process_file_entry callback current_path file_size category st).store =
      { push_record st.store ⟨current_path, sz, category⟩ with g_total_junk_size := total } := by
  unfold process_file_entry
  cases file_size with
  | none => exact Or.inl rfl
  | some sz =>
    right
    refine ⟨sz, ((push_record st.store ⟨current_path, sz, category⟩).g_total_junk_size + sz) %
      U64, ?_⟩
    cases callback <;> rfl

theorem loop_body_store (env : ScanEnv) (excluded : Str) (v : Visit) (st : ScanState) :
    (loop_body env excluded v st).store = st.store ∨
    ∃ category sz total, category ∈ scanned_or_unknown ∧ category ≠ CATEGORY_UNKNOWN ∧
      (loop_body env excluded v st).store =
        { push_record st.store ⟨v.current_path, sz, category⟩ with
          g_total_junk_size := total } := by
  unfold loop_body
  simp only []
  split_ifs with hh hr
  · exact Or.inl rfl
  · rcases scan_regular_file_cases env excluded v.current_path v.file_size st with
      e | ⟨c, hc, h0, e⟩
    · rw [e]; exact Or.inl rfl
    · rw [e]
      rcases process_file_entry_store env.callback v.current_path v.file_size c st with
        h | ⟨sz, total, h⟩
      · exact Or.inl h
      · exact Or.inr ⟨c, sz, total, hc, h0, h⟩
  · exact Or.inl rfl

theorem push_record_trash (g : Store) (info : FileInfo) :
    (push_record g info).g_trash_files = g.g_trash_files := by
  unfold push_record
  split_ifs <;> rfl

theorem Reachable_trash_empty (weakly_canonical : Str → Str) (P : Str → Option Ent → Prop)
    (e : Engine) (h : Reachable weakly_canonical P e) : e.store.g_trash_files = [] := by
  induction h with
  | init => rfl
  | start e home_path root callback _ _ ih =>
    unfold StartScan
    split_ifs <;> exact ih
  | thread e _ ih =>
    unfold thread_step
    split
    · exact ih
    · split
      · rfl
      · exact ih
      · split_ifs
        · exact ih
        · simp only []
          rcases loop_body_store _ _ _ _ with h | ⟨c, sz, total, _, _, h⟩
          · rw [h]; exact ih
          · rw [h]
            simp only [push_record_trash]
            exact ih
  | stop e _ ih => exact ih
  | set_rules e category extensions _ ih => exact ih
  | cleanup e category_mask w _ ih =>
    simp only [CleanupCategories_store]
    split_ifs
    · rfl
    · exact ih
  | migrate e category_mask destination_dir fs _ ih =>
    simp only []
    rcases MigrateCategories_store category_mask destination_dir e.store fs with h | h
    · rw [h]; exact ih
    · rw [h]; exact ih

/-! ## C11 -/

/-- C11: while a scan is running (`g_scan_finished` is false), `StartScan`
with any root and any callback returns the engine exactly as it was: the
finished flag stays false, the stop flag is not reset, the store is not
cleared and no thread is started. -/
theorem StartScan_while_running (e : Engine) (home_path : Str) (root : Option Ent)
    (callback : Bool) (h : e.g_scan_finished = false) :
    StartScan e home_path root callback = e ∧
      IsScanFinished (StartScan e home_path root callback) = 0 := by
  unfold StartScan
  simp [h, IsScanFinished]

/-- C11 on an engine whose scan has recorded one file and has been asked to
stop. -/
theorem StartScan_while_running_witness :
    StartScan
        ⟨{ cleared_store with
            g_video_files := [⟨"/home/u/a.mp4".toList, 7, CATEGORY_VIDEO⟩]
            g_total_junk_size := 7 },
          false, true, defaultRules,
          some ⟨"/home/u".toList, true, none, some [], 1, []⟩⟩
        "/tmp".toList none false =
      ⟨{ cleared_store with
          g_video_files := [⟨"/home/u/a.mp4".toList, 7, CATEGORY_VIDEO⟩]
          g_total_junk_size := 7 },
        false, true, defaultRules,
        some ⟨"/home/u".toList, true, none, some [], 1, []⟩⟩ ∧
    IsScanFinished (StartScan
        ⟨{ cleared_store with
            g_video_files := [⟨"/home/u/a.mp4".toList, 7, CATEGORY_VIDEO⟩]
            g_total_junk_size := 7 },
          false, true, defaultRules,
          some ⟨"/home/u".toList, true, none, some [], 1, []⟩⟩
        "/tmp".toList none false) = 0 :=
  StartScan_while_running _ _ _ _ rfl

/-! ## C13 -/

/-- C13: in every reachable state and for every category argument,
`GetScanResults` leaves the store unchanged; the records it hands back are
those of the category's sequence, in the same order and with equal path, size
and category, when the argument is one of Packages, Compressed, Video, Audio,
Image, Document, and there are none for any other argument (Trash, the cache
categories, Unknown, a combination of bits); the count is the number of
records handed back, and the pointer is null exactly when the count is 0. -/
theorem GetScanResults_spec (weakly_canonical : Str → Str) (e : Engine)
    (h : Reachable weakly_canonical (fun _ _ => True) e) (category : FileCategory) :
    (GetScanResults category e.store).2 = e.store ∧
    (GetScanResults category e.store).1.1.getD [] = sequence_of category e.store ∧
    (GetScanResults category e.store).1.2 = (sequence_of category e.store).length ∧
    ((GetScanResults category e.store).1.1 = none ↔ (GetScanResults category e.store).1.2 = 0) := by
  have htrash := Reachable_trash_empty _ _ e h
  have hcopy : ∀ v : List FileInfo, v.map (fun info => { info with path := info.path }) = v :=
    fun v => List.map_id' v
  have key : ∀ v : List FileInfo,
      (if v.length = 0 then (((none : Option (List FileInfo)), 0), e.store)
        else ((some v, v.length), e.store)).2 = e.store ∧
      (if v.length = 0 then (((none : Option (List FileInfo)), 0), e.store)
        else ((some v, v.length), e.store)).1.1.getD [] = v ∧
      (if v.length = 0 then (((none : Option (List FileInfo)), 0), e.store)
        else ((some v, v.length), e.store)).1.2 = v.length ∧
      ((if v.length = 0 then (((none : Option (List FileInfo)), 0), e.store)
        else ((some v, v.length), e.store)).1.1 = none ↔
       (if v.length = 0 then (((none : Option (List FileInfo)), 0), e.store)
        else ((some v, v.length), e.store)).1.2 = 0) := by
    intro v
    cases v with
    | nil => simp
    | cons a l => simp
  unfold GetScanResults sequence_of
  simp only [hcopy]
  by_cases h1 : category = CATEGORY_TRASH
  · subst h1
    rw [htrash]
    simp [CATEGORY_TRASH, CATEGORY_PACKAGES, CATEGORY_COMPRESSED, CATEGORY_VIDEO,
      CATEGORY_AUDIO, CATEGORY_IMAGE, CATEGORY_DOCUMENT]
  by_cases h2 : category = CATEGORY_PACKAGES
  · subst h2
    simpa [CATEGORY_TRASH, CATEGORY_PACKAGES] using key e.store.g_package_files
  by_cases h3 : category = CATEGORY_VIDEO
  · subst h3
    simpa [CATEGORY_TRASH, CATEGORY_PACKAGES, CATEGORY_COMPRESSED, CATEGORY_VIDEO] using
      key e.store.g_video_files
  by_cases h4 : category = CATEGORY_AUDIO
  · subst h4
    simpa [CATEGORY_TRASH, CATEGORY_PACKAGES, CATEGORY_COMPRESSED, CATEGORY_VIDEO,
      CATEGORY_AUDIO] using key e.store.g_audio_files
  by_cases h5 : category = CATEGORY_IMAGE
  · subst h5
    simpa [CATEGORY_TRASH, CATEGORY_PACKAGES, CATEGORY_COMPRESSED, CATEGORY_VIDEO,
      CATEGORY_AUDIO, CATEGORY_IMAGE] using key e.store.g_image_files
  by_cases h6 : category = CATEGORY_COMPRESSED
  · subst h6
    simpa [CATEGORY_TRASH, CATEGORY_PACKAGES, CATEGORY_COMPRESSED, CATEGORY_VIDEO,
      CATEGORY_AUDIO, CATEGORY_IMAGE] using key e.store.g_compressed_files
  by_cases h7 : category = CATEGORY_DOCUMENT
  · subst h7
    simpa [CATEGORY_TRASH, CATEGORY_PACKAGES, CATEGORY_COMPRESSED, CATEGORY_VIDEO,
      CATEGORY_AUDIO, CATEGORY_IMAGE, CATEGORY_DOCUMENT] using key e.store.g_document_files
  simp [h1, h2, h3, h4, h5, h6, h7]

/-- C13 on the engine reached by starting a scan of a directory that holds
one video and letting the thread run its first two steps. -/
theorem GetScanResults_spec_witness :
    (GetScanResults CATEGORY_VIDEO
        (thread_step id (thread_step id (StartScan initial_engine "/home/u".toList
          (some (.dir true true (.file "a.mp4".toList (some 7) true .nil))) true))).store).2 =
      (thread_step id (thread_step id (StartScan initial_engine "/home/u".toList
          (some (.dir true true (.file "a.mp4".toList (some 7) true .nil))) true))).store ∧
    (GetScanResults CATEGORY_VIDEO
        (thread_step id (thread_step id (StartScan initial_engine "/home/u".toList
          (some (.dir true true (.file "a.mp4".toList (some 7) true .nil))) true))).store).1.1.getD
        [] =
      sequence_of CATEGORY_VIDEO
        (thread_step id (thread_step id (StartScan initial_engine "/home/u".toList
          (some (.dir true true (.file "a.mp4".toList (some 7) true .nil))) true))).store ∧
    (GetScanResults CATEGORY_VIDEO
        (thread_step id (thread_step id (StartScan initial_engine "/home/u".toList
          (some (.dir true true (.file "a.mp4".toList (some 7) true .nil))) true))).store).1.2 =
      (sequence_of CATEGORY_VIDEO
        (thread_step id (thread_step id (StartScan initial_engine "/home/u".toList
          (some (.dir true true (.file "a.mp4".toList (some 7) true .nil))) true))).store).length ∧
    ((GetScanResults CATEGORY_VIDEO
        (thread_step id (thread_step id (StartScan initial_engine "/home/u".toList
          (some (.dir true true (.file "a.mp4".toList (some 7) true .nil))) true))).store).1.1 =
        none ↔
      (GetScanResults CATEGORY_VIDEO
        (thread_step id (thread_step id (StartScan initial_engine "/home/u".toList
          (some (.dir true true (.file "a.mp4".toList (some 7) true .nil))) true))).store).1.2 =
        0) :=
  GetScanResults_spec id _
    (Reachable.thread _ (Reachable.thread _ (Reachable.start _ _ _ _ Reachable.init trivial)))
    CATEGORY_VIDEO

/-! ## C14 -/

/-- C14 (the code departs from it): after `SetExtensions(CATEGORY_AUDIO,
[".MP3"])` the file `song.MP3` matches no compressed ending and no category
of higher priority, and its last extension equals the rule string `.MP3`
(exactly, and so also ignoring letter case), yet it is classified Unknown:
only the filename is lower-cased, the rule string is stored as given. The
same rule in lower case does classify the file as Audio. -/
theorem get_file_category_rule_case :
    get_file_category (SetExtensions CATEGORY_AUDIO [some ".MP3".toList] defaultRules)
        "/home/u/song.MP3".toList = CATEGORY_UNKNOWN ∧
    extension "/home/u/song.MP3".toList = ".MP3".toList ∧
    tolower (extension "/home/u/song.MP3".toList) = tolower ".MP3".toList ∧
    compressed_loop (tolower (filename "/home/u/song.MP3".toList))
        (SetExtensions CATEGORY_AUDIO [some ".MP3".toList] defaultRules).g_compressed_endings =
      false ∧
    get_file_category (SetExtensions CATEGORY_AUDIO [some ".mp3".toList] defaultRules)
        "/home/u/song.MP3".toList = CATEGORY_AUDIO := by
  decide

/-! ## C18 -/

/-- C18 (the code departs from it): with a cache directory holding the
regular file `log.txt` (7 bytes) beside `thumbnails` (one file of 4 bytes),
every removal succeeding, the one-pass call with both cache bits and the two
calls with one bit each leave the same, empty, cache directory, but the one
pass returns 11 and the two calls return 4 and 0: the branch for
`CATEGORY_OTHER_APP_CACHE` alone sizes each entry with
`calculate_directory_size`, which is 0 for a regular file. -/
theorem CleanupCategories_cache_passes_differ :
    (CleanupCategories (Nat.lor CATEGORY_THUMBNAIL_CACHE CATEGORY_OTHER_APP_CACHE)
        ⟨some "/home/u".toList,
          some (.dir true true
            (.file "log.txt".toList (some 7) true
              (.sub "thumbnails".toList true true (.file "t.png".toList (some 4) true .nil)
                .nil))),
          none, true, ⟨[], []⟩⟩ cleared_store).1 = 11 ∧
    (CleanupCategories (Nat.lor CATEGORY_THUMBNAIL_CACHE CATEGORY_OTHER_APP_CACHE)
        ⟨some "/home/u".toList,
          some (.dir true true
            (.file "log.txt".toList (some 7) true
              (.sub "thumbnails".toList true true (.file "t.png".toList (some 4) true .nil)
                .nil))),
          none, true, ⟨[], []⟩⟩ cleared_store).2.1.cache = some (.dir true true .nil) ∧
    (CleanupCategories CATEGORY_THUMBNAIL_CACHE
        ⟨some "/home/u".toList,
          some (.dir true true
            (.file "log.txt".toList (some 7) true
              (.sub "thumbnails".toList true true (.file "t.png".toList (some 4) true .nil)
                .nil))),
          none, true, ⟨[], []⟩⟩ cleared_store).1 = 4 ∧
    (CleanupCategories CATEGORY_OTHER_APP_CACHE
        (CleanupCategories CATEGORY_THUMBNAIL_CACHE
          ⟨some "/home/u".toList,
            some (.dir true true
              (.file "log.txt".toList (some 7) true
                (.sub "thumbnails".toList true true (.file "t.png".toList (some 4) true .nil)
                  .nil))),
            none, true, ⟨[], []⟩⟩ cleared_store).2.1 cleared_store).1 = 0 ∧
    (CleanupCategories CATEGORY_OTHER_APP_CACHE
        (CleanupCategories CATEGORY_THUMBNAIL_CACHE
          ⟨some "/home/u".toList,
            some (.dir true true
              (.file "log.txt".toList (some 7) true
                (.sub "thumbnails".toList true true (.file "t.png".toList (some 4) true .nil)
                  .nil))),
            none, true, ⟨[], []⟩⟩ cleared_store).2.1 cleared_store).2.1.cache =
      some (.dir true true .nil) := by
  decide

/-! ## C19 -/

/-- C19 (the code departs from it): two recorded videos `/home/u/a/clip.mp4`
and `/home/u/b/clip.mp4` both exist and both renames succeed, but both are
renamed to `/home/u/Moved/clip.mp4`, the second replacing the first: after
`MigrateCategories(CATEGORY_VIDEO, "/home/u/Moved")` the destination holds one
file, not two, and neither source remains. -/
theorem MigrateCategories_same_filename_overwrites :
    MigrateCategories CATEGORY_VIDEO "/home/u/Moved".toList
        { cleared_store with
          g_video_files :=
            [⟨"/home/u/a/clip.mp4".toList, 5, CATEGORY_VIDEO⟩,
             ⟨"/home/u/b/clip.mp4".toList, 9, CATEGORY_VIDEO⟩] }
        ⟨[⟨"/home/u/Moved".toList, true, true, true⟩,
          ⟨"/home/u/a/clip.mp4".toList, false, true, true⟩,
          ⟨"/home/u/b/clip.mp4".toList, false, true, true⟩], []⟩ =
      (0, cleared_store,
        ⟨[⟨"/home/u/Moved".toList, true, true, true⟩,
          ⟨"/home/u/Moved/clip.mp4".toList, false, true, true⟩], []⟩) := by
  decide

/-! ## Lemmas on the loop over enumerated entries -/

theorem run_entries_stopped (env : ScanEnv) (excluded : Str) (vs : List Visit)
    (st : ScanState) (h : st.stopped = true) : run_entries env excluded vs st = st := by
  cases vs with
  | nil => rfl
  | cons v more => simp [run_entries, h]

theorem run_entries_append (env : ScanEnv) (excluded : Str) (l1 : List Visit) :
    ∀ (l2 : List Visit) (st : ScanState),
      run_entries env excluded (l1 ++ l2) st =
        run_entries env excluded l2 (run_entries env excluded l1 st) := by
  induction l1 with
  | nil => intro l2 st; rfl
  | cons v more ih =>
    intro l2 st
    simp only [List.cons_append, run_entries]
    split_ifs with hs hf
    · exact (run_entries_stopped env excluded l2 st hs).symm
    · exact (run_entries_stopped env excluded l2 _ rfl).symm
    · exact ih l2 _

theorem scan_loop_eq_run_entries (env : ScanEnv) (excluded : Str) (t : Dir) :
    ∀ (dir : Str) (st : ScanState),
      scan_loop env excluded dir t st = run_entries env excluded (walk_entries dir t) st := by
  induction t with
  | nil => intro dir st; rfl
  | file name size removable rest ih =>
    intro dir st
    simp only [scan_loop, walk_entries, run_entries, loop_body]
    split_ifs <;> first | rfl | exact ih dir _
  | sub name readable removable content rest ihc ihr =>
    intro dir st
    simp only [scan_loop, walk_entries, run_entries, loop_body, run_entries_append,
      Bool.false_eq_true, if_false, ite_self]
    split_ifs <;> first | rfl | (rw [ihr, ihc]) | (rw [ihr]; rfl)
  | other name removable rest ih =>
    intro dir st
    simp only [scan_loop, walk_entries, run_entries, loop_body, Bool.false_eq_true, if_false,
      ite_self]
    split_ifs <;> first | rfl | exact ih dir _

theorem scan_directory_eq_run_entries (env : ScanEnv) (home_path_str : Str)
    (root : Option Ent) :
    scan_directory env home_path_str root =
      run_entries env (pjoin home_path_str "MoveFiles".toList) (entries_of home_path_str root)
        ⟨cleared_store, [], 0, false⟩ := by
  unfold scan_directory entries_of
  simp only []
  split
  · split_ifs
    · exact scan_loop_eq_run_entries _ _ _ _ _
    · rfl
  · rfl

theorem process_file_entry_iter (callback : Bool) (current_path : Str) (file_size : Option Nat)
    (category : FileCategory) (st : ScanState) :
    (process_file_entry callback current_path file_size category st).iter = st.iter ∧
    (process_file_entry callback current_path file_size category st).stopped = st.stopped := by
  unfold process_file_entry
  cases file_size with
  | none => exact ⟨rfl, rfl⟩
  | some sz => cases callback <;> exact ⟨rfl, rfl⟩

theorem loop_body_iter (env : ScanEnv) (excluded : Str) (v : Visit) (st : ScanState) :
    (loop_body env excluded v st).iter = st.iter + 1 ∧
    (loop_body env excluded v st).stopped = st.stopped := by
  unfold loop_body
  simp only []
  split_ifs
  · exact ⟨rfl, rfl⟩
  · rcases scan_regular_file_cases env excluded v.current_path v.file_size st with
      e | ⟨c, _, _, e⟩
    · rw [e]; exact ⟨rfl, rfl⟩
    · rw [e]
      obtain ⟨h1, h2⟩ := process_file_entry_iter env.callback v.current_path v.file_size c st
      exact ⟨by rw [h1], h2⟩
  · exact ⟨rfl, rfl⟩

theorem loop_body_without_stop (env : ScanEnv) (excluded : Str) (v : Visit) (st : ScanState) :
    loop_body (without_stop env) excluded v st = loop_body env excluded v st := rfl

theorem run_entries_without_stop (env : ScanEnv) (excluded : Str) (vs : List Visit) :
    ∀ st : ScanState, st.stopped = false →
      (run_entries (without_stop env) excluded vs st).stopped = false ∧
      (run_entries (without_stop env) excluded vs st).iter = st.iter + vs.length := by
  induction vs with
  | nil => intro st h; exact ⟨h, rfl⟩
  | cons v more ih =>
    intro st h
    obtain ⟨hi, hs⟩ := loop_body_iter (without_stop env) excluded v st
    have := ih (loop_body (without_stop env) excluded v st) (by rw [hs]; exact h)
    simp only [run_entries, h, Bool.false_eq_true, if_false, without_stop, List.length_cons]
    simp only [without_stop] at this hi
    rw [this.2, hi]
    exact ⟨this.1, by omega⟩

theorem run_entries_stop_at (env : ScanEnv) (excluded : Str) (vs : List Visit) :
    ∀ (j : Nat) (st : ScanState), st.stopped = false →
      (∀ n < j, env.stop_flag_at (st.iter + n) = false) →
      env.stop_flag_at (st.iter + j) = true →
      run_entries env excluded vs st =
        { run_entries (without_stop env) excluded (vs.take j) st with
          stopped := decide (j < vs.length) } := by
  induction vs with
  | nil =>
    intro j st hs _ _
    simp only [List.take_nil, run_entries, List.length_nil, Nat.not_lt_zero, decide_False]
    rw [← hs]
  | cons v more ih =>
    intro j st hs hbefore hat
    cases j with
    | zero =>
      simp only [Nat.add_zero] at hat
      simp [run_entries, hs, hat]
    | succ j =>
      have h0 : env.stop_flag_at st.iter = false := by
        have := hbefore 0 (Nat.succ_pos j)
        simpa using this
      obtain ⟨hi, hst⟩ := loop_body_iter env excluded v st
      have hrec := ih j (loop_body env excluded v st) (by rw [hst]; exact hs)
        (fun n hn => by
          rw [hi]
          have := hbefore (n + 1) (Nat.succ_lt_succ hn)
          rw [show st.iter + 1 + n = st.iter + (n + 1) by omega]
          exact this)
        (by rw [hi, show st.iter + 1 + j = st.iter + (j + 1) by omega]; exact hat)
      simp only [List.take_succ_cons, run_entries, hs, h0, Bool.false_eq_true, if_false,
        List.length_cons, Nat.succ_lt_succ_iff, loop_body_without_stop]
      rw [hrec]
      simp [without_stop]

theorem store_prefix_refl (g : Store) : store_prefix g g :=
  ⟨List.prefix_refl _, List.prefix_refl _, List.prefix_refl _, List.prefix_refl _,
    List.prefix_refl _, List.prefix_refl _, List.prefix_refl _⟩

theorem store_prefix_trans (g1 g2 g3 : Store) (h1 : store_prefix g1 g2)
    (h2 : store_prefix g2 g3) : store_prefix g1 g3 := by
  obtain ⟨a1, a2, a3, a4, a5, a6, a7⟩ := h1
  obtain ⟨b1, b2, b3, b4, b5, b6, b7⟩ := h2
  exact ⟨a1.trans b1, a2.trans b2, a3.trans b3, a4.trans b4, a5.trans b5, a6.trans b6,
    a7.trans b7⟩

theorem store_prefix_push_record (g : Store) (info : FileInfo) (total : Nat) :
    store_prefix g { push_record g info with g_total_junk_size := total } := by
  unfold push_record store_prefix
  split_ifs <;>
    exact ⟨by simp, by simp, by simp, by simp, by simp, by simp, by simp⟩

theorem store_prefix_loop_body (env : ScanEnv) (excluded : Str) (v : Visit) (st : ScanState) :
    store_prefix st.store (loop_body env excluded v st).store := by
  rcases loop_body_store env excluded v st with h | ⟨c, sz, total, _, _, h⟩
  · rw [h]; exact store_prefix_refl _
  · rw [h]; exact store_prefix_push_record _ _ _

theorem store_prefix_run_entries (env : ScanEnv) (excluded : Str) (vs : List Visit) :
    ∀ st : ScanState, store_prefix st.store (run_entries env excluded vs st).store := by
  induction vs with
  | nil => intro st; exact store_prefix_refl _
  | cons v more ih =>
    intro st
    simp only [run_entries]
    split_ifs
    · exact store_prefix_refl _
    · exact store_prefix_refl _
    · exact store_prefix_trans _ _ _ (store_prefix_loop_body env excluded v st) (ih _)

/-! ## C12 -/

/-- C12: when the stop flag is first observed set at the `k`-th reading (it
was clear at every earlier one), the scan ends in the state reached by running
the loop body over exactly the first `k` enumerated entries and no others (all
of them when there are fewer than `k`, and then the loop ends without
`break`), the thread sets `g_scan_finished`, and every sequence of the store
is an initial part of the sequence an uninterrupted scan of the same tree
produces. -/
theorem scan_directory_stop_at (env : ScanEnv) (home_path_str : Str) (root : Option Ent)
    (e : Engine) (k : Nat) (hbefore : ∀ n < k, env.stop_flag_at n = false)
    (hat : env.stop_flag_at k = true) :
    scan_directory env home_path_str root =
      { run_entries (without_stop env) (pjoin home_path_str "MoveFiles".toList)
          ((entries_of home_path_str root).take k) ⟨cleared_store, [], 0, false⟩ with
        stopped := decide (k < (entries_of home_path_str root).length) } ∧
    (scan_directory env home_path_str root).iter =
      min k (entries_of home_path_str root).length ∧
    IsScanFinished (scan_directory_thread env home_path_str root e) = 1 ∧
    store_prefix (scan_directory env home_path_str root).store
      (scan_directory (without_stop env) home_path_str root).store := by
  have hrun := run_entries_stop_at env (pjoin home_path_str "MoveFiles".toList)
    (entries_of home_path_str root) k ⟨cleared_store, [], 0, false⟩ rfl
    (fun n hn => by simpa using hbefore n hn) (by simpa using hat)
  have hfree := run_entries_without_stop env (pjoin home_path_str "MoveFiles".toList)
    ((entries_of home_path_str root).take k) ⟨cleared_store, [], 0, false⟩ rfl
  rw [scan_directory_eq_run_entries, hrun]
  refine ⟨rfl, ?_, rfl, ?_⟩
  · simp only []
    rw [hfree.2, List.length_take]
    simp
  · rw [scan_directory_eq_run_entries]
    conv_rhs => rw [← List.take_append_drop k (entries_of home_path_str root)]
    rw [run_entries_append]
    exact store_prefix_run_entries (without_stop env) (pjoin home_path_str "MoveFiles".toList)
      (List.drop k (entries_of home_path_str root))
      (run_entries (without_stop env) (pjoin home_path_str "MoveFiles".toList)
        (List.take k (entries_of home_path_str root)) ⟨cleared_store, [], 0, false⟩)

/-- C12 on a scan of three files that is asked to stop after the first. -/
theorem scan_directory_stop_at_witness :
    scan_directory ⟨fun _ => defaultRules, fun n => decide (1 ≤ n), id, true⟩ "/home/u".toList
        (some (.dir true true
          (.file "a.zip".toList (some 10) true
            (.file "b.mp3".toList (some 20) true
              (.file "c.pdf".toList (some 30) true .nil))))) =
      { run_entries (without_stop ⟨fun _ => defaultRules, fun n => decide (1 ≤ n), id, true⟩)
          (pjoin "/home/u".toList "MoveFiles".toList)
          ((entries_of "/home/u".toList
            (some (.dir true true
              (.file "a.zip".toList (some 10) true
                (.file "b.mp3".toList (some 20) true
                  (.file "c.pdf".toList (some 30) true .nil)))))).take 1)
          ⟨cleared_store, [], 0, false⟩ with
        stopped := decide (1 < (entries_of "/home/u".toList
            (some (.dir true true
              (.file "a.zip".toList (some 10) true
                (.file "b.mp3".toList (some 20) true
                  (.file "c.pdf".toList (some 30) true .nil)))))).length) } ∧
    (scan_directory ⟨fun _ => defaultRules, fun n => decide (1 ≤ n), id, true⟩ "/home/u".toList
        (some (.dir true true
          (.file "a.zip".toList (some 10) true
            (.file "b.mp3".toList (some 20) true
              (.file "c.pdf".toList (some 30) true .nil)))))).iter =
      min 1 (entries_of "/home/u".toList
        (some (.dir true true
          (.file "a.zip".toList (some 10) true
            (.file "b.mp3".toList (some 20) true
              (.file "c.pdf".toList (some 30) true .nil)))))).length ∧
    IsScanFinished (scan_directory_thread
        ⟨fun _ => defaultRules, fun n => decide (1 ≤ n), id, true⟩ "/home/u".toList
        (some (.dir true true
          (.file "a.zip".toList (some 10) true
            (.file "b.mp3".toList (some 20) true
              (.file "c.pdf".toList (some 30) true .nil)))))
        (StartScan initial_engine "/home/u".toList
          (some (.dir true true
            (.file "a.zip".toList (some 10) true
              (.file "b.mp3".toList (some 20) true
                (.file "c.pdf".toList (some 30) true .nil))))) true)) = 1 ∧
    store_prefix
      (scan_directory ⟨fun _ => defaultRules, fun n => decide (1 ≤ n), id, true⟩
        "/home/u".toList
        (some (.dir true true
          (.file "a.zip".toList (some 10) true
            (.file "b.mp3".toList (some 20) true
              (.file "c.pdf".toList (some 30) true .nil)))))).store
      (scan_directory
        (without_stop ⟨fun _ => defaultRules, fun n => decide (1 ≤ n), id, true⟩)
        "/home/u".toList
        (some (.dir true true
          (.file "a.zip".toList (some 10) true
            (.file "b.mp3".toList (some 20) true
              (.file "c.pdf".toList (some 30) true .nil)))))).store :=
  scan_directory_stop_at _ _ _ _ 1 (by decide) (by decide)

theorem scan_regular_file_congr (env env' : ScanEnv) (excluded current_path : Str)
    (file_size : Option Nat) (st : ScanState)
    (hr : env.rules_at st.iter = env'.rules_at st.iter)
    (hw : env.weakly_canonical = env'.weakly_canonical) (hc : env.callback = env'.callback) :
    scan_regular_file env excluded current_path file_size st =
      scan_regular_file env' excluded current_path file_size st := by
  unfold scan_regular_file
  rw [hr, hw, hc]

theorem loop_body_congr (env env' : ScanEnv) (excluded : Str) (v : Visit) (st : ScanState)
    (hr : env.rules_at st.iter = env'.rules_at st.iter)
    (hw : env.weakly_canonical = env'.weakly_canonical) (hc : env.callback = env'.callback) :
    loop_body env excluded v st = loop_body env' excluded v st := by
  unfold loop_body
  rw [scan_regular_file_congr env env' excluded v.current_path v.file_size st hr hw hc]

theorem run_entries_congr (env env' : ScanEnv) (excluded : Str)
    (hs : env.stop_flag_at = env'.stop_flag_at)
    (hw : env.weakly_canonical = env'.weakly_canonical) (hc : env.callback = env'.callback)
    (vs : List Visit) :
    ∀ st : ScanState,
      (∀ n, st.iter ≤ n → n < st.iter + vs.length → env.rules_at n = env'.rules_at n) →
      run_entries env excluded vs st = run_entries env' excluded vs st := by
  induction vs with
  | nil => intro st _; rfl
  | cons v more ih =>
    intro st hr
    have h0 : env.rules_at st.iter = env'.rules_at st.iter :=
      hr st.iter (Nat.le_refl _) (by simp)
    simp only [run_entries, hs]
    rw [loop_body_congr env env' excluded v st h0 hw hc]
    split_ifs
    · rfl
    · rfl
    · apply ih
      intro n h1 h2
      rw [(loop_body_iter env' excluded v st).1] at h1 h2
      apply hr n (by omega)
      simp only [List.length_cons]
      omega

theorem run_entries_iter (env : ScanEnv) (excluded : Str) (vs : List Visit) :
    ∀ st : ScanState, (run_entries env excluded vs st).stopped = false →
      (run_entries env excluded vs st).iter = st.iter + vs.length := by
  induction vs with
  | nil => intro st _; rfl
  | cons v more ih =>
    intro st h
    simp only [run_entries] at h ⊢
    by_cases h1 : st.stopped = true
    · rw [if_pos h1] at h
      rw [h1] at h
      exact absurd h (by decide)
    · rw [if_neg h1] at h ⊢
      by_cases h2 : env.stop_flag_at st.iter = true
      · rw [if_pos h2] at h
        exact absurd h (by simp)
      · rw [if_neg h2] at h ⊢
        rw [ih _ h, (loop_body_iter env excluded v st).1, List.length_cons]
        omega

/-! ## C16 -/

/-- C16 as stated fails: in a scan of two audio files under the default
rules, `SetExtensions(CATEGORY_AUDIO, [])` called between the processing of
the first and of the second file changes how the second is classified; the
scan ends with one audio record where a scan run entirely under the rules in
force at its start ends with two. -/
theorem scan_directory_rule_change_counterexample :
    (scan_directory
        ⟨fun n => if n = 0 then defaultRules else SetExtensions CATEGORY_AUDIO [] defaultRules,
          fun _ => false, id, true⟩
        "/home/u".toList
        (some (.dir true true
          (.file "a.mp3".toList (some 3) true
            (.file "b.mp3".toList (some 4) true .nil))))).store.g_audio_files =
      [⟨"/home/u/a.mp3".toList, 3, CATEGORY_AUDIO⟩] ∧
    (scan_directory ⟨fun _ => defaultRules, fun _ => false, id, true⟩ "/home/u".toList
        (some (.dir true true
          (.file "a.mp3".toList (some 3) true
            (.file "b.mp3".toList (some 4) true .nil))))).store.g_audio_files =
      [⟨"/home/u/a.mp3".toList, 3, CATEGORY_AUDIO⟩,
       ⟨"/home/u/b.mp3".toList, 4, CATEGORY_AUDIO⟩] := by
  decide

/-- C16, amended: a rule change made between the processing of two entries
takes effect at once. When the rules are `r1` for the first `k` entries and
`r2` from then on, the scan ends in the state reached by processing the first
`k` enumerated entries under `r1` and the remaining ones under `r2`: what was
already recorded stays as it was classified, and the remaining entries are
classified under the new rules. -/
theorem scan_directory_rule_change (env : ScanEnv) (home_path_str : Str) (root : Option Ent)
    (r1 r2 : Rules) (k : Nat) (hold : ∀ n < k, env.rules_at n = r1)
    (hnew : ∀ n, k ≤ n → env.rules_at n = r2) :
    scan_directory env home_path_str root =
      run_entries (with_rules env r2) (pjoin home_path_str "MoveFiles".toList)
        ((entries_of home_path_str root).drop k)
        (run_entries (with_rules env r1) (pjoin home_path_str "MoveFiles".toList)
          ((entries_of home_path_str root).take k) ⟨cleared_store, [], 0, false⟩) := by
  rw [scan_directory_eq_run_entries]
  conv_lhs => rw [← List.take_append_drop k (entries_of home_path_str root)]
  rw [run_entries_append]
  have h1 : run_entries env (pjoin home_path_str "MoveFiles".toList)
      ((entries_of home_path_str root).take k) ⟨cleared_store, [], 0, false⟩ =
      run_entries (with_rules env r1) (pjoin home_path_str "MoveFiles".toList)
        ((entries_of home_path_str root).take k) ⟨cleared_store, [], 0, false⟩ := by
    apply run_entries_congr env (with_rules env r1) _ rfl rfl rfl
    intro n _ hn
    simp only [List.length_take, Nat.zero_add] at hn
    exact hold n (by omega)
  rw [h1]
  cases hst : (run_entries (with_rules env r1) (pjoin home_path_str "MoveFiles".toList)
      ((entries_of home_path_str root).take k) ⟨cleared_store, [], 0, false⟩).stopped with
  | true => rw [run_entries_stopped _ _ _ _ hst, run_entries_stopped _ _ _ _ hst]
  | false =>
    apply run_entries_congr env (with_rules env r2) _ rfl rfl rfl
    intro n hn1 hn2
    rw [run_entries_iter _ _ _ _ hst] at hn1 hn2
    simp only [List.length_take, List.length_drop, Nat.zero_add] at hn1 hn2
    exact hnew n (by omega)

/-- C16, amended, on the scan of the counterexample: the first file is
processed under the default rules, the second under rules with no audio
extension. -/
theorem scan_directory_rule_change_witness :
    scan_directory
        ⟨fun n => if n = 0 then defaultRules else SetExtensions CATEGORY_AUDIO [] defaultRules,
          fun _ => false, id, true⟩
        "/home/u".toList
        (some (.dir true true
          (.file "a.mp3".toList (some 3) true
            (.file "b.mp3".toList (some 4) true .nil)))) =
      run_entries
        (with_rules
          ⟨fun n => if n = 0 then defaultRules else SetExtensions CATEGORY_AUDIO [] defaultRules,
            fun _ => false, id, true⟩
          (SetExtensions CATEGORY_AUDIO [] defaultRules))
        (pjoin "/home/u".toList "MoveFiles".toList)
        ((entries_of "/home/u".toList
          (some (.dir true true
            (.file "a.mp3".toList (some 3) true
              (.file "b.mp3".toList (some 4) true .nil))))).drop 1)
        (run_entries
          (with_rules
            ⟨fun n => if n = 0 then defaultRules
              else SetExtensions CATEGORY_AUDIO [] defaultRules,
              fun _ => false, id, true⟩
            defaultRules)
          (pjoin "/home/u".toList "MoveFiles".toList)
          ((entries_of "/home/u".toList
            (some (.dir true true
              (.file "a.mp3".toList (some 3) true
                (.file "b.mp3".toList (some 4) true .nil))))).take 1)
          ⟨cleared_store, [], 0, false⟩) :=
  scan_directory_rule_change _ _ _ _ _ 1
    (fun n hn => by
      have h0 : n = 0 := by omega
      subst h0
      rfl)
    (fun n hn => by
      have h0 : n ≠ 0 := by omega
      simp [h0])

theorem mem_scanned_of_mem_sequence_of (c : FileCategory) (g : Store) (a : FileInfo)
    (h : a ∈ sequence_of c g) : a ∈ g.scanned := by
  unfold sequence_of at h
  unfold Store.scanned
  simp only [List.mem_append]
  split_ifs at h
  all_goals first
    | tauto

theorem push_record_fields (g : Store) (info : FileInfo) :
    (push_record g info).g_package_files =
      (if info.category = CATEGORY_PACKAGES then g.g_package_files ++ [info]
        else g.g_package_files) ∧
    (push_record g info).g_compressed_files =
      (if info.category = CATEGORY_COMPRESSED then g.g_compressed_files ++ [info]
        else g.g_compressed_files) ∧
    (push_record g info).g_video_files =
      (if info.category = CATEGORY_VIDEO then g.g_video_files ++ [info]
        else g.g_video_files) ∧
    (push_record g info).g_audio_files =
      (if info.category = CATEGORY_AUDIO then g.g_audio_files ++ [info]
        else g.g_audio_files) ∧
    (push_record g info).g_image_files =
      (if info.category = CATEGORY_IMAGE then g.g_image_files ++ [info]
        else g.g_image_files) ∧
    (push_record g info).g_document_files =
      (if info.category = CATEGORY_DOCUMENT then g.g_document_files ++ [info]
        else g.g_document_files) := by
  by_cases h1 : info.category = CATEGORY_PACKAGES
  · simp [push_record, h1, CATEGORY_PACKAGES, CATEGORY_COMPRESSED, CATEGORY_VIDEO,
      CATEGORY_AUDIO, CATEGORY_IMAGE, CATEGORY_DOCUMENT]
  by_cases h2 : info.category = CATEGORY_COMPRESSED
  · simp [push_record, h2, CATEGORY_PACKAGES, CATEGORY_COMPRESSED, CATEGORY_VIDEO,
      CATEGORY_AUDIO, CATEGORY_IMAGE, CATEGORY_DOCUMENT]
  by_cases h3 : info.category = CATEGORY_VIDEO
  · simp [push_record, h3, CATEGORY_PACKAGES, CATEGORY_COMPRESSED, CATEGORY_VIDEO,
      CATEGORY_AUDIO, CATEGORY_IMAGE, CATEGORY_DOCUMENT]
  by_cases h4 : info.category = CATEGORY_AUDIO
  · simp [push_record, h4, CATEGORY_PACKAGES, CATEGORY_COMPRESSED, CATEGORY_VIDEO,
      CATEGORY_AUDIO, CATEGORY_IMAGE, CATEGORY_DOCUMENT]
  by_cases h5 : info.category = CATEGORY_IMAGE
  · simp [push_record, h5, CATEGORY_PACKAGES, CATEGORY_COMPRESSED, CATEGORY_VIDEO,
      CATEGORY_AUDIO, CATEGORY_IMAGE, CATEGORY_DOCUMENT]
  by_cases h6 : info.category = CATEGORY_DOCUMENT
  · simp [push_record, h6, CATEGORY_PACKAGES, CATEGORY_COMPRESSED, CATEGORY_VIDEO,
      CATEGORY_AUDIO, CATEGORY_IMAGE, CATEGORY_DOCUMENT]
  simp [push_record, h1, h2, h3, h4, h5, h6]

theorem mem_sequence_of_push_record (c : FileCategory) (g : Store) (info a : FileInfo)
    (total : Nat)
    (h : a ∈ sequence_of c { push_record g info with g_total_junk_size := total }) :
    a ∈ sequence_of c g ∨ (a = info ∧ c = info.category) := by
  obtain ⟨f1, f2, f3, f4, f5, f6⟩ := push_record_fields g info
  unfold sequence_of at h ⊢
  simp only [f1, f2, f3, f4, f5, f6] at h
  by_cases c1 : c = CATEGORY_PACKAGES
  · simp only [c1, if_true] at h ⊢
    split_ifs at h with hi
    · rcases List.mem_append.mp h with h | h
      · exact Or.inl h
      · exact Or.inr ⟨List.mem_singleton.mp h, hi.symm⟩
    · exact Or.inl h
  simp only [c1, if_false] at h ⊢
  by_cases c2 : c = CATEGORY_COMPRESSED
  · simp only [c2, if_true] at h ⊢
    split_ifs at h with hi
    · rcases List.mem_append.mp h with h | h
      · exact Or.inl h
      · exact Or.inr ⟨List.mem_singleton.mp h, hi.symm⟩
    · exact Or.inl h
  simp only [c2, if_false] at h ⊢
  by_cases c3 : c = CATEGORY_VIDEO
  · simp only [c3, if_true] at h ⊢
    split_ifs at h with hi
    · rcases List.mem_append.mp h with h | h
      · exact Or.inl h
      · exact Or.inr ⟨List.mem_singleton.mp h, hi.symm⟩
    · exact Or.inl h
  simp only [c3, if_false] at h ⊢
  by_cases c4 : c = CATEGORY_AUDIO
  · simp only [c4, if_true] at h ⊢
    split_ifs at h with hi
    · rcases List.mem_append.mp h with h | h
      · exact Or.inl h
      · exact Or.inr ⟨List.mem_singleton.mp h, hi.symm⟩
    · exact Or.inl h
  simp only [c4, if_false] at h ⊢
  by_cases c5 : c = CATEGORY_IMAGE
  · simp only [c5, if_true] at h ⊢
    split_ifs at h with hi
    · rcases List.mem_append.mp h with h | h
      · exact Or.inl h
      · exact Or.inr ⟨List.mem_singleton.mp h, hi.symm⟩
    · exact Or.inl h
  simp only [c5, if_false] at h ⊢
  by_cases c6 : c = CATEGORY_DOCUMENT
  · simp only [c6, if_true] at h ⊢
    split_ifs at h with hi
    · rcases List.mem_append.mp h with h | h
      · exact Or.inl h
      · exact Or.inr ⟨List.mem_singleton.mp h, hi.symm⟩
    · exact Or.inl h
  simp only [c6, if_false] at h
  exact absurd h (List.not_mem_nil a)

theorem scanned_push_record_perm (g : Store) (info : FileInfo) (total : Nat)
    (hc : info.category ∈ scanned_or_unknown) (h0 : info.category ≠ CATEGORY_UNKNOWN) :
    ({ push_record g info with g_total_junk_size := total } : Store).scanned.Perm
      (g.scanned ++ [info]) := by
  unfold scanned_or_unknown at hc
  simp only [List.mem_cons, List.mem_singleton, List.not_mem_nil, or_false] at hc
  rw [List.perm_iff_count]
  intro a
  obtain ⟨f1, f2, f3, f4, f5, f6⟩ := push_record_fields g info
  unfold Store.scanned
  simp only [f1, f2, f3, f4, f5, f6]
  rcases hc with h | h | h | h | h | h | h
  · exact absurd h h0
  all_goals
    rw [h]
    simp only [CATEGORY_PACKAGES, CATEGORY_COMPRESSED, CATEGORY_VIDEO, CATEGORY_AUDIO,
      CATEGORY_IMAGE, CATEGORY_DOCUMENT, List.count_append, if_true, Nat.reduceEqDiff,
      if_false]
    omega

theorem ite_nil_sublist (b : Bool) (l : List FileInfo) :
    (if b = true then [] else l).Sublist l := by
  cases b
  · exact List.Sublist.refl l
  · exact List.nil_sublist l

theorem store_sublist_refl (g : Store) : store_sublist g g :=
  ⟨List.Sublist.refl _, List.Sublist.refl _, List.Sublist.refl _, List.Sublist.refl _,
    List.Sublist.refl _, List.Sublist.refl _⟩

theorem store_sublist_CleanupCategories (category_mask : Nat) (w : World) (g : Store) :
    store_sublist (CleanupCategories category_mask w g).2.2 g := by
  rw [CleanupCategories_store]
  exact ⟨ite_nil_sublist _ _, ite_nil_sublist _ _, List.Sublist.refl _, List.Sublist.refl _,
    List.Sublist.refl _, List.Sublist.refl _⟩

theorem store_sublist_MigrateCategories (category_mask : Nat) (destination_dir : Str)
    (g : Store) (fs : Files) :
    store_sublist (MigrateCategories category_mask destination_dir g fs).2.1 g := by
  rcases MigrateCategories_store category_mask destination_dir g fs with h | h
  · rw [h]; exact store_sublist_refl g
  · rw [h]
    exact ⟨List.Sublist.refl _, List.Sublist.refl _, ite_nil_sublist _ _, ite_nil_sublist _ _,
      ite_nil_sublist _ _, ite_nil_sublist _ _⟩

theorem scanned_sublist (g' g : Store) (h : store_sublist g' g) :
    g'.scanned.Sublist g.scanned := by
  obtain ⟨h1, h2, h3, h4, h5, h6⟩ := h
  unfold Store.scanned
  exact ((((h1.append h2).append h3).append h4).append h5).append h6

theorem mem_sequence_of_sublist (c : FileCategory) (g' g : Store) (h : store_sublist g' g)
    (a : FileInfo) (ha : a ∈ sequence_of c g') : a ∈ sequence_of c g := by
  obtain ⟨h1, h2, h3, h4, h5, h6⟩ := h
  unfold sequence_of at ha ⊢
  split_ifs at ha ⊢
  · exact h1.subset ha
  · exact h2.subset ha
  · exact h3.subset ha
  · exact h4.subset ha
  · exact h5.subset ha
  · exact h6.subset ha
  · exact ha

theorem ExclusiveInv_shrink (e : Engine) (g' : Store) (h : ExclusiveInv e)
    (hs : store_sublist g' e.store) : ExclusiveInv { e with store := g' } := by
  obtain ⟨htag, hnd, hroot⟩ := h
  refine ⟨fun c info hi => htag c info (mem_sequence_of_sublist c g' e.store hs info hi), ?_,
    hroot⟩
  exact hnd.sublist (((scanned_sublist g' e.store hs).map FileInfo.path).append
    (List.Sublist.refl _))

theorem ExclusiveInv_thread_step (weakly_canonical : Str → Str) (e : Engine)
    (h : ExclusiveInv e) : ExclusiveInv (thread_step weakly_canonical e) := by
  obtain ⟨htag, hnd, hroot⟩ := h
  unfold thread_step
  cases ht : e.thread with
  | none => simp only []; exact ⟨htag, hnd, hroot⟩
  | some t =>
    simp only []
    cases hp : t.pending with
    | none =>
      simp only []
      refine ⟨?_, ?_, ?_⟩
      · intro c info hi
        simp only [sequence_of, cleared_store] at hi
        split_ifs at hi <;> exact absurd hi (List.not_mem_nil info)
      · simpa [pending_paths, Store.scanned, cleared_store] using hroot t ht hp
      · intro t' ht' hp'
        simp only [Option.some.injEq] at ht'
        rw [← ht'] at hp'
        simp at hp'
    | some vs =>
      have hnd' : ((e.store.scanned.map FileInfo.path) ++
          vs.map Visit.current_path).Nodup := by
        simpa [pending_paths, ht, hp] using hnd
      cases vs with
      | nil =>
        simp only []
        refine ⟨htag, ?_, ?_⟩
        · simpa [pending_paths] using hnd'
        · intro t' ht'; simp at ht'
      | cons v more =>
        simp only []
        split_ifs with hstop
        · refine ⟨htag, ?_, ?_⟩
          · simp only [pending_paths, List.append_nil]
            exact hnd'.sublist (List.sublist_append_left _ _)
          · intro t' ht'; simp at ht'
        · refine ⟨?_, ?_, ?_⟩
          · intro c info hi
            simp only [] at hi
            rcases loop_body_store _ _ _ _ with hb | ⟨cat, sz, total, _, _, hb⟩
            · rw [hb] at hi; exact htag c info hi
            · rw [hb] at hi
              rcases mem_sequence_of_push_record c _ _ _ _ hi with h1 | ⟨h1, h2⟩
              · exact htag c info h1
              · rw [h1, h2]
          · simp only [pending_paths, Option.getD_some]
            rcases loop_body_store _ _ _ _ with hb | ⟨cat, sz, total, hc, h0, hb⟩
            · rw [hb]
              refine hnd'.sublist ?_
              exact (List.Sublist.refl _).append
                ((List.sublist_cons_self v more).map Visit.current_path)
            · rw [hb]
              have hperm := (scanned_push_record_perm e.store ⟨v.current_path, sz, cat⟩ total
                hc h0).map FileInfo.path
              refine (List.Perm.nodup_iff (hperm.append_right _)).mpr ?_
              simpa using hnd'
          · intro t' ht' hp'
            simp only [Option.some.injEq] at ht'
            rw [← ht'] at hp'
            simp at hp'

theorem ExclusiveInv_of_Reachable (weakly_canonical : Str → Str) (e : Engine)
    (h : Reachable weakly_canonical each_path_once e) : ExclusiveInv e := by
  induction h with
  | init =>
    refine ⟨?_, by decide, ?_⟩
    · intro c info hi
      simp only [sequence_of, initial_engine, cleared_store] at hi
      split_ifs at hi <;> exact absurd hi (List.not_mem_nil info)
    · intro t ht; simp [initial_engine] at ht
  | start e home_path root callback _ hP ih =>
    unfold StartScan
    split_ifs
    · exact ih
    · obtain ⟨htag, hnd, _⟩ := ih
      refine ⟨htag, ?_, ?_⟩
      · simp only [pending_paths, Option.getD_none, List.map_nil, List.append_nil]
        exact hnd.sublist (List.sublist_append_left _ _)
      · intro t ht _
        simp only [Option.some.injEq] at ht
        rw [← ht]
        exact hP
  | thread e _ ih => exact ExclusiveInv_thread_step weakly_canonical e ih
  | stop e _ ih => exact ih
  | set_rules e category extensions _ ih => exact ih
  | cleanup e category_mask w _ ih =>
    exact ExclusiveInv_shrink e _ ih (store_sublist_CleanupCategories _ _ _)
  | migrate e category_mask destination_dir fs _ ih =>
    exact ExclusiveInv_shrink e _ ih (store_sublist_MigrateCategories _ _ _ _)

/-! ## C15 -/

/-- C15: in every state reached through `StartScan` (on roots whose paths are
enumerated once each), the steps of the scan thread, `StopScan`,
`SetExtensions`, `CleanupCategories` and `MigrateCategories`, interleaved in
any way, every record held in the sequence of a scanned category carries that
category, and no path occurs in the sequences of two different categories. -/
theorem Reachable_mutually_exclusive (weakly_canonical : Str → Str) (e : Engine)
    (h : Reachable weakly_canonical each_path_once e) :
    (∀ c, ∀ info ∈ sequence_of c e.store, info.category = c) ∧
    (∀ c1 c2, c1 ≠ c2 → ∀ a ∈ sequence_of c1 e.store, ∀ b ∈ sequence_of c2 e.store,
      a.path ≠ b.path) := by
  obtain ⟨htag, hnd, _⟩ := ExclusiveInv_of_Reachable weakly_canonical e h
  refine ⟨htag, ?_⟩
  intro c1 c2 hne a ha b hb hpath
  have hinj := List.inj_on_of_nodup_map (hnd.sublist (List.sublist_append_left _ _))
  have hab : a = b := hinj (mem_scanned_of_mem_sequence_of c1 _ a ha)
    (mem_scanned_of_mem_sequence_of c2 _ b hb) hpath
  apply hne
  rw [← htag c1 a ha, ← htag c2 b hb, hab]

/-- C15 on the engine reached by starting a scan of a directory with a video
and an archive and letting the thread run three steps. -/
theorem Reachable_mutually_exclusive_witness :
    (∀ c, ∀ info ∈ sequence_of c
        (thread_step id (thread_step id (thread_step id (StartScan initial_engine
          "/home/u".toList
          (some (.dir true true
            (.file "a.mp4".toList (some 7) true (.file "b.zip".toList (some 9) true .nil))))
          true)))).store,
      info.category = c) ∧
    (∀ c1 c2, c1 ≠ c2 →
      ∀ a ∈ sequence_of c1
        (thread_step id (thread_step id (thread_step id (StartScan initial_engine
          "/home/u".toList
          (some (.dir true true
            (.file "a.mp4".toList (some 7) true (.file "b.zip".toList (some 9) true .nil))))
          true)))).store,
      ∀ b ∈ sequence_of c2
        (thread_step id (thread_step id (thread_step id (StartScan initial_engine
          "/home/u".toList
          (some (.dir true true
            (.file "a.mp4".toList (some 7) true (.file "b.zip".toList (some 9) true .nil))))
          true)))).store,
      a.path ≠ b.path) :=
  Reachable_mutually_exclusive id _
    (Reachable.thread _ (Reachable.thread _ (Reachable.thread _
      (Reachable.start _ _ _ _ Reachable.init (by unfold each_path_once; decide)))))

/-! ## Lemmas on the guard discipline -/

theorem obeys_append (policy : Policy) (a : List Ev) : ∀ (held : Bool) (b : List Ev),
    obeys policy held (a ++ b) =
      (obeys policy held a && obeys policy (held_after held a) b) := by
  induction a with
  | nil => intro held b; simp [obeys, held_after]
  | cons ev more ih =>
    intro held b
    cases ev <;> simp [obeys, held_after, ih, Bool.and_assoc]

theorem held_after_append (a : List Ev) : ∀ (held : Bool) (b : List Ev),
    held_after held (a ++ b) = held_after (held_after held a) b := by
  induction a with
  | nil => intro held b; rfl
  | cons ev more ih =>
    intro held b
    cases ev <;> simp [held_after, ih]

theorem Seg_append (h1 h2 h3 : Bool) (a b : List Ev) (ha : Seg h1 h2 a) (hb : Seg h2 h3 b) :
    Seg h1 h3 (a ++ b) := by
  obtain ⟨a1, a2⟩ := ha
  obtain ⟨b1, b2⟩ := hb
  refine ⟨?_, ?_⟩
  · rw [obeys_append, a1, a2, b1]; rfl
  · rw [held_after_append, a2, b2]

theorem Seg_nil (h : Bool) : Seg h h [] := ⟨rfl, rfl⟩

theorem Seg_inner (tr : List Ev) (h : ∀ ev ∈ tr, ev ∈ inner_steps) : Seg true true tr := by
  induction tr with
  | nil => exact Seg_nil true
  | cons ev more ih =>
    have hev := h ev (List.mem_cons_self _ _)
    obtain ⟨i1, i2⟩ := ih (fun x hx => h x (List.mem_cons_of_mem _ hx))
    cases ev <;> first
      | (exact absurd hev (by decide))
      | (exact ⟨by simp [obeys, kept_policy, i1], by simp [held_after, i2]⟩)

theorem Seg_outer (tr : List Ev) (h : ∀ ev ∈ tr, ev ∈ outer_steps) : Seg false false tr := by
  induction tr with
  | nil => exact Seg_nil false
  | cons ev more ih =>
    have hev := h ev (List.mem_cons_self _ _)
    obtain ⟨i1, i2⟩ := ih (fun x hx => h x (List.mem_cons_of_mem _ hx))
    cases ev <;> first
      | (exact absurd hev (by decide))
      | (exact ⟨by simp [obeys, kept_policy, i1], by simp [held_after, i2]⟩)

theorem Seg_process_file_entry (callback : Bool) (file_size : Option Nat) :
    Seg false false (process_file_entry_trace callback file_size) := by
  cases callback <;> cases file_size <;> exact ⟨rfl, rfl⟩

theorem Seg_scan_regular_file (env : ScanEnv) (excluded current_path : Str)
    (file_size : Option Nat) (st : ScanState) :
    Seg false false (scan_regular_file_trace env excluded current_path file_size st) := by
  unfold scan_regular_file_trace
  simp only []
  split_ifs
  · exact Seg_nil false
  · exact Seg_process_file_entry _ _
  · exact Seg_process_file_entry _ _
  · exact Seg_nil false

theorem Seg_run_entries (env : ScanEnv) (excluded : Str) (vs : List Visit) :
    ∀ st : ScanState, Seg false false (run_entries_trace env excluded vs st) := by
  induction vs with
  | nil => intro st; exact Seg_nil false
  | cons v more ih =>
    intro st
    simp only [run_entries_trace]
    split_ifs
    · exact Seg_nil false
    · exact Seg_nil false
    · exact Seg_append _ _ _ _ _ (Seg_nil false) (ih _)
    · exact Seg_append _ _ _ _ _ (Seg_scan_regular_file _ _ _ _ _) (ih _)
    · exact Seg_append _ _ _ _ _ (Seg_nil false) (ih _)

theorem Seg_scan_directory (env : ScanEnv) (home_path_str : Str) (root : Option Ent) :
    Seg false false (scan_directory_trace env home_path_str root) := by
  unfold scan_directory_trace
  exact Seg_append _ false _ _ _ ⟨by decide, by decide⟩ (Seg_run_entries _ _ _ _)

theorem Seg_GetScanResults (category : FileCategory) (g : Store) :
    Seg false false (GetScanResults_trace category g) := by
  have hread : ∀ v : List FileInfo, Seg true true (v.map (fun _ => Ev.seq_read)) := by
    intro v
    apply Seg_inner
    intro ev hev
    obtain ⟨_, _, rfl⟩ := List.mem_map.mp hev
    decide
  have hsome : ∀ v : List FileInfo,
      Seg false false ([Ev.lock, Ev.seq_read] ++ v.map (fun _ => Ev.seq_read) ++ [Ev.unlock]) :=
    fun v => Seg_append _ true _ _ _
      (Seg_append _ true _ _ _ ⟨by decide, by decide⟩ (hread v)) ⟨by decide, by decide⟩
  unfold GetScanResults_trace
  simp only []
  split
  · exact ⟨by decide, by decide⟩
  · exact hsome _

theorem Seg_cons_outer (ev : Ev) (tr : List Ev) (h : ev ∈ outer_steps)
    (ht : Seg false false tr) : Seg false false (ev :: tr) :=
  Seg_append false false false [ev] tr
    (Seg_outer [ev] (fun x hx => by rw [List.mem_singleton.mp hx]; exact h)) ht

theorem Seg_cons_inner (ev : Ev) (tr : List Ev) (h : ev ∈ inner_steps)
    (ht : Seg true true tr) : Seg true true (ev :: tr) :=
  Seg_append true true true [ev] tr
    (Seg_inner [ev] (fun x hx => by rw [List.mem_singleton.mp hx]; exact h)) ht

theorem Seg_remove_each (t : Dir) : Seg false false (remove_each_trace t) := by
  induction t with
  | nil => exact Seg_nil false
  | file name size removable rest ih =>
    simp only [remove_each_trace]
    apply Seg_cons_outer _ _ (by decide)
    split_ifs <;> first | exact ih | exact Seg_nil false
  | sub name readable removable content rest _ ih =>
    simp only [remove_each_trace]
    apply Seg_cons_outer _ _ (by decide)
    split_ifs <;> first | exact ih | exact Seg_nil false
  | other name removable rest ih =>
    simp only [remove_each_trace]
    apply Seg_cons_outer _ _ (by decide)
    split_ifs <;> first | exact ih | exact Seg_nil false

theorem Seg_remove_others (thumb : Str) (t : Dir) :
    Seg false false (remove_others_trace thumb t) := by
  induction t with
  | nil => exact Seg_nil false
  | file name size removable rest ih =>
    simp only [remove_others_trace]
    split_ifs <;> first
      | exact ih
      | (refine Seg_append false false false [Ev.cache_size_query, Ev.cache_removal] _
          ⟨rfl, rfl⟩ ?_
         first | exact ih | exact Seg_nil false)
  | sub name readable removable content rest _ ih =>
    simp only [remove_others_trace]
    split_ifs <;> first
      | exact ih
      | (refine Seg_append false false false [Ev.cache_size_query, Ev.cache_removal] _
          ⟨rfl, rfl⟩ ?_
         first | exact ih | exact Seg_nil false)
  | other name removable rest ih =>
    simp only [remove_others_trace]
    split_ifs <;> first
      | exact ih
      | (refine Seg_append false false false [Ev.cache_size_query, Ev.cache_removal] _
          ⟨rfl, rfl⟩ ?_
         first | exact ih | exact Seg_nil false)

theorem Seg_ite (h1 h2 : Bool) (c : Prop) [Decidable c] (x y : List Ev) (hx : Seg h1 h2 x)
    (hy : Seg h1 h2 y) : Seg h1 h2 (if c then x else y) := by
  split_ifs
  · exact hx
  · exact hy

theorem Seg_cleanup_caches (category_mask : Nat) (cache : Option Ent) :
    Seg false false (cleanup_caches_trace category_mask cache) := by
  unfold cleanup_caches_trace
  apply Seg_ite
  · apply Seg_cons_outer _ _ (by decide)
    split
    · exact Seg_ite _ _ _ _ _ (Seg_remove_each _) (Seg_nil false)
    · exact Seg_nil false
  · apply Seg_append false false false
    · exact Seg_ite _ _ _ _ _ ⟨rfl, rfl⟩ (Seg_nil false)
    · apply Seg_ite _ _ _ _ _ _ (Seg_nil false)
      split
      · exact Seg_ite _ _ _ _ _ (Seg_remove_others _ _) (Seg_nil false)
      · exact Seg_nil false

theorem Seg_internal_empty_trash (creatable : Bool) (trash : Option Ent) :
    Seg true true (internal_empty_trash_trace creatable trash) := by
  apply Seg_inner
  intro ev hev
  unfold internal_empty_trash_trace at hev
  simp only [List.mem_append, List.mem_cons, List.not_mem_nil, or_false] at hev
  rcases hev with (h | h) | h
  · rw [h]; decide
  · rw [h]; decide
  · split at h
    · simp only [List.mem_append] at h
      rcases h with h | h
      · split_ifs at h
        · rw [List.mem_singleton.mp h]; decide
        · exact absurd h (List.not_mem_nil _)
      · split_ifs at h <;>
          simp only [List.mem_append, List.mem_cons, List.mem_singleton, List.not_mem_nil,
            or_false, false_or, or_self] at h <;>
          (rw [h]; decide)
    · split_ifs at h <;>
        simp only [List.mem_cons, List.mem_singleton, List.not_mem_nil, or_false, or_self] at h <;>
        (rw [h]; decide)

theorem Seg_clear_file_list (l : List FileInfo) : ∀ fs : Files,
    Seg true true (clear_file_list_trace l fs) := by
  induction l with
  | nil => intro fs; exact ⟨rfl, rfl⟩
  | cons info more ih =>
    intro fs
    simp only [clear_file_list_trace]
    split_ifs
    · exact Seg_append true true true _ _ ⟨rfl, rfl⟩ (ih _)
    · exact Seg_cons_inner _ _ (by decide) (ih _)

theorem Seg_migrate_list (dest : Str) (l : List FileInfo) : ∀ fs : Files,
    Seg true true (migrate_list_trace dest l fs) := by
  induction l with
  | nil => intro fs; exact ⟨rfl, rfl⟩
  | cons info more ih =>
    intro fs
    simp only [migrate_list_trace]
    split_ifs
    · exact Seg_append true true true _ _ ⟨rfl, rfl⟩ (ih _)
    · exact Seg_cons_inner _ _ (by decide) (ih _)

theorem Seg_clear_step (selected : Bool) (files : List FileInfo) (s : Files × List Ev)
    (h : Seg false true s.2) : Seg false true (clear_step selected files s).2 := by
  unfold clear_step
  split_ifs
  · exact Seg_append false true true _ _ h (Seg_clear_file_list _ _)
  · exact h

theorem Seg_migrate_step (dest : Str) (selected : Bool) (files : List FileInfo)
    (s : Files × List Ev) (h : Seg false true s.2) :
    Seg false true (migrate_step dest selected files s).2 := by
  unfold migrate_step
  split_ifs
  · exact Seg_append false true true _ _ h (Seg_migrate_list _ _ _)
  · exact h

theorem Seg_CleanupCategories (category_mask : Nat) (w : World) (g : Store) :
    Seg false false (CleanupCategories_trace category_mask w g) := by
  have hcaches : Seg false false (match w.home with
      | some _ => cleanup_caches_trace category_mask w.cache
      | none => []) := by
    split
    · exact Seg_cleanup_caches _ _
    · exact Seg_nil false
  have htrash : Seg true true (if has_bit category_mask CATEGORY_TRASH = true then
      (match w.home with
        | some _ => Ev.trash_size_query :: internal_empty_trash_trace w.trash_creatable w.trash
        | none => []) ++ [Ev.seq_write]
      else []) := by
    split_ifs
    · apply Seg_append true true true _ [Ev.seq_write] _ ⟨rfl, rfl⟩
      split
      · exact Seg_cons_inner _ _ (by decide) (Seg_internal_empty_trash _ _)
      · exact Seg_nil true
    · exact Seg_nil true
  unfold CleanupCategories_trace
  simp only []
  apply Seg_append false true false _ [Ev.unlock] _ ⟨rfl, rfl⟩
  apply Seg_clear_step
  apply Seg_clear_step
  exact Seg_append false true true _ _ (Seg_append false false true _ _ hcaches ⟨rfl, rfl⟩) htrash

theorem Seg_MigrateCategories (category_mask : Nat) (destination_dir : Str) (g : Store)
    (fs : Files) : Seg false false (MigrateCategories_trace category_mask destination_dir g fs) := by
  have hcreate : Seg false false
      (if (!fs_exists fs destination_dir) = true then [Ev.destination_creation] else []) := by
    split_ifs
    · exact ⟨rfl, rfl⟩
    · exact Seg_nil false
  unfold MigrateCategories_trace
  simp only []
  split
  · exact hcreate
  · apply Seg_append false true false _ [Ev.unlock] _ ⟨rfl, rfl⟩
    apply Seg_migrate_step
    apply Seg_migrate_step
    apply Seg_migrate_step
    apply Seg_migrate_step
    exact Seg_append false false true _ _ hcreate ⟨rfl, rfl⟩

/-! ## C17 -/

/-- C17 as stated fails in three of its parts. `process_file_entry` adds to
`g_total_junk_size` after the block of its `lock_guard` has ended, and loads
it for the callback: the running total is written and read while the guard is
not held. `CleanupCategories` takes its `lock_guard` before the trash and the
sequences are handled and keeps it to the return: with the Packages bit it
calls `fs::remove` on a recorded file, and with the Trash bit it sizes and
empties the trash, all while the guard is held. `MigrateCategories` calls
`fs::rename` on a recorded file while its `lock_guard` is held. -/
theorem guard_discipline_counterexample :
    obeys stated_policy false (process_file_entry_trace true (some 5)) = false ∧
    obeys total_policy false (process_file_entry_trace true (some 5)) = false ∧
    obeys mutation_policy false
      (CleanupCategories_trace CATEGORY_PACKAGES
        ⟨some "/home/u".toList, none, none, true,
          ⟨[⟨"/home/u/a.deb".toList, false, true, true⟩], []⟩⟩
        { cleared_store with
          g_package_files := [⟨"/home/u/a.deb".toList, 10, CATEGORY_PACKAGES⟩] }) = false ∧
    obeys size_policy false
      (CleanupCategories_trace CATEGORY_TRASH
        ⟨some "/home/u".toList, none,
          some (.dir true true
            (.sub "files".toList true true (.file "old.txt".toList (some 3) true .nil)
              (.sub "info".toList true true .nil .nil))),
          true, ⟨[], []⟩⟩ cleared_store) = false ∧
    obeys mutation_policy false
      (CleanupCategories_trace CATEGORY_TRASH
        ⟨some "/home/u".toList, none,
          some (.dir true true
            (.sub "files".toList true true (.file "old.txt".toList (some 3) true .nil)
              (.sub "info".toList true true .nil .nil))),
          true, ⟨[], []⟩⟩ cleared_store) = false ∧
    obeys mutation_policy false
      (MigrateCategories_trace CATEGORY_VIDEO "/home/u/Moved".toList
        { cleared_store with
          g_video_files := [⟨"/home/u/a.mp4".toList, 10, CATEGORY_VIDEO⟩] }
        ⟨[⟨"/home/u/Moved".toList, true, true, true⟩,
          ⟨"/home/u/a.mp4".toList, false, true, true⟩], []⟩) = false := by
  decide

/-- C17, amended: in `scan_directory` (with `process_file_entry`),
`GetScanResults`, `CleanupCategories` and `MigrateCategories`, for all
arguments and all states, the guard is never taken while held and is free when
the function returns, and every step is on the side of the guard that
`kept_policy` gives it. While the guard is held: every read and write of the
category sequences, the reset of the running total at the start of a scan,
the sizing and the emptying of the trash, the removal of recorded files and
the renaming of recorded files. While the guard is not held: the addition to
the running total and its load for the callback, the size query on a scanned
file, the sizing and the removal of the caches, the creation of the
destination directory, and the progress callback. -/
theorem guard_discipline_kept (env : ScanEnv) (home_path_str : Str) (root : Option Ent)
    (category : FileCategory) (category_mask : Nat) (destination_dir : Str) (w : World)
    (g : Store) (fs : Files) :
    (obeys kept_policy false (scan_directory_trace env home_path_str root) = true ∧
      held_after false (scan_directory_trace env home_path_str root) = false) ∧
    (obeys kept_policy false (GetScanResults_trace category g) = true ∧
      held_after false (GetScanResults_trace category g) = false) ∧
    (obeys kept_policy false (CleanupCategories_trace category_mask w g) = true ∧
      held_after false (CleanupCategories_trace category_mask w g) = false) ∧
    (obeys kept_policy false
        (MigrateCategories_trace category_mask destination_dir g fs) = true ∧
      held_after false (MigrateCategories_trace category_mask destination_dir g fs) = false) :=
  ⟨Seg_scan_directory env home_path_str root, Seg_GetScanResults category g,
    Seg_CleanupCategories category_mask w g,
    Seg_MigrateCategories category_mask destination_dir g fs⟩

/-! ## The thread steps and `scan_directory` agree -/

theorem run_thread_succ (weakly_canonical : Str → Str) (n : Nat) (e : Engine) :
    run_thread weakly_canonical (n + 1) e =
      run_thread weakly_canonical n (thread_step weakly_canonical e) := rfl

theorem run_thread_pending (weakly_canonical : Str → Str) (vs : List Visit) :
    ∀ (e : Engine) (t : ScanThread), e.thread = some t → t.pending = some vs →
      e.g_stop_scan_flag = false →
      run_thread weakly_canonical (vs.length + 1) e =
        { e with
          store := (run_entries ⟨fun _ => e.rules, fun _ => false, weakly_canonical, t.callback⟩
            (pjoin t.home_path_str "MoveFiles".toList) vs
            ⟨e.store, t.calls, t.iter, false⟩).store
          g_scan_finished := true
          thread := none } := by
  induction vs with
  | nil =>
    intro e t ht hp _
    simp only [List.length_nil, Nat.zero_add, run_thread, thread_step, ht, hp, run_entries]
  | cons v more ih =>
    intro e t ht hp hs
    rw [List.length_cons, run_thread_succ]
    have hstep : thread_step weakly_canonical e =
        { e with
          store := (loop_body ⟨fun _ => e.rules, fun _ => false, weakly_canonical, t.callback⟩
            (pjoin t.home_path_str "MoveFiles".toList) v
            ⟨e.store, t.calls, t.iter, false⟩).store
          thread := some { t with
            pending := some more
            iter := (loop_body ⟨fun _ => e.rules, fun _ => false, weakly_canonical, t.callback⟩
              (pjoin t.home_path_str "MoveFiles".toList) v
              ⟨e.store, t.calls, t.iter, false⟩).iter
            calls := (loop_body ⟨fun _ => e.rules, fun _ => false, weakly_canonical, t.callback⟩
              (pjoin t.home_path_str "MoveFiles".toList) v
              ⟨e.store, t.calls, t.iter, false⟩).calls } } := by
      simp only [thread_step, ht, hp, hs, Bool.false_eq_true, if_false]
    rw [hstep]
    refine Eq.trans (ih _ _ rfl rfl hs) ?_
    have hstopped := (loop_body_iter ⟨fun _ => e.rules, fun _ => false, weakly_canonical,
      t.callback⟩ (pjoin t.home_path_str "MoveFiles".toList) v
      ⟨e.store, t.calls, t.iter, false⟩).2
    simp only [run_entries, Bool.false_eq_true, if_false]
    congr 2
    cases hb : loop_body ⟨fun _ => e.rules, fun _ => false, weakly_canonical, t.callback⟩
      (pjoin t.home_path_str "MoveFiles".toList) v ⟨e.store, t.calls, t.iter, false⟩ with
    | mk store calls iter stopped =>
      rw [hb] at hstopped
      simp only [] at hstopped
      rw [hstopped]

/-- A scan thread left to run alone from `StartScan` to its end does what
`scan_directory` does under the rules of the engine and with no stop request:
the step-by-step account of the thread and the account of `scan_directory` as
one function agree. -/
theorem run_thread_eq_scan_directory (weakly_canonical : Str → Str) (e : Engine)
    (home_path : Str) (root : Option Ent) (callback : Bool) (h : e.g_scan_finished = true) :
    run_thread weakly_canonical ((entries_of home_path root).length + 2)
        (StartScan e home_path root callback) =
      scan_directory_thread ⟨fun _ => e.rules, fun _ => false, weakly_canonical, callback⟩
        home_path root (StartScan e home_path root callback) := by
  have hstart : StartScan e home_path root callback =
      { e with
        g_stop_scan_flag := false
        g_scan_finished := false
        thread := some ⟨home_path, callback, root, none, 0, []⟩ } := by
    simp [StartScan, h]
  rw [hstart]
  rw [run_thread_succ]
  simp only [thread_step]
  rw [run_thread_pending weakly_canonical (entries_of home_path root) _ _ rfl rfl rfl]
  simp only [scan_directory_thread, scan_directory_eq_run_entries]

/-! ## C10 -/

end DiskMaster
